import Mathlib

/-!
# cloud-builder: process runner, template expander and streaming multipart upload

A shallow embedding of `cmd/cmd.go`, `upload/upload.go`, `upload/archive.go`,
`archive/zip.go`, `api/job.go`, `processing/process.go` and `processing/releaseClient.go`
together with the parts of the Go standard library they rest on (`strings.Replacer`,
`strings.Fields`, `mime/multipart.Writer`, `io.Pipe`, `os.File.Read`, `path/filepath`),
followed by the properties of the specification that were checked against it.
-/

namespace CloudBuilder

/-! ## Strings -/

/-- A Go string (and a Go byte slice) is a finite sequence of bytes.  A byte is represented by
the character with the same code, so the ASCII literals of the source read as written and
`len` is `List.length`. -/
abbrev GoString := List Char

/-! ### `strings.Replacer` -/

/-- The lookup of `strings.genericReplacer`: among the pairs whose old string is a prefix of
`s`, the one that comes first in argument order (it has the highest priority in the trie; of
two pairs with the same old string only the first is stored).  With `ignoreRoot` the empty old
string is not considered. -/
def lookup : List (GoString × GoString) → GoString → Bool → Option (GoString × GoString)
  | [], _, _ => none
  | (old, new) :: rest, s, ignoreRoot =>
      if old.isPrefixOf s && !(ignoreRoot && old.isEmpty) then some (old, new)
      else lookup rest s ignoreRoot

/-- The scanning loop of `(*genericReplacer).Replace`.  The second argument is the number of
bytes of the input still covered by the last match: they are consumed without output.  At a
position where the empty old string matches, its value is written and the position is looked
up once more without the empty string (`prevMatchEmpty`).  The loop runs once more at the end
of the input, where only the empty old string can match. -/
def replaceLoop (pairs : List (GoString × GoString)) : GoString → Nat → GoString
  | [], _ =>
      match lookup pairs [] false with
      | some (_, new) => new
      | none => []
  | _ :: t, skip + 1 => replaceLoop pairs t skip
  | c :: t, 0 =>
      match lookup pairs (c :: t) false with
      | some ([], new) =>
          new ++
            (match lookup pairs (c :: t) true with
              | some (old2, new2) => new2 ++ replaceLoop pairs t (old2.length - 1)
              | none => c :: replaceLoop pairs t 0)
      | some (_ :: o, new) => new ++ replaceLoop pairs t o.length
      | none => c :: replaceLoop pairs t 0

/-- The result of `strings.NewReplacer(oldnew...).Replace(s)`, the arguments given as the list
of (old, new) pairs.  Replacements are performed in the order they appear in the target
string, without overlapping matches; old strings are compared in argument order.  The
specialised replacers Go selects for a single pair or for single-byte old strings compute the
same function. -/
def Replace (pairs : List (GoString × GoString)) (s : GoString) : GoString :=
  replaceLoop pairs s 0

/-! ### `strings.Fields` -/

/-- Width in bytes of the white-space rune (`unicode.IsSpace`) encoded at the head of `s`, or
`0` when the head of `s` is not such a rune: the six ASCII spaces, U+0085, U+00A0, U+1680,
U+2000 to U+200A, U+2028, U+2029, U+202F, U+205F and U+3000 in UTF-8. -/
def spaceWidth (s : GoString) : Nat :=
  match s.map Char.toNat with
  | 0x09 :: _ | 0x0A :: _ | 0x0B :: _ | 0x0C :: _ | 0x0D :: _ | 0x20 :: _ => 1
  | 0xC2 :: 0x85 :: _ | 0xC2 :: 0xA0 :: _ => 2
  | 0xE1 :: 0x9A :: 0x80 :: _ => 3
  | 0xE2 :: 0x80 :: b :: _ =>
      if (0x80 ≤ b ∧ b ≤ 0x8A) ∨ b = 0xA8 ∨ b = 0xA9 ∨ b = 0xAF then 3 else 0
  | 0xE2 :: 0x81 :: 0x9F :: _ => 3
  | 0xE3 :: 0x80 :: 0x80 :: _ => 3
  | _ => 0

/-- The loop of `strings.Fields`: `cur` is the field being collected, the second argument
the number of bytes of the current white-space rune still to be skipped. -/
def fieldsLoop : GoString → Nat → GoString → List GoString
  | [], _, cur => if cur.isEmpty then [] else [cur]
  | _ :: t, skip + 1, cur => fieldsLoop t skip cur
  | c :: t, 0, cur =>
      match spaceWidth (c :: t) with
      | 0 => fieldsLoop t 0 (cur ++ [c])
      | w + 1 => (if cur.isEmpty then [] else [cur]) ++ fieldsLoop t w []

/-- The slices of `s` between runs of white space, as `strings.Fields(s)` returns them. -/
def Fields (s : GoString) : List GoString :=
  fieldsLoop s 0 []

/-! ## Maps -/

/-- A Go `map[string]string`, given by its entries in the order a `range` loop visits them.
The keys of a map are pairwise distinct. -/
abbrev GoMap := List (GoString × GoString)

/-- The keys of a map are pairwise distinct. -/
def KeysDistinct (m : GoMap) : Prop :=
  (m.map Prod.fst).Nodup

/-- The value `m[key]`: the stored value, or the empty string when the key is absent. -/
def mapIndex (m : GoMap) (key : GoString) : GoString :=
  (m.lookup key).getD []

/-! ## `cmd/cmd.go`: template expansion -/

/-- The function `expand` of `cmd/cmd.go` (and its copy in `git/main/main.go`): one old/new
pair per map entry, the old string being the key in braces, then a single `Replace`. -/
def expand (m : GoMap) (s : GoString) : GoString :=
  let oldNew := m.map fun (key, value) => ("\x7b".toList ++ key ++ "\x7d".toList, value)
  Replace oldNew s

/-- The old/new pairs `expand` hands to the replacer. -/
def expandPairs (m : GoMap) : List (GoString × GoString) :=
  m.map fun (key, value) => ("\x7b".toList ++ key ++ "\x7d".toList, value)

/-- The text `t0 {k1} t1 ... {kn} tn`, given `t0` and the list of the pairs `(ki, ti)`. -/
def renderTemplate (t0 : GoString) : List (GoString × GoString) → GoString
  | [] => t0
  | (k, t) :: parts => t0 ++ '{' :: (k ++ '}' :: renderTemplate t parts)

/-- The text `t0 M[k1] t1 ... M[kn] tn`. -/
def renderExpanded (m : GoMap) (t0 : GoString) : List (GoString × GoString) → GoString
  | [] => t0
  | (k, t) :: parts => t0 ++ (mapIndex m k ++ renderExpanded m t parts)

/-- The function `prepareArguments` of `cmd/cmd.go`: the command line is split into fields
first, then every field is expanded on its own. -/
def prepareArguments (commandLine : GoString) (keyValueMap : GoMap) : List GoString :=
  (Fields commandLine).map fun arg => expand keyValueMap arg

/-! ## Errors -/

/-- The state of a process that was started and waited for (`os.ProcessState`). -/
inductive ProcessState where
  | exited (code : Nat)
  | signaled (signal : GoString)
  deriving DecidableEq, Repr

/-- The method `ExitCode` of `os.ProcessState`: the exit code of the exited process, or -1
when the process was terminated by a signal. -/
def ProcessState.ExitCode : ProcessState → Int
  | .exited code => code
  | .signaled _ => -1

/-- The method `String` of `os.ProcessState`. -/
def ProcessState.String : ProcessState → GoString
  | .exited code => "exit status ".toList ++ (Nat.repr code).toList
  | .signaled signal => "signal: ".toList ++ signal

/-- A Go error value, by dynamic type: `*exec.ExitError`; the sentinel `io.EOF`; a value of
`errors.New` or of `fmt.Errorf` without the verb `%w` (`*errors.errorString`); a value of
`fmt.Errorf` with `%w` (`*fmt.wrapError`), which keeps the wrapped error; any other error
reported by the operating system or a library (`*exec.Error`, `*fs.PathError`, ...). -/
inductive GoError where
  | exitError (state : ProcessState)
  | eof
  | errorString (text : GoString)
  | wrapError (text : GoString) (err : GoError)
  | other (text : GoString)
  deriving DecidableEq, Repr

/-- The method `Error` of an error value. -/
def GoError.Error : GoError → GoString
  | .exitError state => state.String
  | .eof => "EOF".toList
  | .errorString text => text
  | .wrapError text _ => text
  | .other text => text

/-- The sentinel `io.ErrClosedPipe`. -/
def ErrClosedPipe : GoError :=
  .errorString "io: read/write on closed pipe".toList

/-! ## `cmd/cmd.go`: the process runner -/

/-- A `context.Context`, as far as the runner could observe it. -/
structure Context where
  cancelled : Bool
  deriving DecidableEq, Repr

/-- Result of `os.Stat` as `Run` reads it: no error, an error for which `os.IsNotExist`
holds, or another error. -/
inductive StatResult where
  | ok
  | notExist
  | otherError
  deriving DecidableEq, Repr

/-- The operating system as the runner sees it. -/
structure Env where
  /-- Outcome of `os.Stat(path)`. -/
  stat : GoString → StatResult
  /-- Whether `exec.LookPath(file)` returns no error. -/
  lookPath : GoString → Bool
  /-- Outcome of `exec.Command(command, arguments...)` run in `dir` by `Output`: the standard
  output of the process and the error of `Output`. -/
  output : GoString → List GoString → GoString → GoString × Option GoError

/-- A call the runner makes to the operating system or to the standard output. -/
inductive Call where
  | stat (path : GoString)
  | lookPath (file : GoString)
  | output (command : GoString) (arguments : List GoString) (dir : GoString)
  | println (text : GoString)
  deriving DecidableEq, Repr

/-- Whether a call spawns a process. -/
def Call.isSpawn : Call → Bool
  | .output _ _ _ => true
  | _ => false

/-- The function `executeCommand` of `cmd/cmd.go`.  The context is not used: the command is
built with `exec.Command`.  An error of `Output` is wrapped by `fmt.Errorf` with `%w` and
printed.  Returns the output, the error and the calls made. -/
def executeCommand (env : Env) (_ctx : Context) (command : GoString)
    (arguments : List GoString) (workingDir : GoString) :
    GoString × Option GoError × List Call :=
  let (output, err) := env.output command arguments workingDir
  match err with
  | some e =>
      let err := GoError.wrapError ("error executing command: ".toList ++ e.Error ++ "\n".toList) e
      (output, some err, [Call.output command arguments workingDir, Call.println err.Error])
  | none => (output, none, [Call.output command arguments workingDir])

/-- The struct `Cmd` of `cmd/cmd.go`. -/
structure Cmd where
  Command : GoString
  CommandLine : GoString
  WorkingDir : GoString
  Placeholders : GoMap
  Output : GoString
  Error : Option GoError
  ExitCode : Int
  arguments : List GoString
  deriving DecidableEq, Repr

/-- What a call of `Run` leaves behind: the returned error, the `Cmd` after the call and the
calls made, in order. -/
structure RunResult where
  ret : Option GoError
  cmd : Cmd
  calls : List Call
  deriving DecidableEq, Repr

/-- The method `Run` of `Cmd`.  The type assertion `c.Error.(*exec.ExitError)` succeeds
only for an error whose dynamic type is `*exec.ExitError`. -/
def Cmd.Run (env : Env) (ctx : Context) (c : Cmd) : RunResult :=
  let c := { c with arguments := prepareArguments c.CommandLine c.Placeholders }
  if env.stat c.WorkingDir = StatResult.notExist then
    let c := { c with
      Error := some (.errorString ("working directory does not exist: ".toList ++ c.WorkingDir)) }
    { ret := c.Error, cmd := c, calls := [Call.stat c.WorkingDir] }
  else if env.lookPath c.Command = false then
    let c := { c with
      Error := some (.errorString ("command not found: ".toList ++ c.Command)) }
    { ret := c.Error, cmd := c, calls := [Call.stat c.WorkingDir, Call.lookPath c.Command] }
  else
    let (output, err, calls) := executeCommand env ctx c.Command c.arguments c.WorkingDir
    let c := { c with Output := output, Error := err }
    let c :=
      match c.Error with
      | some (.exitError exitError) => { c with ExitCode := exitError.ExitCode }
      | _ => c
    { ret := c.Error, cmd := c,
      calls := [Call.stat c.WorkingDir, Call.lookPath c.Command] ++ calls }

/-! ## `mime/multipart.Writer` -/

/-- The lower-case hexadecimal digit of a number below sixteen. -/
def hexDigit (n : Nat) : Char :=
  "0123456789abcdef".toList.getD n '0'

/-- The function `randomBoundary` of `mime/multipart`: the thirty bytes read from the random
source, printed with `%x`. -/
def randomBoundary (rnd : List Nat) : GoString :=
  rnd.flatMap fun b => [hexDigit (b % 256 / 16), hexDigit (b % 16)]

/-- A `multipart.Writer` over a `bytes.Buffer`: the bytes written to the buffer so far, the
boundary, and whether a part was created (`lastpart != nil`). -/
structure Writer where
  buf : GoString
  boundary : GoString
  lastpart : Bool
  deriving DecidableEq, Repr

/-- The function `multipart.NewWriter` over an empty buffer. -/
def NewWriter (rnd : List Nat) : Writer :=
  { buf := [], boundary := randomBoundary rnd, lastpart := false }

/-- The function `escapeQuotes` of `mime/multipart`: a backslash before every backslash and
every double quote. -/
def escapeQuotes (s : GoString) : GoString :=
  Replace [("\\".toList, "\\\\".toList), ("\"".toList, "\\\"".toList)] s

/-- The method `CreatePart`: the boundary line (after a line break when a part precedes),
the header lines in the order of their keys, and an empty line.  `header` lists the header in
that order.  A write to a `bytes.Buffer` returns no error. -/
def Writer.CreatePart (w : Writer) (header : List (GoString × GoString)) :
    Except GoError Writer :=
  let delimiter :=
    if w.lastpart then "\r\n--".toList ++ w.boundary ++ "\r\n".toList
    else "--".toList ++ w.boundary ++ "\r\n".toList
  let lines := header.flatMap fun (k, v) => k ++ ": ".toList ++ v ++ "\r\n".toList
  .ok { w with buf := w.buf ++ (delimiter ++ lines ++ "\r\n".toList), lastpart := true }

/-- The method `CreateFormField`. -/
def Writer.CreateFormField (w : Writer) (fieldname : GoString) : Except GoError Writer :=
  w.CreatePart
    [("Content-Disposition".toList,
      "form-data; name=\"".toList ++ escapeQuotes fieldname ++ "\"".toList)]

/-- The method `WriteField`: a part for the field, then the value as its content. -/
def Writer.WriteField (w : Writer) (fieldname value : GoString) : Except GoError Writer :=
  match w.CreateFormField fieldname with
  | .error err => .error err
  | .ok p => .ok { p with buf := p.buf ++ value }

/-- The method `CreateFormFile`. -/
def Writer.CreateFormFile (w : Writer) (fieldname filename : GoString) :
    Except GoError Writer :=
  w.CreatePart
    [("Content-Disposition".toList,
      "form-data; name=\"".toList ++ escapeQuotes fieldname ++ "\"; filename=\"".toList
        ++ escapeQuotes filename ++ "\"".toList),
     ("Content-Type".toList, "application/octet-stream".toList)]

/-- The method `FormDataContentType`: the boundary is quoted when it holds one of the special
characters of RFC 2045 or a space. -/
def Writer.FormDataContentType (w : Writer) : GoString :=
  let b :=
    if w.boundary.any fun c => "()<>@,;:\\\"/[]?= ".toList.contains c then
      "\"".toList ++ w.boundary ++ "\"".toList
    else w.boundary
  "multipart/form-data; boundary=".toList ++ b

/-- The trailing boundary line that `Close` writes. -/
def closingLine (boundary : GoString) : GoString :=
  "\r\n--".toList ++ boundary ++ "--\r\n".toList

/-- The method `Close`: the trailing boundary line. -/
def Writer.Close (w : Writer) : Except GoError Writer :=
  .ok { w with buf := w.buf ++ closingLine w.boundary, lastpart := false }

/-! ## `upload/upload.go` -/

/-- An `os.FileInfo`, as far as the upload reads it. -/
structure FileInfo where
  Name : GoString
  Size : Int
  deriving DecidableEq, Repr

/-- The loop over `params` in `prepareMultipartForm`. -/
def writeFields (w : Writer) : GoMap → Except GoError Writer
  | [] => .ok w
  | (key, value) :: rest =>
      match w.WriteField key value with
      | .error err => .error err
      | .ok w => writeFields w rest

/-- The function `prepareMultipartForm` of `upload/upload.go`; `rnd` are the bytes the writer
draws for its boundary.  `headerBytes` is the content of the buffer after the file part was
created; `boundaryBytes` is the content of the same buffer after `Close`. -/
def prepareMultipartForm (rnd : List Nat) (params : GoMap) (fileInfo : FileInfo) :
    Except GoError (GoString × GoString × GoString) :=
  let multipartFormWriter := NewWriter rnd
  match writeFields multipartFormWriter params with
  | .error err => .error err
  | .ok multipartFormWriter =>
    match multipartFormWriter.CreateFormFile "file".toList fileInfo.Name with
    | .error err => .error err
    | .ok multipartFormWriter =>
      let contentType := multipartFormWriter.FormDataContentType
      let headerBytes := multipartFormWriter.buf
      match multipartFormWriter.Close with
      | .error err => .error err
      | .ok multipartFormWriter =>
        let boundaryBytes := multipartFormWriter.buf
        .ok (contentType, headerBytes, boundaryBytes)

/-! ### The file and the pipe -/

/-- How one call of `Read` on the file behaves: it fills the buffer as far as the file
reaches, or returns fewer bytes (at least one), or fails. -/
inductive ReadStep where
  | full
  | short (k : Nat)
  | fail (err : GoError)
  deriving DecidableEq, Repr

/-- The number of bytes a read into a buffer of `n` bytes may return at most. -/
def ReadStep.limit : ReadStep → Nat → Nat
  | .short k, n => min n (max k 1)
  | _, n => n

/-- An open `os.File`: the bytes between the read offset and the end of the file, and the
behaviour of the coming calls of `Read`; once the plan is used up every read is full. -/
structure File where
  rest : GoString
  plan : List ReadStep
  deriving DecidableEq, Repr

/-- The method `Read` of `os.File` for a buffer of `n` bytes: the bytes read, the error, and
the file afterwards.  A read into an empty buffer returns at once, with no bytes and no error;
at the end of the file `Read` returns no bytes and `io.EOF`. -/
def File.Read (f : File) (n : Nat) : GoString × Option GoError × File :=
  if n = 0 then ([], none, f)
  else
    let step := f.plan.headD ReadStep.full
    let f := { f with plan := f.plan.tail }
    match step with
    | .fail err => ([], some err, f)
    | _ =>
      if f.rest.isEmpty then ([], some GoError.eof, f)
      else (f.rest.take (step.limit n), none, { f with rest := f.rest.drop (step.limit n) })

/-- What happens on the write end of the pipe: a `Write` of `p` of which the reader took `n`
bytes and that returned `err`, or a `Close`. -/
inductive PipeEvent where
  | write (p : GoString) (n : Nat) (err : Option GoError)
  | close
  deriving DecidableEq, Repr

/-- Whether the event is a `Close`. -/
def PipeEvent.isClose : PipeEvent → Bool
  | .close => true
  | _ => false

/-- The bytes the reader took in this event. -/
def PipeEvent.taken : PipeEvent → GoString
  | .write p n _ => p.take n
  | .close => []

/-- The write end of an `io.Pipe`: the events so far, and the behaviour of the read end.
`respond i` is `none` when the reader takes the whole of the write number `i`, and `some k`
when the read end is closed after at most `k` of its bytes, so that the write fails. -/
structure PipeWriter where
  respond : Nat → Option Nat
  events : List PipeEvent

/-- Whether the write end was closed. -/
def PipeWriter.closed (pw : PipeWriter) : Bool :=
  pw.events.any PipeEvent.isClose

/-- The number of writes so far. -/
def PipeWriter.writes (pw : PipeWriter) : Nat :=
  (pw.events.filter fun e => !e.isClose).length

/-- The bytes the reader of the pipe received. -/
def PipeWriter.received (pw : PipeWriter) : GoString :=
  pw.events.flatMap PipeEvent.taken

/-- The method `Write` of `io.PipeWriter`: the number of bytes written, the error, the pipe
afterwards.  A write after `Close` fails with `io.ErrClosedPipe`. -/
def PipeWriter.Write (pw : PipeWriter) (p : GoString) : Nat × Option GoError × PipeWriter :=
  let (n, err) :=
    if pw.closed then (0, some ErrClosedPipe)
    else
      match pw.respond pw.writes with
      | none => (p.length, none)
      | some k => (min k p.length, some ErrClosedPipe)
  (n, err, { pw with events := pw.events ++ [PipeEvent.write p n err] })

/-- The method `Close` of `io.PipeWriter`; it always returns nil. -/
def PipeWriter.Close (pw : PipeWriter) : Option GoError × PipeWriter :=
  (none, { pw with events := pw.events ++ [PipeEvent.close] })

/-- The call `logger.Logger.Errorf(format + "%v", err)` made when `err` is not nil. -/
def logError (log : List GoString) (message : GoString) : Option GoError → List GoString
  | some err => log ++ [message ++ err.Error]
  | none => log

/-- The `for` loop of `uploadFileInChunks`.  `fuel` bounds the number of iterations; the
result is `none` when the loop is still running after `fuel` iterations. -/
def chunkLoop (chunkSize : Nat) :
    Nat → File → PipeWriter → List GoString → Option (File × PipeWriter × List GoString)
  | 0, _, _, _ => none
  | fuel + 1, file, pipeWriter, log =>
      let (buffer, err, file) := file.Read chunkSize
      match err with
      | some err =>
          let log :=
            if err ≠ GoError.eof then
              log ++ ["failed to read from the file pipe reader: ".toList ++ err.Error]
            else log
          some (file, pipeWriter, log)
      | none =>
          let (_, err, pipeWriter) := pipeWriter.Write buffer
          let log := logError log "failed to write file bytes to the multipart form: ".toList err
          chunkLoop chunkSize fuel file pipeWriter log

/-- The function `uploadFileInChunks` of `upload/upload.go`: the file and the pipe when it
returns, and the messages logged; `none` when the loop does not end within `fuel`
iterations.  The deferred `Close` runs when the function returns. -/
def uploadFileInChunks (fuel : Nat) (file : File) (pipeWriter : PipeWriter)
    (openingHeader closingBoundary : GoString) (chunkSize : Nat) :
    Option (File × PipeWriter × List GoString) :=
  let (_, err, pipeWriter) := pipeWriter.Write openingHeader
  let log := logError [] "failed to write the opening header to the multipart form: ".toList err
  match chunkLoop chunkSize fuel file pipeWriter log with
  | none => none
  | some (file, pipeWriter, log) =>
      let (_, err, pipeWriter) := pipeWriter.Write closingBoundary
      let log :=
        logError log "failed to write the closing boundary to the multipart form: ".toList err
      let (err, pipeWriter) := pipeWriter.Close
      let log := logError log "failed to close the pipe writer: ".toList err
      some (file, pipeWriter, log)

/-! ### `uploadEntityFile` -/

/-- A `uuid.UUID`: its sixteen bytes. -/
structure UUID where
  bytes : List Nat
  deriving DecidableEq, Repr

/-- The method `IsNil`: every byte is zero. -/
def UUID.IsNil (u : UUID) : Bool :=
  u.bytes.all fun b => b % 256 == 0

/-- The method `String`: the bytes in hexadecimal, in groups of 8, 4, 4, 4 and 12 digits. -/
def UUID.String (u : UUID) : GoString :=
  let h := randomBoundary u.bytes
  h.take 8 ++ '-' :: (h.drop 8).take 4 ++ '-' :: (h.drop 12).take 4 ++ '-' ::
    (h.drop 16).take 4 ++ '-' :: h.drop 20

/-- The value of the type `int64` congruent to `x` modulo `2 ^ 64`. -/
def wrapInt64 (x : Int) : Int :=
  (x + 2 ^ 63) % 2 ^ 64 - 2 ^ 63

/-- An `http.Request` whose body is the read end of the pipe. -/
structure Request where
  Method : GoString
  URL : GoString
  ContentLength : Int
  Header : List (GoString × GoString)
  deriving DecidableEq, Repr

/-- An `http.Response`: the status code, and what `io.ReadAll` of its body gives. -/
structure Response where
  StatusCode : Nat
  Body : Except GoError GoString

/-- What `uploadEntityFile` reads from the configuration, the file system, the random source
and the network. -/
structure UploadEnv where
  /-- The value of `config.Api.Url`. -/
  ApiUrl : GoString
  /-- The value of `config.Api.Token`. -/
  ApiToken : GoString
  /-- Outcome of `os.Open(path)` followed by `file.Stat()`: the error of `Open`, or the open
  file with the outcome of `Stat`. -/
  openFile : GoString → Except GoError (File × Except GoError FileInfo)
  /-- The bytes the multipart writer draws for its boundary. -/
  rnd : List Nat
  /-- The error of `http.NewRequest` for the method PUT and this URL, if any. -/
  newRequest : GoString → Option GoError
  /-- Outcome of `client.Do(req)`. -/
  doRequest : Request → Except GoError Response

/-- A step of `uploadEntityFile` that is visible outside of it. -/
inductive UploadCall where
  | openFile (path : GoString)
  | closeFile
  | stat
  | pipe
  | closePipeReader
  | go (openingHeader closingBoundary : GoString) (chunkSize : Nat)
  | newRequest (url : GoString)
  | doRequest (req : Request)
  | closeBody
  deriving DecidableEq, Repr

/-- What a call of `uploadEntityFile` leaves behind: the returned error and the steps made,
deferred calls included, in order. -/
structure UploadResult where
  ret : Option GoError
  calls : List UploadCall
  deriving DecidableEq, Repr

/-- The function `uploadEntityFile` of `upload/upload.go`.  The statement
`go uploadFileInChunks(...)` is recorded with its arguments; the stream it produces is read
by the transport inside `client.Do`. -/
def uploadEntityFile (env : UploadEnv) (_ctx : Context) (entityId : UUID)
    (fileType fileMime target platform path originalPath : GoString) (params : GoMap) :
    UploadResult :=
  let chunkSize := 100 * 1024 * 1024
  if entityId.IsNil then
    { ret := some (.errorString "invalid job entity id".toList), calls := [] }
  else
    let reqUrl := env.ApiUrl ++ "/entities/".toList ++ entityId.String
      ++ "/files/upload?type=".toList ++ fileType ++ "&mime=".toList ++ fileMime
      ++ "&deployment=".toList ++ target ++ "&platform=".toList ++ platform
      ++ "&original-path=".toList ++ originalPath
    match env.openFile path with
    | .error err =>
        { ret := some (.errorString ("failed to open file: ".toList ++ err.Error)),
          calls := [.openFile path] }
    | .ok (_file, statResult) =>
      match statResult with
      | .error err =>
          { ret := some (.errorString ("failed to stat file: ".toList ++ err.Error)),
            calls := [.openFile path, .stat, .closeFile] }
      | .ok fileInfo =>
        match prepareMultipartForm env.rnd params fileInfo with
        | .error err => { ret := some err, calls := [.openFile path, .stat, .closeFile] }
        | .ok (contentType, openingHeader, closingBoundary) =>
          let started := [UploadCall.openFile path, .stat, .pipe,
            .go openingHeader closingBoundary chunkSize, .newRequest reqUrl]
          let totalSize := wrapInt64 (wrapInt64 (Int.ofNat openingHeader.length + fileInfo.Size)
            + Int.ofNat closingBoundary.length)
          match env.newRequest reqUrl with
          | some err =>
              { ret := some (.errorString ("failed to create request: ".toList ++ err.Error)),
                calls := started ++ [.closePipeReader, .closeFile] }
          | none =>
            let req : Request :=
              { Method := "PUT".toList, URL := reqUrl, ContentLength := totalSize,
                Header := [("Content-Type".toList, contentType),
                  ("Accept".toList, "application/json".toList),
                  ("Authorization".toList, "Bearer ".toList ++ env.ApiToken)] }
            match env.doRequest req with
            | .error err =>
                { ret := some (.errorString ("failed to send request: ".toList ++ err.Error)),
                  calls := started ++ [.doRequest req, .closePipeReader, .closeFile] }
            | .ok resp =>
              let finished := started ++ [.doRequest req, .closeBody, .closePipeReader, .closeFile]
              if resp.StatusCode ≥ 400 then
                match resp.Body with
                | .error err =>
                    { ret := some (.errorString
                        ("failed to read the response body: ".toList ++ err.Error)),
                      calls := finished }
                | .ok body =>
                    { ret := some (.errorString
                        ("failed to upload a file, status code: ".toList
                          ++ (Nat.repr resp.StatusCode).toList ++ ", content: ".toList ++ body)),
                      calls := finished }
              else { ret := none, calls := finished }

/-! ## `upload/archive.go` -/

/-- The upper-case hexadecimal digit of a number below sixteen. -/
def upperhex (n : Nat) : Char :=
  "0123456789ABCDEF".toList.getD n '0'

/-- Whether `url.QueryEscape` keeps the byte: letters, digits, and `-`, `_`, `.`, `~`. -/
def unreservedByte (c : Char) : Bool :=
  c.isAlphanum || "-_.~".toList.contains c

/-- The function `url.QueryEscape`: a space becomes `+`, every other byte that is not
unreserved becomes `%` and its two hexadecimal digits. -/
def QueryEscape (s : GoString) : GoString :=
  s.flatMap fun c =>
    if unreservedByte c then [c]
    else if c = ' ' then ['+']
    else ['%', upperhex (c.toNat / 16 % 16), upperhex (c.toNat % 16)]

/-- A call `ReleaseArchive` makes: the MIME detection, which reads the file, and the upload
with its arguments and the steps it made. -/
inductive ArchiveCall where
  | detectFile (path : GoString)
  | uploadEntityFile (entityId : UUID) (fileType fileMime target platform path
      originalPath : GoString) (params : GoMap) (steps : List UploadCall)
  deriving DecidableEq, Repr

/-- What a call of `ReleaseArchive` leaves behind: the returned error and the calls made. -/
structure ArchiveResult where
  ret : Option GoError
  calls : List ArchiveCall
  deriving DecidableEq, Repr

/-- The function `ReleaseArchive` of `upload/archive.go`.  `detectFile` is the outcome of
`mimetype.DetectFile(path)`: the MIME type as a string, or an error. -/
def ReleaseArchive (env : UploadEnv) (detectFile : GoString → Except GoError GoString)
    (ctx : Context) (releaseId : UUID) (target platform path originalPath : GoString)
    (params : GoMap) : ArchiveResult :=
  if releaseId.IsNil then
    { ret := some (.errorString "invalid release id".toList), calls := [] }
  else
    let fileType := "release-archive".toList
    let fileMime :=
      match detectFile path with
      | .ok pMIME => pMIME
      | .error _ => "application/octet-stream".toList
    let fileMime := QueryEscape fileMime
    let r := uploadEntityFile env ctx releaseId fileType fileMime target platform path
      originalPath params
    { ret := r.ret,
      calls := [.detectFile path,
        .uploadEntityFile releaseId fileType fileMime target platform path originalPath params
          r.calls] }

/-! ## `path/filepath` -/

/-- The elements of a path between its slashes. -/
def splitSlash : GoString → List GoString
  | [] => [[]]
  | c :: t =>
      if c = '/' then [] :: splitSlash t
      else
        match splitSlash t with
        | e :: rest => (c :: e) :: rest
        | [] => [[c]]

/-- One element in the loop of `filepath.Clean`; `out` holds the elements kept so far, the
last one first.  An empty element and `.` are dropped; `..` removes the last element kept
when that is a name, is dropped at the root, and is kept otherwise. -/
def cleanStep (rooted : Bool) (out : List GoString) (e : GoString) : List GoString :=
  if e = [] ∨ e = ['.'] then out
  else if e = ['.', '.'] then
    match out with
    | top :: rest => if top = ['.', '.'] then e :: out else rest
    | [] => if rooted then [] else [e]
  else e :: out

/-- The elements joined by slashes. -/
def joinSlash : List GoString → GoString
  | [] => []
  | [e] => e
  | e :: rest => e ++ '/' :: joinSlash rest

/-- The function `filepath.Clean` for slash-separated paths: the shortest path equivalent to
`path` by purely lexical processing. -/
def Clean (path : GoString) : GoString :=
  if path = [] then ['.']
  else
    let rooted := path.head? = some '/'
    let out := ((splitSlash path).foldl (cleanStep rooted) []).reverse
    if rooted then '/' :: joinSlash out
    else if out = [] then ['.']
    else joinSlash out

/-- The function `filepath.Join` for slash-separated paths: the elements from the first one
that is not empty, joined by slashes and cleaned; the empty string when all are empty. -/
def Join (elem : List GoString) : GoString :=
  match elem.dropWhile fun e => e.isEmpty with
  | [] => []
  | rest => Clean (joinSlash rest)

/-- The type `JobType`. -/
inductive JobType where
  | Release
  | Package
  deriving DecidableEq, Repr

/-- The type `TargetType`. -/
inductive TargetType where
  | Client
  | Server
  | Editor
  | Launcher
  | ServerLauncher
  | PixelStreamingLauncher
  deriving DecidableEq, Repr

/-- The type `JobStatusType`. -/
inductive JobStatusType where
  | Unclaimed
  | Claimed
  | Processing
  | Uploading
  | Completed
  | Error
  | Cancelled
  deriving DecidableEq, Repr

/-- The table `Config.JobMapping`. -/
def JobMapping : JobType → GoString
  | .Release => "release".toList
  | .Package => "package".toList

/-- The table `Config.TargetMapping`. -/
def TargetMapping : TargetType → GoString
  | .Client => "client".toList
  | .Server => "server".toList
  | .Editor => "editor".toList
  | .Launcher => "launcher".toList
  | .ServerLauncher => "server-launcher".toList
  | .PixelStreamingLauncher => "pixel-streaming-launcher".toList

/-- The struct `UnrealEngineVersionConfig`. -/
structure UnrealEngineVersionConfig where
  AutomationToolPath : GoString
  VersionSelectorPath : GoString
  EditorPath : GoString
  Version : GoString
  deriving DecidableEq, Repr

/-- The package variables of `config` that the job pipeline reads: the API address and token,
the project directory and name, the two engine configurations, the three sets of enabled
names (`map[string]bool`, entries in any order) and the ignored files of a release. -/
structure Config where
  ApiUrl : GoString
  ApiToken : GoString
  ProjectDirectory : GoString
  ProjectName : GoString
  Code : UnrealEngineVersionConfig
  Marketplace : UnrealEngineVersionConfig
  EnabledTargets : List (GoString × Bool)
  EnabledJobs : List (GoString × Bool)
  EnabledPlatforms : List (GoString × Bool)
  IgnoredFiles : List GoString
  deriving DecidableEq, Repr

/-- The value `m[key]` of a `map[string]bool`: false when the key is absent. -/
def enabled (m : List (GoString × Bool)) (key : GoString) : Bool :=
  (m.lookup key).getD false

/-! ## The job -/

/-- The release metadata of a job (`sm.ReleaseV2`), as far as the pipeline reads it: the id,
the id of the application, the version, the code version, and the options `Maps` and
`Archive`. -/
structure ReleaseV2 where
  Id : UUID
  AppId : UUID
  Version : GoString
  CodeVersion : GoString
  Maps : GoString
  Archive : Bool
  deriving DecidableEq, Repr

/-- The package metadata of a job, as far as the pipeline reads it. -/
structure PackageV2 where
  Id : UUID
  deriving DecidableEq, Repr

/-- A job (`sm.JobV2`), as far as the pipeline reads it; `Type_` is its field `Type`.
`Release` and `Package` are pointers: `none` is nil. -/
structure JobV2 where
  Id : UUID
  Type_ : GoString
  Target : GoString
  Platform : GoString
  Configuration : GoString
  Release : Option ReleaseV2
  Package : Option PackageV2
  deriving DecidableEq, Repr

/-! ## `git/git.go` and `unreal/unreal.go` -/

/-- The function `git.Fetch`: the error it returns and the calls of the `Run` inside. -/
def Fetch (env : Env) (ctx : Context) (workdir : GoString) : Option GoError × List Call :=
  let gitFetch : Cmd :=
    { Command := "git".toList, CommandLine := "fetch".toList, WorkingDir := workdir,
      Placeholders := [], Output := [], Error := none, ExitCode := 0, arguments := [] }
  let r := gitFetch.Run env ctx
  match r.ret with
  | some err =>
      (some (.wrapError ("failed to update the repo: ".toList ++ err.Error) err), r.calls)
  | none => (none, r.calls)

/-- The function `git.CheckoutTag`. -/
def CheckoutTag (env : Env) (ctx : Context) (workdir tag : GoString) :
    Option GoError × List Call :=
  let gitCheckout : Cmd :=
    { Command := "git".toList, CommandLine := "checkout \x7btag\x7d".toList,
      WorkingDir := workdir, Placeholders := [("tag".toList, tag)], Output := [],
      Error := none, ExitCode := 0, arguments := [] }
  let r := gitCheckout.Run env ctx
  match r.ret with
  | some err => (some (.wrapError ("failed to checkout tag: ".toList ++ err.Error) err), r.calls)
  | none => (none, r.calls)

/-- The function `unreal.GetStagingDir`. -/
def GetStagingDir (projectDir : GoString) : GoString :=
  Join [projectDir, "Saved".toList, "StagedBuilds".toList]

/-- The function `unreal.RunAutomationTool`. -/
def RunAutomationTool (env : Env) (ctx : Context) (workdir command cmdline : GoString)
    (placeholders : GoMap) : Option GoError × List Call :=
  let uat : Cmd :=
    { Command := command, CommandLine := cmdline, WorkingDir := workdir,
      Placeholders := placeholders, Output := [], Error := none, ExitCode := 0,
      arguments := [] }
  let r := uat.Run env ctx
  match r.ret with
  | some err =>
      (some (.wrapError ("failed to run Unreal Automation Tool: ".toList ++ err.Error) err),
        r.calls)
  | none => (none, r.calls)

/-- The function `unreal.SwitchProjectEngineVersion`. -/
def SwitchProjectEngineVersion (cfg : Config) (env : Env) (ctx : Context)
    (workdir project version : GoString) : Option GoError × List Call :=
  let projectDescriptorPath := Join [workdir, project ++ ".uproject".toList]
  if cfg.Code.VersionSelectorPath ≠ [] ∨ cfg.Marketplace.VersionSelectorPath ≠ [] then
    let versionSelectorPath :=
      if cfg.Code.VersionSelectorPath ≠ [] then cfg.Code.VersionSelectorPath
      else cfg.Marketplace.VersionSelectorPath
    let uvs : Cmd :=
      { Command := versionSelectorPath,
        CommandLine := "-switchversionsilent \x7bproject\x7d \x7bversion\x7d".toList,
        WorkingDir := workdir,
        Placeholders := [("project".toList, projectDescriptorPath), ("version".toList, version)],
        Output := [], Error := none, ExitCode := 0, arguments := [] }
    let r := uvs.Run env ctx
    match r.ret with
    | some err =>
        (some (.wrapError ("failed to switch engine version for the project ".toList
          ++ projectDescriptorPath ++ ": ".toList ++ err.Error) err), r.calls)
    | none => (none, r.calls)
  else (some (.errorString "failed to find engine version selector tool".toList), [])

/-! ## `api/job.go` -/

/-- The decoded body of the reply to the request for an unclaimed job. -/
structure JobContainer where
  Job : JobV2
  Status : GoString
  Message : GoString
  deriving DecidableEq, Repr

/-- What the job pipeline reaches outside of the program.
`fetchReply url` is the course of the request for an unclaimed job: the error of `Login`, of
building or of sending the request, or else the status code of the response with the decoded
body (or the error of reading or decoding it).  `patchReply job status message` is the course
of a status update: the error of `Login`, of encoding, building or sending the request, or
else the status code.  `listFiles` is `sh.ListFilesRecursive`, `createZip` the outcome of
`archive.CreateZipArchive`, and `releaseArchive` the outcome of `upload.ReleaseArchive` as the
release procedure calls it, with the job and the path of the archive. -/
structure Services where
  os : Env
  fetchReply : GoString → Except GoError (Nat × Except GoError JobContainer)
  patchReply : UUID → JobStatusType → GoString → Except GoError Nat
  listFiles : GoString → List GoString → Except GoError (List GoString)
  createZip : GoString → GoString → List GoString → Option GoError
  releaseArchive : JobV2 → GoString → Option GoError

/-- Something the job pipeline does that is visible outside of it. -/
inductive Event where
  | fetchUnclaimedJob (url : GoString)
  | sleep (seconds : Nat)
  | updateJobStatus (job : UUID) (status : JobStatusType) (message : GoString)
  | log (text : GoString)
  | os (call : Call)
  | listFiles (dir : GoString) (ignored : List GoString)
  | createZip (output basePath : GoString) (files : List GoString)
  | releaseArchive (job : UUID) (path : GoString)
  deriving DecidableEq, Repr

/-- Whether the event is a status update. -/
def Event.isStatusUpdate : Event → Bool
  | .updateJobStatus _ _ _ => true
  | _ => false

/-- Whether the event is a status update to a terminal status: completed, error or
cancelled. -/
def Event.isTerminalUpdate : Event → Bool
  | .updateJobStatus _ .Completed _ => true
  | .updateJobStatus _ .Error _ => true
  | .updateJobStatus _ .Cancelled _ => true
  | _ => false

/-- Whether the event is a call to the operating system made by the process runner. -/
def Event.isCommand : Event → Bool
  | .os _ => true
  | _ => false

/-- Whether the event is a listing of files, the creation of an archive or an upload. -/
def Event.isDelivery : Event → Bool
  | .listFiles _ _ => true
  | .createZip _ _ _ => true
  | .releaseArchive _ _ => true
  | _ => false

/-- The keys of a `map[string]bool` whose value is true. -/
def enabledNames (m : List (GoString × Bool)) : List GoString :=
  (m.filter fun kv => kv.2).map fun kv => kv.1

/-- The function `strings.Join`. -/
def stringsJoin (elems : List GoString) (sep : GoString) : GoString :=
  match elems with
  | [] => []
  | [e] => e
  | e :: rest => e ++ sep ++ stringsJoin rest sep

/-- The address `FetchUnclaimedJob` requests: the enabled platforms, job types and targets,
each list joined by commas. -/
def unclaimedJobURL (cfg : Config) : GoString :=
  cfg.ApiUrl ++ "/job/v2/unclaimed?platform=".toList
    ++ stringsJoin (enabledNames cfg.EnabledPlatforms) ",".toList ++ "&type=".toList
    ++ stringsJoin (enabledNames cfg.EnabledJobs) ",".toList ++ "&target=".toList
    ++ stringsJoin (enabledNames cfg.EnabledTargets) ",".toList

/-- The function `api.FetchUnclaimedJob`: the job (a pointer, `none` is nil), the error, and
the events. -/
def FetchUnclaimedJob (cfg : Config) (sv : Services) (_ctx : Context) :
    Option JobV2 × Option GoError × List Event :=
  let url := unclaimedJobURL cfg
  let failed := "failed to fetch unclaimed job from ".toList ++ url
  match sv.fetchReply url with
  | .error err => (none, some err, [.fetchUnclaimedJob url])
  | .ok (statusCode, body) =>
    if statusCode ≥ 400 then
      (none, some (.errorString (failed ++ ", status code: ".toList
        ++ (Nat.repr statusCode).toList ++ ", error: <nil>".toList)), [.fetchUnclaimedJob url])
    else
      match body with
      | .error err => (none, some err, [.fetchUnclaimedJob url])
      | .ok c =>
        if c.Status = "no jobs".toList then (none, none, [.fetchUnclaimedJob url])
        else if c.Status = "error".toList then
          (none, some (.errorString (failed ++ ", status code: ".toList
            ++ (Nat.repr statusCode).toList ++ ", error: ".toList ++ c.Message)),
            [.fetchUnclaimedJob url])
        else (some c.Job, none, [.fetchUnclaimedJob url])

/-- The function `api.UpdateJobStatus`: the error and the events. -/
def UpdateJobStatus (sv : Services) (_ctx : Context) (job : Option JobV2)
    (status : JobStatusType) (message : GoString) : Option GoError × List Event :=
  match job with
  | none => (some (.errorString "job is nil".toList), [])
  | some job =>
    match sv.patchReply job.Id status message with
    | .error err => (some err, [.updateJobStatus job.Id status message])
    | .ok statusCode =>
      if statusCode ≥ 400 then
        (some (.errorString ("failed to update job status, status code: ".toList
          ++ (Nat.repr statusCode).toList ++ ", error: <nil>".toList)),
          [.updateJobStatus job.Id status message])
      else (none, [.updateJobStatus job.Id status message])

/-! ## `processing/releaseClient.go` -/

/-- The function `generateReleaseClientCmdline`: the command line, the placeholders (the
entries in the order of the map literal) and the error. -/
def generateReleaseClientCmdline (cfg : Config) (_ctx : Context) (job : Option JobV2) :
    GoString × GoMap × Option GoError :=
  match job with
  | none => ([], [], some (.errorString "job is nil".toList))
  | some job =>
    match job.Release with
    | none => ([], [], some (.errorString "job release is nil".toList))
    | some release =>
      if release.Id.IsNil then ([], [], some (.errorString "invalid job release".toList))
      else
        let stagingDirectory :=
          Join [cfg.ProjectDirectory, "Saved".toList, "StagedBuilds".toList, release.Version]
        let cmdline := ("BuildCookRun -project=\x7bproject\x7d -noP4 -unrealexe=\x7bunrealexe\x7d"
          ++ " -clientconfig=\x7bconfiguration\x7d -platform=\x7bplatform\x7d"
          ++ " -ini:Game:[/Script/UnrealEd.ProjectPackagingSettings]:"
          ++ "BlueprintNativizationMethod=Disabled -build -cook -unversionedcookedcontent"
          ++ " -SkipCookingEditorContent -map=\x7bmaps\x7d -pak -compressed -package"
          ++ " -createreleaseversion=\x7breleaseVersion\x7d -stage"
          ++ " -stagingdirectory=\x7bstagingDirectory\x7d -VeryVerbose -NoCodeSign"
          ++ " -BuildMachine -AllowCommandletRendering -utf8output -debuginfo -debug").toList
        let placeholders : GoMap :=
          [("project".toList, cfg.ProjectName ++ ".uproject".toList),
           ("unrealexe".toList, cfg.Code.EditorPath),
           ("configuration".toList, job.Configuration),
           ("platform".toList, job.Platform),
           ("maps".toList, release.Maps),
           ("releaseVersion".toList, release.Version),
           ("stagingDirectory".toList, stagingDirectory)]
        let cmdline :=
          if job.Configuration = "Shipping".toList then
            cmdline ++ " -CrashReporter -distribution -prereqs".toList
          else cmdline
        (cmdline, placeholders, none)

/-- The events of the calls a `Run` made. -/
def osEvents (calls : List Call) : List Event :=
  calls.map Event.os

/-- The function `processReleaseClient`: the error it returns and the events, in order.  The
result of `upload.ReleaseArchive` is assigned to `err` and the function then returns nil. -/
def processReleaseClient (cfg : Config) (sv : Services) (ctx : Context) (job : Option JobV2) :
    Option GoError × List Event :=
  match job with
  | none => (some (.errorString "job is nil".toList), [])
  | some j =>
    let (err, ev0) := UpdateJobStatus sv ctx job JobStatusType.Processing []
    if err.isSome then (err, ev0)
    else if !enabled cfg.EnabledJobs j.Type_ then
      (some (.errorString ("invalid job type: ".toList ++ j.Type_)), ev0)
    else if !enabled cfg.EnabledTargets j.Target then
      (some (.errorString ("invalid job target: ".toList ++ j.Target)), ev0)
    else if !enabled cfg.EnabledPlatforms j.Platform then
      (some (.errorString ("invalid job platform: ".toList ++ j.Platform)), ev0)
    else
      match j.Release with
      | none => (some (.errorString "job release is nil".toList), ev0)
      | some release =>
        if release.Id.IsNil then (some (.errorString "invalid job release".toList), ev0)
        else
          let (err, calls) := Fetch sv.os ctx cfg.ProjectDirectory
          let ev1 := ev0 ++ osEvents calls
          match err with
          | some err =>
              (some (.wrapError ("failed to update the repo: ".toList ++ err.Error) err), ev1)
          | none =>
            let (err, calls) := CheckoutTag sv.os ctx cfg.ProjectDirectory release.CodeVersion
            let ev2 := ev1 ++ osEvents calls
            match err with
            | some err =>
                (some (.wrapError ("failed to checkout tag ".toList ++ release.CodeVersion
                  ++ ": ".toList ++ err.Error) err), ev2)
            | none =>
              let (err, calls) := SwitchProjectEngineVersion cfg sv.os ctx cfg.ProjectDirectory
                cfg.ProjectName release.CodeVersion
              let ev3 := ev2 ++ osEvents calls
              match err with
              | some err =>
                  (some (.wrapError ("failed to switch project engine version: ".toList
                    ++ err.Error) err), ev3)
              | none =>
                let (cmdline, placeholders, _) := generateReleaseClientCmdline cfg ctx job
                let (err, calls) := RunAutomationTool sv.os ctx cfg.ProjectDirectory
                  cfg.Code.AutomationToolPath cmdline placeholders
                let ev4 := ev3 ++ osEvents calls
                match err with
                | some err => (some err, ev4)
                | none =>
                  let ignoredFiles := cfg.IgnoredFiles
                  let stagingDirectory :=
                    Join [GetStagingDir cfg.ProjectDirectory, release.Version]
                  let ev5 := ev4 ++ [Event.listFiles stagingDirectory ignoredFiles]
                  match sv.listFiles stagingDirectory ignoredFiles with
                  | .error err =>
                      (some (.wrapError ("failed to list files: ".toList ++ err.Error) err), ev5)
                  | .ok files =>
                    if release.Archive then
                      let zipFileName := release.AppId.String ++ "-".toList ++ release.Version
                        ++ "-".toList ++ j.Target ++ "-".toList ++ j.Platform ++ "-".toList
                        ++ j.Configuration ++ ".zip".toList
                      let ev6 := ev5 ++ [Event.createZip zipFileName stagingDirectory files]
                      match sv.createZip zipFileName stagingDirectory files with
                      | some err =>
                          (some (.wrapError ("failed to create a release archive: ".toList
                            ++ err.Error) err), ev6)
                      | none =>
                        let _err := sv.releaseArchive j zipFileName
                        (none, ev6 ++ [Event.releaseArchive j.Id zipFileName])
                    else (none, ev5)

/-! ## `processing/process.go` -/

/-- The build procedures `Process` dispatches to. -/
inductive Procedure where
  | ReleaseClient
  | ReleaseServer
  | ReleaseEditor
  | ReleaseLauncher
  | ReleaseServerLauncher
  | ReleasePixelStreamingLauncher
  | PackageClient
  | PackageServer
  deriving DecidableEq, Repr

/-- The call of a build procedure: `processReleaseClient` for the release of a client; the
other procedures are not part of the sources and are given by `absent`, with the error and
the events of each. -/
def callProcedure (cfg : Config) (sv : Services)
    (absent : Procedure → JobV2 → Option GoError × List Event) (ctx : Context)
    (p : Procedure) (job : JobV2) : Option GoError × List Event × List Procedure :=
  match p with
  | .ReleaseClient =>
      let r := processReleaseClient cfg sv ctx (some job)
      (r.1, r.2, [p])
  | _ =>
      let r := absent p job
      (r.1, r.2, [p])

/-- The part of `Process` after the job was fetched and the status update deferred: the
validation of the job and the dispatch on its type and target.  Returns the value of `err`
at the return, the events and the procedures called. -/
def validateAndDispatch (cfg : Config) (sv : Services)
    (absent : Procedure → JobV2 → Option GoError × List Event) (ctx : Context) (job : JobV2) :
    Option GoError × List Event × List Procedure :=
  if !enabled cfg.EnabledJobs job.Type_ then
    (some (.errorString ("invalid job type: ".toList ++ job.Type_)), [], [])
  else if !enabled cfg.EnabledTargets job.Target then
    (some (.errorString ("invalid job deployment: ".toList ++ job.Target)), [], [])
  else if !enabled cfg.EnabledPlatforms job.Platform then
    (some (.errorString ("invalid job platform: ".toList ++ job.Platform)), [], [])
  else if job.Type_ = JobMapping .Release then
    if job.Release.isNone then
      (some (.errorString ("no release metadata, required for job type: ".toList ++ job.Type_)),
        [], [])
    else if job.Target = TargetMapping .Client then
      callProcedure cfg sv absent ctx .ReleaseClient job
    else if job.Target = TargetMapping .Server then
      callProcedure cfg sv absent ctx .ReleaseServer job
    else if job.Target = TargetMapping .Editor then
      callProcedure cfg sv absent ctx .ReleaseEditor job
    else if job.Target = TargetMapping .Launcher then
      callProcedure cfg sv absent ctx .ReleaseLauncher job
    else if job.Target = TargetMapping .ServerLauncher then
      callProcedure cfg sv absent ctx .ReleaseServerLauncher job
    else if job.Target = TargetMapping .PixelStreamingLauncher then
      callProcedure cfg sv absent ctx .ReleasePixelStreamingLauncher job
    else
      (some (.errorString ("invalid job deployment ".toList ++ job.Target ++ " for type ".toList
        ++ job.Type_)), [], [])
  else if job.Type_ = JobMapping .Package then
    if job.Package.isNone then
      (some (.errorString ("no package metadata, required for job type: ".toList ++ job.Type_)),
        [], [])
    else if job.Target = TargetMapping .Client then
      callProcedure cfg sv absent ctx .PackageClient job
    else if job.Target = TargetMapping .Server then
      callProcedure cfg sv absent ctx .PackageServer job
    else
      (some (.errorString ("invalid job deployment ".toList ++ job.Target ++ " for type ".toList
        ++ job.Type_)), [], [])
  else (some (.errorString ("invalid job type: ".toList ++ job.Type_)), [], [])

/-- What a call of `Process` leaves behind: the returned error, the events in order, and the
build procedures called. -/
structure ProcessResult where
  ret : Option GoError
  events : List Event
  invoked : List Procedure
  deriving DecidableEq, Repr

/-- The function `Process` of `processing/process.go`.  The deferred function runs at the
return, after `err` has its final value: it reports the status error with the text of `err`,
or the status completed with an empty message, and logs a failure of this report. -/
def Process (cfg : Config) (sv : Services)
    (absent : Procedure → JobV2 → Option GoError × List Event) (ctx : Context) :
    ProcessResult :=
  match FetchUnclaimedJob cfg sv ctx with
  | (_, some err, ev) => { ret := some err, events := ev, invoked := [] }
  | (none, none, ev) => { ret := none, events := ev ++ [Event.sleep 10], invoked := [] }
  | (some job, none, ev) =>
    let (err, events, invoked) := validateAndDispatch cfg sv absent ctx job
    let (err1, ev1) :=
      match err with
      | some e => UpdateJobStatus sv ctx (some job) JobStatusType.Error e.Error
      | none => UpdateJobStatus sv ctx (some job) JobStatusType.Completed []
    let logs :=
      match err1 with
      | some err1 => [Event.log ("failed to update job status: ".toList ++ err1.Error)]
      | none => []
    { ret := err, events := ev ++ events ++ ev1 ++ logs, invoked := invoked }

/-- The status update that reports the outcome `err` of a job: the status error with the
text of the error, or the status completed with an empty message. -/
def reportEvent (job : JobV2) (err : Option GoError) : Event :=
  match err with
  | some e => Event.updateJobStatus job.Id JobStatusType.Error e.Error
  | none => Event.updateJobStatus job.Id JobStatusType.Completed []

/-- Whether the event is a log entry. -/
def Event.isLog : Event → Bool
  | .log _ => true
  | _ => false

/-! ## Sample inputs -/

/-- An environment whose answers do not depend on the question: every `os.Stat` gives `st`,
`exec.LookPath` succeeds when `found`, and every process gives the outcome `out`. -/
def fixedEnv (st : StatResult) (found : Bool) (out : GoString × Option GoError) : Env :=
  { stat := fun _ => st, lookPath := fun _ => found, output := fun _ _ _ => out }

/-- A `Cmd` as a caller builds it: the four configuration fields set, the rest zero. -/
def freshCmd (command commandLine workingDir : GoString) (placeholders : GoMap) : Cmd :=
  { Command := command, CommandLine := commandLine, WorkingDir := workingDir,
    Placeholders := placeholders, Output := [], Error := none, ExitCode := 0, arguments := [] }

/-- The file information of a file `a.zip` of three bytes. -/
def sampleInfo : FileInfo :=
  { Name := "a.zip".toList, Size := 3 }

/-- An upload environment: the file `a.zip` holds `abc`, the request can be built and is
answered with status 200. -/
def sampleUploadEnv : UploadEnv :=
  { ApiUrl := "http://api".toList, ApiToken := "t".toList,
    openFile := fun _ => .ok ({ rest := "abc".toList, plan := [] }, .ok sampleInfo),
    rnd := List.range 30,
    newRequest := fun _ => none,
    doRequest := fun _ => .ok { StatusCode := 200, Body := .ok [] } }

/-- The results of `prepareMultipartForm` for the sample upload without form fields. -/
def sampleForm : GoString × GoString × GoString :=
  match prepareMultipartForm sampleUploadEnv.rnd [] sampleInfo with
  | .ok form => form
  | .error _ => ([], [], [])

/-- An entity id that is not nil. -/
def sampleId : UUID :=
  { bytes := [1, 2, 3, 4, 5, 6, 7, 8, 9, 10, 11, 12, 13, 14, 15, 16] }

/-- The call of `uploadEntityFile` for the sample upload. -/
def sampleUpload : UploadResult :=
  uploadEntityFile sampleUploadEnv { cancelled := false } sampleId "release".toList
    "application/zip".toList "Client".toList "Win64".toList "a.zip".toList "a.zip".toList []

/-- The request the sample upload sends. -/
def sampleRequest : Request :=
  { Method := "PUT".toList,
    URL := ("http://api/entities/01020304-0506-0708-090a-0b0c0d0e0f10/files/upload?type=release"
      ++ "&mime=application/zip&deployment=Client&platform=Win64&original-path=a.zip").toList,
    ContentLength := 409,
    Header := [("Content-Type".toList, sampleForm.1),
      ("Accept".toList, "application/json".toList),
      ("Authorization".toList, "Bearer t".toList)] }

/-! ## A reader of multipart bodies -/

/-- The text before and the text after the first occurrence of `pat` in a text, if any. -/
def splitAtFirst (pat : GoString) : GoString → Option (GoString × GoString)
  | [] => if pat.isEmpty then some ([], []) else none
  | c :: t =>
      if pat.isPrefixOf (c :: t) then some ([], (c :: t).drop pat.length)
      else
        match splitAtFirst pat t with
        | some (before, after) => some (c :: before, after)
        | none => none

/-- A body part as a reader sees it: the header lines, and the content after the empty
line. -/
def readPart (text : GoString) : GoString × GoString :=
  if "\r\n".toList.isPrefixOf text then ([], text.drop 2)
  else
    match splitAtFirst "\r\n\r\n".toList text with
    | some (header, content) => (header, content)
    | none => (text, [])

/-- The parts of a multipart body from the first body part on (RFC 2046): a part extends to
the next delimiter, a line break followed by two dashes and the boundary; after the delimiter
two dashes end the body and a line break starts the next part. -/
def readParts (boundary : GoString) : Nat → GoString → Option (List (GoString × GoString))
  | 0, _ => none
  | fuel + 1, rest =>
      match splitAtFirst ("\r\n--".toList ++ boundary) rest with
      | none => none
      | some (text, after) =>
          if "--".toList.isPrefixOf after then some [readPart text]
          else if "\r\n".toList.isPrefixOf after then
            match readParts boundary fuel (after.drop 2) with
            | some parts => some (readPart text :: parts)
            | none => none
          else none

/-- What a conforming reader of `multipart/form-data` makes of a body for a given boundary:
the parts in order, each with its header lines and its content; `none` for a body that does
not start with the boundary line or does not end with the closing delimiter. -/
def readMultipart (boundary body : GoString) : Option (List (GoString × GoString)) :=
  if ("--".toList ++ boundary ++ "\r\n".toList).isPrefixOf body then
    readParts boundary body.length (body.drop (boundary.length + 4))
  else none

/-- The header lines of the file part of the sample upload. -/
def sampleFileHeader : GoString :=
  ("Content-Disposition: form-data; name=\"file\"; filename=\"a.zip\"\r\n"
    ++ "Content-Type: application/octet-stream").toList

/-- A configuration with release jobs for the client on Win64 enabled. -/
def sampleConfig : Config :=
  { ApiUrl := "http://api".toList, ApiToken := "t".toList,
    ProjectDirectory := "/proj".toList, ProjectName := "Metaverse".toList,
    Code :=
      { AutomationToolPath := "RunUAT".toList, VersionSelectorPath := "UVS".toList,
        EditorPath := "UnrealEditor-Cmd".toList, Version := [] },
    Marketplace :=
      { AutomationToolPath := [], VersionSelectorPath := [], EditorPath := [], Version := [] },
    EnabledTargets := [("client".toList, true)],
    EnabledJobs := [("release".toList, true)],
    EnabledPlatforms := [("Win64".toList, true)],
    IgnoredFiles := [".git".toList] }

/-- The release 1.0 of the sample application, to be delivered as an archive. -/
def sampleRelease : ReleaseV2 :=
  { Id := sampleId, AppId := sampleId, Version := "1.0".toList, CodeVersion := "5.1".toList,
    Maps := [], Archive := true }

/-- A job: the release of the client for Win64 in the shipping configuration. -/
def sampleJob : JobV2 :=
  { Id := sampleId, Type_ := "release".toList, Target := "client".toList,
    Platform := "Win64".toList, Configuration := "Shipping".toList,
    Release := some sampleRelease, Package := none }

/-- The reply to the request for an unclaimed job that carries the given job. -/
def jobReply (job : JobV2) : Except GoError (Nat × Except GoError JobContainer) :=
  .ok (200, .ok { Job := job, Status := "ok".toList, Message := [] })

/-- The reply to the request for an unclaimed job when there is none. -/
def noJobsReply : Except GoError (Nat × Except GoError JobContainer) :=
  .ok (200, .ok { Job := sampleJob, Status := "no jobs".toList, Message := [] })

/-- Services in which every request for a job gets the given reply, every status update is
accepted, the staging directory holds one file, and archive and upload succeed. -/
def sampleServices (reply : Except GoError (Nat × Except GoError JobContainer)) (os : Env) :
    Services :=
  { os := os, fetchReply := fun _ => reply, patchReply := fun _ _ _ => .ok 200,
    listFiles := fun _ _ => .ok ["a.pak".toList], createZip := fun _ _ _ => none,
    releaseArchive := fun _ _ => none }

/-- Build procedures that do nothing and succeed, for the procedures that are not part of
the sources. -/
def idleProcedures : Procedure → JobV2 → Option GoError × List Event :=
  fun _ _ => (none, [])

/-- An operating system in which every command succeeds, except the automation tool `RunUAT`,
which exits with status 1. -/
def buildFailsEnv : Env :=
  { stat := fun _ => StatResult.ok, lookPath := fun _ => true,
    output := fun command _ _ =>
      if command = "RunUAT".toList then ([], some (GoError.exitError (ProcessState.exited 1)))
      else ([], none) }

/-- The build procedure the specification selects for a job type and a target. -/
def procedureFor (jobType target : GoString) : Option Procedure :=
  [(("release".toList, "client".toList), Procedure.ReleaseClient),
   (("release".toList, "server".toList), Procedure.ReleaseServer),
   (("release".toList, "editor".toList), Procedure.ReleaseEditor),
   (("release".toList, "launcher".toList), Procedure.ReleaseLauncher),
   (("release".toList, "server-launcher".toList), Procedure.ReleaseServerLauncher),
   (("release".toList, "pixel-streaming-launcher".toList),
     Procedure.ReleasePixelStreamingLauncher),
   (("package".toList, "client".toList), Procedure.PackageClient),
   (("package".toList, "server".toList), Procedure.PackageServer)].lookup (jobType, target)

/-! ## Notions used in the properties -/

/-- A multipart body up to the end of its last part, for the boundary `B`: the line `--B` and
the first part, then for every later part a line break, the line `--B` and the part. -/
def delimitedParts (boundary : GoString) : List GoString → GoString
  | [] => []
  | first :: later =>
      "--".toList ++ boundary ++ "\r\n".toList ++ first
        ++ later.flatMap fun p => "\r\n--".toList ++ boundary ++ "\r\n".toList ++ p

/-- The text `CreatePart` appends for each of the parts, the first of them after a part
already written or not. -/
def partsText (boundary : GoString) : Bool → List GoString → GoString
  | _, [] => []
  | lastpart, p :: rest =>
      (if lastpart then "\r\n--".toList ++ boundary ++ "\r\n".toList
        else "--".toList ++ boundary ++ "\r\n".toList) ++ p ++ partsText boundary true rest

/-- The write of `p` of which `n` bytes were taken and that returned `err`. -/
def writeEvent (w : GoString × Nat × Option GoError) : PipeEvent :=
  PipeEvent.write w.1 w.2.1 w.2.2

/-- Whether the event is an upload. -/
def Event.isUpload : Event → Bool
  | .releaseArchive _ _ => true
  | _ => false

/-- The sample services with every command succeeding, in which the upload of the archive
fails: the request cannot be sent. -/
def uploadFailsServices : Services :=
  { sampleServices (jobReply sampleJob) (fixedEnv StatResult.ok true ([], none)) with
    releaseArchive := fun _ _ =>
      some (.errorString "failed to send request: connection refused".toList) }

/-- The sample job for a release that is not to be delivered as an archive. -/
def sampleJobFiles : JobV2 :=
  { sampleJob with Release := some { sampleRelease with Archive := false } }

/-- The name of the archive of the sample job. -/
def sampleZipName : GoString :=
  "01020304-0506-0708-090a-0b0c0d0e0f10-1.0-client-Win64-Shipping.zip".toList

/-- The names of the placeholders in a text: for every opening brace that a closing brace
follows, the text between it and the first closing brace after it. -/
def placeholderNames : GoString → List GoString
  | [] => []
  | c :: t =>
      if c = '{' then
        match splitAtFirst ['}'] t with
        | some (name, _) => name :: placeholderNames t
        | none => placeholderNames t
      else placeholderNames t

/-- Whether a field of a command line is a text without braces, followed or not by one
placeholder whose name is among `keys`. -/
def fieldExpandable (keys : List GoString) (field : GoString) : Bool :=
  let text := field.takeWhile fun c => c != '{'
  let rest := field.dropWhile fun c => c != '{'
  !text.contains '}' && (rest.isEmpty || keys.any fun k => rest == '{' :: (k ++ ['}']))

/-- The outcome of steps made in order, each given by its error and its events, when the
first failing step aborts all later steps: the error of the first step that fails, and the
events of the steps up to this one; no error and the events of all steps when none fails. -/
def firstFailure : List (Option GoError × List Event) → Option GoError × List Event
  | [] => (none, [])
  | (some err, events) :: _ => (some err, events)
  | (none, events) :: rest => ((firstFailure rest).1, events ++ (firstFailure rest).2)

/-- The steps of `processReleaseClient` after the validation of the job, in the order of the
source, each with the error the procedure returns when the step fails and with the events of
the step: the status update to processing, the fetch, the checkout of the tag, the switch of
the engine version, the build, the listing of the staging directory and, when the release
asks for an archive, the creation of the archive and the upload, whose error the procedure
does not return. -/
def releaseClientSteps (cfg : Config) (sv : Services) (ctx : Context) (job : JobV2)
    (release : ReleaseV2) : List (Option GoError × List Event) :=
  let fetch := Fetch sv.os ctx cfg.ProjectDirectory
  let checkout := CheckoutTag sv.os ctx cfg.ProjectDirectory release.CodeVersion
  let switchVersion := SwitchProjectEngineVersion cfg sv.os ctx cfg.ProjectDirectory
    cfg.ProjectName release.CodeVersion
  let build := RunAutomationTool sv.os ctx cfg.ProjectDirectory cfg.Code.AutomationToolPath
    (generateReleaseClientCmdline cfg ctx (some job)).1
    (generateReleaseClientCmdline cfg ctx (some job)).2.1
  let stagingDirectory := Join [GetStagingDir cfg.ProjectDirectory, release.Version]
  let zipFileName := release.AppId.String ++ "-".toList ++ release.Version
    ++ "-".toList ++ job.Target ++ "-".toList ++ job.Platform ++ "-".toList
    ++ job.Configuration ++ ".zip".toList
  [UpdateJobStatus sv ctx (some job) JobStatusType.Processing [],
   (fetch.1.map fun err =>
      GoError.wrapError ("failed to update the repo: ".toList ++ err.Error) err,
    osEvents fetch.2),
   (checkout.1.map fun err =>
      GoError.wrapError ("failed to checkout tag ".toList ++ release.CodeVersion
        ++ ": ".toList ++ err.Error) err,
    osEvents checkout.2),
   (switchVersion.1.map fun err =>
      GoError.wrapError ("failed to switch project engine version: ".toList ++ err.Error) err,
    osEvents switchVersion.2),
   (build.1, osEvents build.2)]
  ++
  match sv.listFiles stagingDirectory cfg.IgnoredFiles with
  | .error err =>
      [(some (GoError.wrapError ("failed to list files: ".toList ++ err.Error) err),
        [Event.listFiles stagingDirectory cfg.IgnoredFiles])]
  | .ok files =>
      (none, [Event.listFiles stagingDirectory cfg.IgnoredFiles]) ::
        if release.Archive then
          [((sv.createZip zipFileName stagingDirectory files).map fun err =>
              GoError.wrapError ("failed to create a release archive: ".toList ++ err.Error)
                err,
            [Event.createZip zipFileName stagingDirectory files]),
           (none, [Event.releaseArchive job.Id zipFileName])]
        else []

/-- An operating system in which the working directory exists and `git` is found but exits
with status 128, so that the fetch of the release procedure fails; every other command
succeeds. -/
def fetchFailsEnv : Env :=
  { stat := fun _ => StatResult.ok, lookPath := fun _ => true,
    output := fun command _ _ =>
      if command = "git".toList then ([], some (GoError.exitError (ProcessState.exited 128)))
      else ([], none) }

/-! ## Lemmas on the replacer -/

theorem expand_eq (m : GoMap) (s : GoString) :
    expand m s = replaceLoop (expandPairs m) s 0 := rfl

theorem expandPairs_cons (k v : GoString) (m : GoMap) :
    expandPairs ((k, v) :: m) = ('{' :: (k ++ ['}']), v) :: expandPairs m := rfl

theorem lookup_none_of_forall (pairs : List (GoString × GoString)) (s : GoString) (b : Bool)
    (h : ∀ p ∈ pairs, ¬ p.1 <+: s) : lookup pairs s b = none := by
  induction pairs with
  | nil => rfl
  | cons p rest ih =>
    obtain ⟨old, new⟩ := p
    have h1 : ¬ old <+: s := h (old, new) (List.mem_cons_self _ _)
    have h2 : old.isPrefixOf s = false := by
      rw [Bool.eq_false_iff]; intro hc; exact h1 (List.isPrefixOf_iff_prefix.mp hc)
    simp only [lookup, h2, Bool.false_and]
    exact ih (fun p hp => h p (List.mem_cons_of_mem _ hp))

theorem mem_expandPairs {m : GoMap} {p : GoString × GoString} (hp : p ∈ expandPairs m) :
    ∃ kv ∈ m, p = ('{' :: (kv.1 ++ ['}']), kv.2) := by
  unfold expandPairs at hp
  rw [List.mem_map] at hp
  obtain ⟨kv, hkv, rfl⟩ := hp
  exact ⟨kv, hkv, rfl⟩

/-- No pattern of `expand` matches at a position that does not hold an opening brace. -/
theorem lookup_expand_not_brace (m : GoMap) (s : GoString) (b : Bool)
    (h : ∀ t, s ≠ '{' :: t) : lookup (expandPairs m) s b = none := by
  apply lookup_none_of_forall
  intro p hp hpre
  obtain ⟨kv, _, rfl⟩ := mem_expandPairs hp
  obtain ⟨r, hr⟩ := hpre
  exact h _ (by simpa using hr.symm)

/-- Bytes covered by a match are consumed without output. -/
theorem replaceLoop_skip (pairs : List (GoString × GoString)) (o rest : GoString) :
    replaceLoop pairs (o ++ rest) o.length = replaceLoop pairs rest 0 := by
  induction o with
  | nil => rfl
  | cons c o ih => simpa [replaceLoop] using ih

/-- A key in braces is a prefix of another key in braces (followed by anything) only if the
keys are equal, provided the second key has no closing brace and either the first has none or
nothing follows. -/
theorem brace_key_unique (a : GoString) (ha : '}' ∉ a) :
    ∀ (k rest : GoString), ('}' ∉ k ∨ rest = []) → (k ++ ['}']) <+: (a ++ '}' :: rest) → k = a := by
  induction a with
  | nil =>
    intro k rest hk hpre
    cases k with
    | nil => rfl
    | cons c k =>
      simp only [List.nil_append, List.cons_append, List.cons_prefix_cons] at hpre
      obtain ⟨hc, hpre⟩ := hpre
      rcases hk with hk | hk
      · exact absurd (hc ▸ List.mem_cons_self _ _) hk
      · subst hk
        have := hpre.length_le
        simp at this
  | cons x a ih =>
    intro k rest hk hpre
    cases k with
    | nil =>
      simp only [List.nil_append, List.cons_append, List.cons_prefix_cons] at hpre
      exact absurd (hpre.1 ▸ List.mem_cons_self _ _) ha
    | cons c k =>
      simp only [List.cons_append, List.cons_prefix_cons] at hpre
      obtain ⟨hc, hpre⟩ := hpre
      have hk2 : '}' ∉ k ∨ rest = [] := by
        rcases hk with hk | hk
        · left; intro hmem; exact hk (List.mem_cons_of_mem _ hmem)
        · right; exact hk
      have := ih (fun hmem => ha (List.mem_cons_of_mem _ hmem)) k rest hk2 hpre
      rw [hc, this]

/-- At a position that holds the key `a` in braces, the lookup finds the entry of `a`, when no
other key in braces is a prefix of the input there. -/
theorem lookup_expand_key (m : GoMap) (a v s : GoString)
    (huniq : ∀ kv ∈ m, ('{' :: (kv.1 ++ ['}'])) <+: s → kv.1 = a)
    (hv : m.lookup a = some v) (hpre : ('{' :: (a ++ ['}'])) <+: s) :
    lookup (expandPairs m) s false = some ('{' :: (a ++ ['}']), v) := by
  induction m with
  | nil => simp at hv
  | cons kv m ih =>
    obtain ⟨k, w⟩ := kv
    rw [expandPairs_cons]
    by_cases hk : k = a
    · subst hk
      have hw : w = v := by simpa [List.lookup] using hv
      have : ('{' :: (k ++ ['}'])).isPrefixOf s = true := List.isPrefixOf_iff_prefix.mpr hpre
      simp [lookup, this, hw]
    · have hnot : ¬ ('{' :: (k ++ ['}'])) <+: s := fun hc =>
        hk (huniq (k, w) (List.mem_cons_self _ _) hc)
      have h2 : ('{' :: (k ++ ['}'])).isPrefixOf s = false := by
        rw [Bool.eq_false_iff]; intro hc; exact hnot (List.isPrefixOf_iff_prefix.mp hc)
      have hv2 : m.lookup a = some v := by
        have hne : (a == k) = false := by
          rw [beq_eq_false_iff_ne]; exact fun h => hk h.symm
        simpa [List.lookup, hne] using hv
      simp only [lookup, h2, Bool.false_and]
      exact ih (fun kv hkv => huniq kv (List.mem_cons_of_mem _ hkv)) hv2

/-- Where no pattern matches at any position, the replacer copies its input. -/
theorem replaceLoop_no_match (pairs : List (GoString × GoString)) (s : GoString)
    (h : ∀ t, t <:+ s → lookup pairs t false = none) : replaceLoop pairs s 0 = s := by
  induction s with
  | nil => simp [replaceLoop, h [] (List.suffix_refl _)]
  | cons c t ih =>
    have h0 := h (c :: t) (List.suffix_refl _)
    have ht := ih (fun u hu => h u (hu.trans (List.suffix_cons c t)))
    simp [replaceLoop, h0, ht]

/-- No pattern of `expand` matches the empty input: the patterns are not empty. -/
theorem lookup_expand_nil (m : GoMap) (b : Bool) : lookup (expandPairs m) [] b = none :=
  lookup_expand_not_brace m [] b (fun _ h => by cases h)

theorem replaceLoop_expand_nil (m : GoMap) : replaceLoop (expandPairs m) [] 0 = [] := by
  simp [replaceLoop, lookup_expand_nil]

/-- Text without an opening brace is copied. -/
theorem replaceLoop_expand_literal (m : GoMap) (t rest : GoString) (ht : '{' ∉ t) :
    replaceLoop (expandPairs m) (t ++ rest) 0 = t ++ replaceLoop (expandPairs m) rest 0 := by
  induction t with
  | nil => rfl
  | cons c t ih =>
    have hc : ∀ u, c :: (t ++ rest) ≠ '{' :: u := by
      intro u hu
      injection hu with h1 _
      exact ht (h1 ▸ List.mem_cons_self _ _)
    have h0 := lookup_expand_not_brace m (c :: (t ++ rest)) false hc
    have := ih (fun hmem => ht (List.mem_cons_of_mem _ hmem))
    simp [replaceLoop, h0, this]

/-- A placeholder whose key is in the map is replaced by the value of the key, when no other
key in braces matches at that position. -/
theorem replaceLoop_expand_key (m : GoMap) (a v rest : GoString)
    (huniq : ∀ kv ∈ m, ('{' :: (kv.1 ++ ['}'])) <+: ('{' :: (a ++ '}' :: rest)) → kv.1 = a)
    (hv : m.lookup a = some v) :
    replaceLoop (expandPairs m) ('{' :: (a ++ '}' :: rest)) 0
      = v ++ replaceLoop (expandPairs m) rest 0 := by
  have hpre : ('{' :: (a ++ ['}'])) <+: ('{' :: (a ++ '}' :: rest)) := ⟨rest, by simp⟩
  have h0 := lookup_expand_key m a v _ huniq hv hpre
  have hskip := replaceLoop_skip (expandPairs m) (a ++ ['}']) rest
  simp only [List.append_assoc, List.singleton_append] at hskip
  simp only [replaceLoop, h0, List.cons_append]
  rw [hskip]

theorem lookup_isSome_of_mem_keys (m : GoMap) (a : GoString) (ha : a ∈ m.map Prod.fst) :
    ∃ v, m.lookup a = some v := by
  induction m with
  | nil => simp at ha
  | cons kv m ih =>
    obtain ⟨k, w⟩ := kv
    by_cases hk : a = k
    · exact ⟨w, by simp [List.lookup, hk]⟩
    · have hmem : a ∈ m.map Prod.fst := by
        simp only [List.map_cons, List.mem_cons] at ha
        rcases ha with h | h
        · exact absurd h hk
        · exact h
      obtain ⟨v, hv⟩ := ih hmem
      have hne : (a == k) = false := by rw [beq_eq_false_iff_ne]; exact hk
      exact ⟨v, by simp [List.lookup, hne, hv]⟩

/-! ## Template expansion: properties -/

/-- C8: for a map whose keys hold no brace, and a text made of literal segments without
braces separated by placeholders whose keys are in the map, `expand` replaces every
placeholder by the value of its key and keeps the literal segments. -/
theorem expand_replaces_every_placeholder (m : GoMap) (t0 : GoString)
    (parts : List (GoString × GoString))
    (hkeys : ∀ kv ∈ m, '{' ∉ kv.1 ∧ '}' ∉ kv.1)
    (ht0 : '{' ∉ t0 ∧ '}' ∉ t0)
    (hparts : ∀ p ∈ parts, p.1 ∈ m.map Prod.fst ∧ '{' ∉ p.2 ∧ '}' ∉ p.2) :
    expand m (renderTemplate t0 parts) = renderExpanded m t0 parts := by
  rw [expand_eq]
  induction parts generalizing t0 with
  | nil =>
    have := replaceLoop_expand_literal m t0 [] ht0.1
    simpa [renderTemplate, renderExpanded, replaceLoop_expand_nil] using this
  | cons p parts ih =>
    obtain ⟨k, t⟩ := p
    have hp := hparts (k, t) (List.mem_cons_self _ _)
    obtain ⟨v, hv⟩ := lookup_isSome_of_mem_keys m k hp.1
    have hknb : '}' ∉ k := by
      have hmem := hp.1
      rw [List.mem_map] at hmem
      obtain ⟨kv, hkv, hk⟩ := hmem
      have hk2 : kv.1 = k := hk
      exact hk2 ▸ (hkeys kv hkv).2
    have huniq : ∀ kv ∈ m, ('{' :: (kv.1 ++ ['}'])) <+:
        ('{' :: (k ++ '}' :: renderTemplate t parts)) → kv.1 = k := by
      intro kv hkv hpre
      rw [List.cons_prefix_cons] at hpre
      exact brace_key_unique k hknb kv.1 _ (Or.inl (hkeys kv hkv).2) hpre.2
    have hrec := ih t ⟨hp.2.1, hp.2.2⟩ (fun q hq => hparts q (List.mem_cons_of_mem _ hq))
    simp only [renderTemplate, renderExpanded]
    rw [replaceLoop_expand_literal m t0 _ ht0.1, replaceLoop_expand_key m k v _ huniq hv, hrec]
    simp [mapIndex, hv]

/-- C9: when no key of the map, put in braces, occurs in the text, `expand` returns the text
unchanged. -/
theorem expand_unknown_keys_literal (m : GoMap) (s : GoString)
    (h : ∀ kv ∈ m, ¬ ('{' :: (kv.1 ++ ['}'])) <:+: s) : expand m s = s := by
  rw [expand_eq]
  apply replaceLoop_no_match
  intro t ht
  apply lookup_none_of_forall
  intro p hp hpre
  obtain ⟨kv, hkv, rfl⟩ := mem_expandPairs hp
  exact h kv hkv (hpre.isInfix.trans ht.isInfix)

/-- C10: for a key `a` of the map without a closing brace, `expand` maps the text `{a}` to
the value of `a` as it stands: the value is not scanned for placeholders again. -/
theorem expand_is_simultaneous (m : GoMap) (a : GoString)
    (hmem : a ∈ m.map Prod.fst) (ha : '}' ∉ a) :
    expand m ('{' :: (a ++ ['}'])) = mapIndex m a := by
  obtain ⟨v, hv⟩ := lookup_isSome_of_mem_keys m a hmem
  have huniq : ∀ kv ∈ m, ('{' :: (kv.1 ++ ['}'])) <+: ('{' :: (a ++ '}' :: [])) → kv.1 = a := by
    intro kv _ hpre
    rw [List.cons_prefix_cons] at hpre
    exact brace_key_unique a ha kv.1 [] (Or.inr rfl) hpre.2
  rw [expand_eq, replaceLoop_expand_key m a v [] huniq hv, replaceLoop_expand_nil]
  simp [mapIndex, hv]

/-- Witness of C8: the placeholders of `checkout {branch} in {dir}` are replaced. -/
theorem expand_replaces_every_placeholder_witness :
    expand [("branch".toList, "main".toList), ("dir".toList, "/src".toList)]
        (renderTemplate "checkout ".toList [("branch".toList, " in ".toList), ("dir".toList, [])])
      = renderExpanded [("branch".toList, "main".toList), ("dir".toList, "/src".toList)]
          "checkout ".toList [("branch".toList, " in ".toList), ("dir".toList, [])] :=
  expand_replaces_every_placeholder
    [("branch".toList, "main".toList), ("dir".toList, "/src".toList)] "checkout ".toList
    [("branch".toList, " in ".toList), ("dir".toList, [])] (by decide) (by decide) (by decide)

/-- Witness of C9: placeholders of keys that are not in the map stay as they are. -/
theorem expand_unknown_keys_literal_witness :
    expand [("a".toList, "x".toList)] "\x7bb\x7d and \x7bc\x7d".toList
      = "\x7bb\x7d and \x7bc\x7d".toList :=
  expand_unknown_keys_literal [("a".toList, "x".toList)] "\x7bb\x7d and \x7bc\x7d".toList
    (by decide)

/-- Witness of C10: with `a` mapped to `{b}` and `b` mapped to `x`, the text `{a}` expands to
the value of `a`, which is `{b}`. -/
theorem expand_is_simultaneous_witness :
    expand [("a".toList, "\x7bb\x7d".toList), ("b".toList, "x".toList)] ('{' :: ("a".toList ++ ['}']))
      = mapIndex [("a".toList, "\x7bb\x7d".toList), ("b".toList, "x".toList)] "a".toList
    ∧ mapIndex [("a".toList, "\x7bb\x7d".toList), ("b".toList, "x".toList)] "a".toList
      = "\x7bb\x7d".toList :=
  ⟨expand_is_simultaneous [("a".toList, "\x7bb\x7d".toList), ("b".toList, "x".toList)]
    "a".toList (by decide) (by decide), by decide⟩

/-! ## The process runner: properties -/

/-- An error that `executeCommand` returns is a wrapped error, never an exit error itself. -/
theorem executeCommand_error_wrapped (env : Env) (ctx : Context) (command : GoString)
    (arguments : List GoString) (workingDir : GoString) (err : GoError)
    (h : (executeCommand env ctx command arguments workingDir).2.1 = some err) :
    ∃ text inner, err = GoError.wrapError text inner := by
  unfold executeCommand at h
  cases hout : (env.output command arguments workingDir).2 with
  | none => simp [hout] at h
  | some e =>
    simp only [hout] at h
    exact ⟨_, e, (Option.some.inj h).symm⟩

/-- Whatever the outcome, `Run` leaves the field `ExitCode` as it was. -/
theorem Run_exitCode_unchanged (env : Env) (ctx : Context) (c : Cmd) :
    (c.Run env ctx).cmd.ExitCode = c.ExitCode := by
  unfold Cmd.Run
  by_cases hs : env.stat c.WorkingDir = StatResult.notExist
  · simp [hs]
  · by_cases hl : env.lookPath c.Command = false
    · simp [hs, hl]
    · simp only [hs, hl, if_false]
      cases hout : (env.output c.Command
          (prepareArguments c.CommandLine c.Placeholders) c.WorkingDir).2 with
      | none => simp [executeCommand, hout]
      | some e => simp [executeCommand, hout]

/-- C5: a process started by `Run` that exits with status 1 leaves `ExitCode` at 0: the
error `Run` returns and stores is the wrapped error of `executeCommand`, which the type
assertion for an exit error does not match. -/
theorem Run_drops_exit_code :
    ((freshCmd "false".toList [] ".".toList []).Run
        (fixedEnv StatResult.ok true ([], some (GoError.exitError (ProcessState.exited 1))))
        { cancelled := false }).cmd.ExitCode = 0
    ∧ ((freshCmd "false".toList [] ".".toList []).Run
        (fixedEnv StatResult.ok true ([], some (GoError.exitError (ProcessState.exited 1))))
        { cancelled := false }).ret
      = some (GoError.wrapError "error executing command: exit status 1\n".toList
          (GoError.exitError (ProcessState.exited 1))) := by
  constructor
  · exact Run_exitCode_unchanged _ _ _
  · decide

/-- C6: when the command does not resolve on the search path, `Run` returns a configuration
error (for the working directory when that is missing, else for the command), stores the same
error in `Error`, leaves `ExitCode` and `Output` as they were and spawns no process. -/
theorem Run_command_not_found (env : Env) (ctx : Context) (c : Cmd)
    (h : env.lookPath c.Command = false) :
    (c.Run env ctx).ret
        = some (if env.stat c.WorkingDir = StatResult.notExist then
            GoError.errorString ("working directory does not exist: ".toList ++ c.WorkingDir)
          else GoError.errorString ("command not found: ".toList ++ c.Command))
      ∧ (c.Run env ctx).cmd.Error = (c.Run env ctx).ret
      ∧ (c.Run env ctx).cmd.ExitCode = c.ExitCode
      ∧ (c.Run env ctx).cmd.Output = c.Output
      ∧ ∀ call ∈ (c.Run env ctx).calls, call.isSpawn = false := by
  unfold Cmd.Run
  by_cases hs : env.stat c.WorkingDir = StatResult.notExist
  · rw [if_pos hs, if_pos hs]
    refine ⟨rfl, rfl, rfl, rfl, ?_⟩
    intro call hc
    rw [List.mem_singleton] at hc
    subst hc
    rfl
  · rw [if_neg hs, if_neg hs, if_pos h]
    refine ⟨rfl, rfl, rfl, rfl, ?_⟩
    intro call hc
    simp only [List.mem_cons, List.mem_singleton, List.not_mem_nil, or_false] at hc
    rcases hc with hc | hc <;> subst hc <;> rfl

/-- Witness of C6: a command that is not found, in a directory that exists. -/
theorem Run_command_not_found_witness :
    (fixedEnv StatResult.ok false ([], none)).lookPath "nosuch".toList = false
      ∧ ((freshCmd "nosuch".toList "-x".toList ".".toList []).Run
          (fixedEnv StatResult.ok false ([], none)) { cancelled := false }).ret
        = some (GoError.errorString "command not found: nosuch".toList)
      ∧ ((freshCmd "nosuch".toList "-x".toList ".".toList []).Run
          (fixedEnv StatResult.ok false ([], none)) { cancelled := false }).cmd.ExitCode = 0 :=
  have h := Run_command_not_found (fixedEnv StatResult.ok false ([], none))
    { cancelled := false } (freshCmd "nosuch".toList "-x".toList ".".toList []) rfl
  ⟨rfl, h.1, h.2.2.1⟩

/-- C7: when the working directory does not exist, `Run` returns the error that says so, and
the only call it made is the `os.Stat` of the directory: no lookup of the command, no process;
`ExitCode` is as it was. -/
theorem Run_working_dir_missing (env : Env) (ctx : Context) (c : Cmd)
    (h : env.stat c.WorkingDir = StatResult.notExist) :
    (c.Run env ctx).ret
        = some (GoError.errorString ("working directory does not exist: ".toList ++ c.WorkingDir))
      ∧ (c.Run env ctx).cmd.Error = (c.Run env ctx).ret
      ∧ (c.Run env ctx).cmd.ExitCode = c.ExitCode
      ∧ (c.Run env ctx).calls = [Call.stat c.WorkingDir] := by
  unfold Cmd.Run
  rw [if_pos h]
  exact ⟨rfl, rfl, rfl, rfl⟩

/-- Witness of C7: a missing directory, with a command that would resolve. -/
theorem Run_working_dir_missing_witness :
    (fixedEnv StatResult.notExist true ([], none)).stat "/gone".toList = StatResult.notExist
      ∧ (fixedEnv StatResult.notExist true ([], none)).lookPath "git".toList = true
      ∧ ((freshCmd "git".toList "status".toList "/gone".toList []).Run
          (fixedEnv StatResult.notExist true ([], none)) { cancelled := false }).calls
        = [Call.stat "/gone".toList] :=
  have h := Run_working_dir_missing (fixedEnv StatResult.notExist true ([], none))
    { cancelled := false } (freshCmd "git".toList "status".toList "/gone".toList []) rfl
  ⟨rfl, rfl, h.2.2.2⟩

/-! ## The upload: lemmas -/

theorem ReadStep.limit_pos (step : ReadStep) (n : Nat) (hn : 0 < n) : 0 < step.limit n := by
  cases step <;> simp only [ReadStep.limit] <;> omega

theorem ReadStep.limit_le (step : ReadStep) (n : Nat) : step.limit n ≤ n := by
  cases step <;> simp only [ReadStep.limit] <;> omega

/-- The method `Read` by cases, for a buffer that is not empty. -/
theorem File.Read_eq (f : File) (n : Nat) (hn : 0 < n) :
    f.Read n =
      match f.plan.headD ReadStep.full with
      | .fail err => ([], some err, { rest := f.rest, plan := f.plan.tail })
      | step =>
        if f.rest = [] then ([], some GoError.eof, { rest := f.rest, plan := f.plan.tail })
        else (f.rest.take (step.limit n), none,
          { rest := f.rest.drop (step.limit n), plan := f.plan.tail }) := by
  have hn0 : n ≠ 0 := by omega
  unfold File.Read
  rw [if_neg hn0]
  generalize f.plan.headD ReadStep.full = step
  cases step <;> simp

/-- A read into a buffer that is not empty and that returns no error returns between one
byte and a full buffer, taken from the front of what is left of the file. -/
theorem File.Read_ok (f : File) (n : Nat) (hn : 0 < n) (h : (f.Read n).2.1 = none) :
    0 < (f.Read n).1.length ∧ (f.Read n).1.length ≤ n
      ∧ f.rest = (f.Read n).1 ++ (f.Read n).2.2.rest
      ∧ (f.Read n).2.2.plan = f.plan.tail := by
  rw [File.Read_eq f n hn] at h ⊢
  generalize f.plan.headD ReadStep.full = step at h ⊢
  have hpos := ReadStep.limit_pos step n hn
  have hle := ReadStep.limit_le step n
  by_cases hr : f.rest = []
  · cases step <;> simp [hr] at h
  · have hlen : 0 < f.rest.length := List.length_pos.mpr hr
    cases step with
    | fail err => simp at h
    | full =>
      simp only [hr, if_false]
      exact ⟨by simp [List.length_take]; omega, by simp [List.length_take]; omega, by simp, trivial⟩
    | short k =>
      simp only [hr, if_false]
      exact ⟨by simp [List.length_take]; omega, by simp [List.length_take]; omega, by simp, trivial⟩

/-- A read that returns an error leaves the rest of the file where it was. -/
theorem File.Read_error_rest (f : File) (n : Nat) (err : GoError)
    (h : (f.Read n).2.1 = some err) : (f.Read n).2.2.rest = f.rest := by
  by_cases hn : n = 0
  · simp [File.Read, hn] at h
  · rw [File.Read_eq f n (by omega)] at h ⊢
    generalize f.plan.headD ReadStep.full = step at h ⊢
    by_cases hr : f.rest = []
    · cases step <;> simp [hr]
    · cases step <;> simp [hr] at h ⊢

/-- A read from a plan without failures fails only at the end of the file, with `io.EOF`. -/
theorem File.Read_error_eof (f : File) (n : Nat) (err : GoError)
    (hplan : ∀ step ∈ f.plan, ∀ e, step ≠ ReadStep.fail e)
    (h : (f.Read n).2.1 = some err) : err = GoError.eof ∧ f.rest = [] := by
  by_cases hn : n = 0
  · simp [File.Read, hn] at h
  · rw [File.Read_eq f n (by omega)] at h
    have hhead : ∀ e, f.plan.headD ReadStep.full ≠ ReadStep.fail e := by
      intro e
      cases hp : f.plan with
      | nil => simp
      | cons s rest => simpa using hplan s (by simp [hp]) e
    generalize f.plan.headD ReadStep.full = step at h hhead
    by_cases hr : f.rest = []
    · cases step with
      | fail e => exact absurd rfl (hhead e)
      | full => simp only [hr, if_true] at h; exact ⟨(Option.some.inj h).symm, hr⟩
      | short k => simp only [hr, if_true] at h; exact ⟨(Option.some.inj h).symm, hr⟩
    · cases step with
      | fail e => exact absurd rfl (hhead e)
      | full => simp [hr] at h
      | short k => simp [hr] at h

theorem PipeWriter.Write_events (pw : PipeWriter) (p : GoString) :
    (pw.Write p).2.2.events = pw.events ++ [PipeEvent.write p (pw.Write p).1 (pw.Write p).2.1]
      ∧ (pw.Write p).2.2.respond = pw.respond := by
  unfold PipeWriter.Write
  exact ⟨rfl, rfl⟩

/-- A write to an open pipe whose reader takes everything succeeds in full. -/
theorem PipeWriter.Write_ok (pw : PipeWriter) (p : GoString) (hopen : pw.closed = false)
    (hresp : ∀ i, pw.respond i = none) :
    pw.Write p = (p.length, none,
      { pw with events := pw.events ++ [PipeEvent.write p p.length none] }) := by
  simp [PipeWriter.Write, hopen, hresp]

theorem PipeWriter.closed_append_writes (pw : PipeWriter) (ws : List PipeEvent)
    (hopen : pw.closed = false) (hws : ∀ e ∈ ws, e.isClose = false) :
    PipeWriter.closed { pw with events := pw.events ++ ws } = false := by
  unfold PipeWriter.closed at hopen ⊢
  simp only [List.any_append, hopen, Bool.false_or]
  rw [List.any_eq_false]
  intro e he
  simp [hws e he]

/-- The chunk loop only appends writes to the events of the pipe. -/
theorem chunkLoop_events (chunkSize : Nat) :
    ∀ (fuel : Nat) (file : File) (pw : PipeWriter) (log : List GoString)
      (file2 : File) (pw2 : PipeWriter) (log2 : List GoString),
      chunkLoop chunkSize fuel file pw log = some (file2, pw2, log2) →
      ∃ ws, pw2.events = pw.events ++ ws ∧ (∀ e ∈ ws, e.isClose = false)
        ∧ pw2.respond = pw.respond := by
  intro fuel
  induction fuel with
  | zero => intro file pw log file2 pw2 log2 h; simp [chunkLoop] at h
  | succ fuel ih =>
    intro file pw log file2 pw2 log2 h
    rcases hread : file.Read chunkSize with ⟨buffer, err, file1⟩
    cases err with
    | some e =>
      simp only [chunkLoop, hread, Option.some.injEq, Prod.mk.injEq] at h
      obtain ⟨_, hpw, _⟩ := h
      subst hpw
      exact ⟨[], by simp, by simp, rfl⟩
    | none =>
      simp only [chunkLoop, hread] at h
      obtain ⟨ws, hev, hws, hresp⟩ := ih _ _ _ _ _ _ h
      have hw := PipeWriter.Write_events pw buffer
      refine ⟨PipeEvent.write buffer (pw.Write buffer).1 (pw.Write buffer).2.1 :: ws, ?_, ?_, ?_⟩
      · rw [hev, hw.1]; simp
      · intro e he
        rcases List.mem_cons.mp he with h1 | h1
        · subst h1; rfl
        · exact hws e h1
      · rw [hresp, hw.2]

/-- With a buffer that is not empty the chunk loop ends within as many iterations as the file
has bytes left, plus one. -/
theorem chunkLoop_terminates (chunkSize : Nat) (hcs : 0 < chunkSize) :
    ∀ (fuel : Nat) (file : File) (pw : PipeWriter) (log : List GoString),
      file.rest.length < fuel → ∃ r, chunkLoop chunkSize fuel file pw log = some r := by
  intro fuel
  induction fuel with
  | zero => intro file pw log h; omega
  | succ fuel ih =>
    intro file pw log h
    rcases hread : file.Read chunkSize with ⟨buffer, err, file1⟩
    cases err with
    | some e => exact ⟨_, by simp only [chunkLoop, hread]; rfl⟩
    | none =>
      have hok := File.Read_ok file chunkSize hcs (by rw [hread])
      rw [hread] at hok
      simp only at hok
      have hlt : file1.rest.length < fuel := by
        have := congrArg List.length hok.2.2.1
        rw [List.length_append] at this
        omega
      simp only [chunkLoop, hread]
      exact ih _ _ _ hlt

/-- Without failures the chunk loop writes the rest of the file, in order, in chunks of one
to `chunkSize` bytes, and logs nothing. -/
theorem chunkLoop_ok (chunkSize : Nat) (hcs : 0 < chunkSize) :
    ∀ (fuel : Nat) (file : File) (pw : PipeWriter) (log : List GoString),
      file.rest.length < fuel →
      (∀ step ∈ file.plan, ∀ e, step ≠ ReadStep.fail e) →
      (∀ i, pw.respond i = none) → pw.closed = false →
      ∃ (chunks : List GoString) (file2 : File),
        chunkLoop chunkSize fuel file pw log
          = some (file2, { pw with
              events := pw.events ++ chunks.map (fun c => PipeEvent.write c c.length none) }, log)
        ∧ chunks.flatten = file.rest ∧ file2.rest = []
        ∧ ∀ c ∈ chunks, 0 < c.length ∧ c.length ≤ chunkSize := by
  intro fuel
  induction fuel with
  | zero => intro file pw log h; omega
  | succ fuel ih =>
    intro file pw log h hplan hresp hopen
    rcases hread : file.Read chunkSize with ⟨buffer, err, file1⟩
    cases err with
    | some e =>
      have heof := File.Read_error_eof file chunkSize e hplan (by rw [hread])
      have hrest := File.Read_error_rest file chunkSize e (by rw [hread])
      rw [hread] at hrest
      simp only at hrest
      refine ⟨[], file1, ?_, by simp [heof.2], by rw [hrest, heof.2], by simp⟩
      simp [chunkLoop, hread, heof.1]
    | none =>
      have hok := File.Read_ok file chunkSize hcs (by rw [hread])
      rw [hread] at hok
      simp only at hok
      obtain ⟨hpos, hle, hsplit, hplan1⟩ := hok
      have hlt : file1.rest.length < fuel := by
        have := congrArg List.length hsplit
        rw [List.length_append] at this
        omega
      have hplan2 : ∀ step ∈ file1.plan, ∀ e, step ≠ ReadStep.fail e := by
        intro step hs
        rw [hplan1] at hs
        exact hplan step (List.mem_of_mem_tail hs)
      have hw := PipeWriter.Write_ok pw buffer hopen hresp
      have hopen2 := PipeWriter.closed_append_writes pw [PipeEvent.write buffer buffer.length none]
        hopen (by simp [PipeEvent.isClose])
      obtain ⟨chunks, file2, hloop, hflat, hrest2, hchunks⟩ :=
        ih file1 { pw with events := pw.events ++ [PipeEvent.write buffer buffer.length none] }
          log hlt hplan2 hresp hopen2
      refine ⟨buffer :: chunks, file2, ?_, ?_, hrest2, ?_⟩
      · simp only [chunkLoop, hread, hw, logError]
        rw [hloop]
        simp
      · rw [List.flatten_cons, hflat, hsplit]
      · intro c hc
        rcases List.mem_cons.mp hc with h1 | h1
        · subst h1; exact ⟨hpos, hle⟩
        · exact hchunks c h1

theorem received_chunk_writes (chunks : List GoString) :
    (chunks.map fun c => PipeEvent.write c c.length none).flatMap PipeEvent.taken
      = chunks.flatten := by
  induction chunks with
  | nil => rfl
  | cons c chunks ih =>
    simp only [List.map_cons, List.flatMap_cons, List.flatten_cons, ih, PipeEvent.taken,
      List.take_length]

theorem writeFields_ok (params : GoMap) :
    ∀ w : Writer, ∃ w2, writeFields w params = .ok w2 ∧ w2.boundary = w.boundary := by
  induction params with
  | nil => intro w; exact ⟨w, rfl, rfl⟩
  | cons kv params ih =>
    intro w
    obtain ⟨key, value⟩ := kv
    obtain ⟨w2, h2, hb⟩ := ih
      { buf := w.buf ++ ((if w.lastpart then "\r\n--".toList ++ w.boundary ++ "\r\n".toList
            else "--".toList ++ w.boundary ++ "\r\n".toList)
          ++ [("Content-Disposition".toList,
            "form-data; name=\"".toList ++ escapeQuotes key ++ "\"".toList)].flatMap
              (fun (k, v) => k ++ ": ".toList ++ v ++ "\r\n".toList)
          ++ "\r\n".toList) ++ value,
        boundary := w.boundary, lastpart := true }
    refine ⟨w2, ?_, hb⟩
    simp only [writeFields, Writer.WriteField, Writer.CreateFormField, Writer.CreatePart]
    exact h2

/-- The function `prepareMultipartForm` returns no error, and its third result is its second
result followed by the trailing boundary line. -/
theorem prepareMultipartForm_ok (rnd : List Nat) (params : GoMap) (fileInfo : FileInfo) :
    ∃ header, header ≠ [] ∧
      prepareMultipartForm rnd params fileInfo
        = .ok ((NewWriter rnd).FormDataContentType, header,
            header ++ closingLine (randomBoundary rnd)) := by
  obtain ⟨w2, h2, hb⟩ := writeFields_ok params (NewWriter rnd)
  have hb2 : w2.boundary = randomBoundary rnd := hb
  unfold prepareMultipartForm
  simp only [h2, Writer.CreateFormFile, Writer.CreatePart, Writer.Close, hb2]
  refine ⟨_, ?_, rfl⟩
  intro hnil
  have := congrArg List.length hnil
  simp only [List.length_append, List.length_nil] at this
  have h3 : ("\r\n".toList : GoString).length = 2 := rfl
  omega

theorem wrapInt64_of_fits (x : Int) (h0 : 0 ≤ x) (h1 : x < 2 ^ 63) : wrapInt64 x = x := by
  unfold wrapInt64
  have : (x + 2 ^ 63) % 2 ^ 64 = x + 2 ^ 63 := Int.emod_eq_of_lt (by omega) (by omega)
  omega

/-! ## The upload: properties -/

/-- The bytes `uploadEntityFile` hands to the stream hold the opening header twice: the
closing boundary that `prepareMultipartForm` returns starts with the opening header. -/
theorem prepareMultipartForm_stream (rnd : List Nat) (params : GoMap) (fileInfo : FileInfo)
    (content : GoString) :
    ∃ contentType header, header ≠ [] ∧
      prepareMultipartForm rnd params fileInfo
        = .ok (contentType, header, header ++ closingLine (randomBoundary rnd))
      ∧ header ++ content ++ (header ++ closingLine (randomBoundary rnd))
        ≠ header ++ content ++ closingLine (randomBoundary rnd) := by
  obtain ⟨header, hne, hform⟩ := prepareMultipartForm_ok rnd params fileInfo
  refine ⟨_, header, hne, hform, ?_⟩
  intro h
  have hlen := congrArg List.length h
  simp only [List.length_append] at hlen
  have : 0 < header.length := List.length_pos.mpr hne
  omega

set_option maxRecDepth 1000000 in
/-- C1: for the file `a.zip` with content `abc` and no form fields, a conforming reader of
the stream opening header, file content, closing boundary finds one part whose content is
`abc` followed by a second copy of the opening header, not `abc`; it finds the content `abc`
when the file content is followed by the trailing boundary line alone. -/
theorem prepareMultipartForm_file_part_not_identical :
    prepareMultipartForm (List.range 30) [] sampleInfo
        = .ok (sampleForm.1, sampleForm.2.1, sampleForm.2.2)
      ∧ readMultipart (randomBoundary (List.range 30))
          (sampleForm.2.1 ++ "abc".toList ++ sampleForm.2.2)
        = some [(sampleFileHeader, "abc".toList ++ sampleForm.2.1)]
      ∧ readMultipart (randomBoundary (List.range 30))
          (sampleForm.2.1 ++ "abc".toList ++ closingLine (randomBoundary (List.range 30)))
        = some [(sampleFileHeader, "abc".toList)] :=
  ⟨rfl, by decide, by decide⟩

/-- C2: whenever `uploadEntityFile` sends a request, the content length it declares is the
length of the opening header plus the size of the file plus the length of the closing
boundary, for the header and boundary that `prepareMultipartForm` returned and that were
handed to `uploadFileInChunks`; the sum is taken in `int64`, where it is assumed to fit. -/
theorem uploadEntityFile_content_length (env : UploadEnv) (ctx : Context) (entityId : UUID)
    (fileType fileMime target platform path originalPath : GoString) (params : GoMap)
    (file : File) (fileInfo : FileInfo) (contentType openingHeader closingBoundary : GoString)
    (req : Request)
    (hopen : env.openFile path = .ok (file, .ok fileInfo))
    (hform : prepareMultipartForm env.rnd params fileInfo
      = .ok (contentType, openingHeader, closingBoundary))
    (hsize : 0 ≤ fileInfo.Size)
    (hfit : Int.ofNat openingHeader.length + fileInfo.Size + Int.ofNat closingBoundary.length
      < 2 ^ 63)
    (hreq : UploadCall.doRequest req ∈ (uploadEntityFile env ctx entityId fileType fileMime
      target platform path originalPath params).calls) :
    req.ContentLength
        = Int.ofNat openingHeader.length + fileInfo.Size + Int.ofNat closingBoundary.length
      ∧ UploadCall.go openingHeader closingBoundary (100 * 1024 * 1024)
        ∈ (uploadEntityFile env ctx entityId fileType fileMime target platform path
            originalPath params).calls := by
  have hlen : wrapInt64 (wrapInt64 (Int.ofNat openingHeader.length + fileInfo.Size)
      + Int.ofNat closingBoundary.length)
      = Int.ofNat openingHeader.length + fileInfo.Size + Int.ofNat closingBoundary.length := by
    have h1 : (0 : Int) ≤ Int.ofNat openingHeader.length := Int.ofNat_nonneg _
    have h2 : (0 : Int) ≤ Int.ofNat closingBoundary.length := Int.ofNat_nonneg _
    have h3 := wrapInt64_of_fits (Int.ofNat openingHeader.length + fileInfo.Size)
      (by omega) (by omega)
    rw [h3]
    exact wrapInt64_of_fits _ (by omega) (by omega)
  unfold uploadEntityFile at hreq ⊢
  by_cases hnil : entityId.IsNil = true
  · simp only [hnil, if_true] at hreq
    simp at hreq
  · rw [if_neg hnil] at hreq ⊢
    simp only [hopen, hform, hlen] at hreq ⊢
    cases hnew : env.newRequest _ with
    | some err =>
      simp only [hnew] at hreq
      simp at hreq
    | none =>
      simp only [hnew] at hreq ⊢
      cases hdo : env.doRequest _ with
      | error err =>
        simp only [hdo] at hreq ⊢
        simp only [List.mem_append, List.mem_cons, List.mem_singleton, reduceCtorEq,
          UploadCall.doRequest.injEq, List.not_mem_nil, or_false, false_or] at hreq
        subst hreq
        exact ⟨rfl, by simp⟩
      | ok resp =>
        simp only [hdo] at hreq ⊢
        by_cases hst : resp.StatusCode ≥ 400
        · rw [if_pos hst] at hreq ⊢
          cases hbody : resp.Body with
          | error err =>
            simp only [hbody] at hreq ⊢
            simp only [List.mem_append, List.mem_cons, List.mem_singleton, reduceCtorEq,
              UploadCall.doRequest.injEq, List.not_mem_nil, or_false, false_or] at hreq
            subst hreq
            exact ⟨rfl, by simp⟩
          | ok body =>
            simp only [hbody] at hreq ⊢
            simp only [List.mem_append, List.mem_cons, List.mem_singleton, reduceCtorEq,
              UploadCall.doRequest.injEq, List.not_mem_nil, or_false, false_or] at hreq
            subst hreq
            exact ⟨rfl, by simp⟩
        · rw [if_neg hst] at hreq ⊢
          simp only [List.mem_append, List.mem_cons, List.mem_singleton, reduceCtorEq,
            UploadCall.doRequest.injEq, List.not_mem_nil, or_false, false_or] at hreq
          subst hreq
          exact ⟨rfl, by simp⟩

set_option maxRecDepth 100000 in
/-- Witness of C2: the sample upload declares 409 bytes, the 169 bytes of the opening header,
the 3 bytes of the file and the 237 bytes of the closing boundary. -/
theorem uploadEntityFile_content_length_witness :
    UploadCall.doRequest sampleRequest ∈ sampleUpload.calls
      ∧ sampleRequest.ContentLength
        = Int.ofNat sampleForm.2.1.length + sampleInfo.Size + Int.ofNat sampleForm.2.2.length
      ∧ UploadCall.go sampleForm.2.1 sampleForm.2.2 (100 * 1024 * 1024) ∈ sampleUpload.calls :=
  have h := uploadEntityFile_content_length sampleUploadEnv { cancelled := false } sampleId
    "release".toList "application/zip".toList "Client".toList "Win64".toList "a.zip".toList
    "a.zip".toList [] { rest := "abc".toList, plan := [] } sampleInfo sampleForm.1 sampleForm.2.1
    sampleForm.2.2 sampleRequest rfl rfl (by decide) (by decide) (by decide)
  ⟨by decide, h.1, h.2⟩

/-- C3: for a buffer of at least one byte, when no read and no write fails,
`uploadFileInChunks` returns, and the writes it made are the opening header, then chunks of
one to `chunkSize` bytes whose concatenation is the content of the file, then the closing
boundary; the reader of the pipe receives header, file and boundary in this order, and for an
empty file the header and the boundary only. -/
theorem uploadFileInChunks_streams_file (content : GoString) (plan : List ReadStep)
    (respond : Nat → Option Nat) (openingHeader closingBoundary : GoString)
    (chunkSize fuel : Nat)
    (hcs : 1 ≤ chunkSize)
    (hplan : ∀ step ∈ plan, ∀ e, step ≠ ReadStep.fail e)
    (hresp : ∀ i, respond i = none)
    (hfuel : content.length < fuel) :
    ∃ (chunks : List GoString) (file2 : File) (pw2 : PipeWriter),
      uploadFileInChunks fuel { rest := content, plan := plan }
          { respond := respond, events := [] } openingHeader closingBoundary chunkSize
        = some (file2, pw2, [])
      ∧ pw2.events = [PipeEvent.write openingHeader openingHeader.length none]
          ++ chunks.map (fun c => PipeEvent.write c c.length none)
          ++ [PipeEvent.write closingBoundary closingBoundary.length none, PipeEvent.close]
      ∧ chunks.flatten = content
      ∧ (∀ c ∈ chunks, 1 ≤ c.length ∧ c.length ≤ chunkSize)
      ∧ pw2.received = openingHeader ++ content ++ closingBoundary
      ∧ (content = [] → pw2.received = openingHeader ++ closingBoundary) := by
  have hw1 := PipeWriter.Write_ok { respond := respond, events := [] } openingHeader rfl hresp
  have hopen1 := PipeWriter.closed_append_writes { respond := respond, events := [] }
    [PipeEvent.write openingHeader openingHeader.length none] rfl (by simp [PipeEvent.isClose])
  obtain ⟨chunks, file2, hloop, hflat, _, hchunks⟩ :=
    chunkLoop_ok chunkSize hcs fuel { rest := content, plan := plan }
      { respond := respond,
        events := [] ++ [PipeEvent.write openingHeader openingHeader.length none] } []
      hfuel hplan hresp hopen1
  have hopen2 := PipeWriter.closed_append_writes
    { respond := respond,
      events := [] ++ [PipeEvent.write openingHeader openingHeader.length none] }
    (chunks.map fun c => PipeEvent.write c c.length none) hopen1
    (by intro e he; rw [List.mem_map] at he; obtain ⟨c, _, rfl⟩ := he; rfl)
  have hw2 := PipeWriter.Write_ok _ closingBoundary hopen2 hresp
  have hrec : PipeWriter.received
      { respond := respond,
        events := [PipeEvent.write openingHeader openingHeader.length none]
          ++ chunks.map (fun c => PipeEvent.write c c.length none)
          ++ [PipeEvent.write closingBoundary closingBoundary.length none, PipeEvent.close] }
      = openingHeader ++ content ++ closingBoundary := by
    simp only [PipeWriter.received, List.flatMap_append, received_chunk_writes, hflat,
      List.flatMap_cons, List.flatMap_nil, PipeEvent.taken, List.take_length, List.append_nil]
  simp only [List.nil_append, List.singleton_append, List.cons_append] at hw1 hloop hw2
  refine ⟨chunks, file2, _, ?_, rfl, hflat, hchunks, hrec, ?_⟩
  · simp only [uploadFileInChunks, hw1, logError, hloop, hw2, PipeWriter.Close,
      List.append_assoc, List.singleton_append, List.cons_append, List.nil_append]
  · intro hc
    rw [hrec, hc, List.append_nil]

/-- C4: whenever `uploadFileInChunks` returns, whatever reads and writes failed, the events on
the pipe are writes followed by one `Close`, which is the last event; and it does return when
the buffer holds at least one byte. -/
theorem uploadFileInChunks_closes_once (file : File) (respond : Nat → Option Nat)
    (openingHeader closingBoundary : GoString) (chunkSize fuel : Nat) :
    (∀ file2 pw2 log,
        uploadFileInChunks fuel file { respond := respond, events := [] } openingHeader
          closingBoundary chunkSize = some (file2, pw2, log) →
        ∃ ws, pw2.events = ws ++ [PipeEvent.close] ∧ ∀ e ∈ ws, e.isClose = false)
    ∧ (1 ≤ chunkSize → file.rest.length < fuel →
        ∃ r, uploadFileInChunks fuel file { respond := respond, events := [] } openingHeader
          closingBoundary chunkSize = some r) := by
  constructor
  · intro file2 pw2 log h
    unfold uploadFileInChunks at h
    cases hloop : chunkLoop chunkSize fuel file
        (PipeWriter.Write { respond := respond, events := [] } openingHeader).2.2
        (logError [] "failed to write the opening header to the multipart form: ".toList
          (PipeWriter.Write { respond := respond, events := [] } openingHeader).2.1) with
    | none =>
      simp only [hloop] at h
      cases h
    | some r =>
      obtain ⟨file1, pw1, log1⟩ := r
      obtain ⟨ws, hev, hws, _⟩ := chunkLoop_events chunkSize fuel _ _ _ _ _ _ hloop
      have hw0 := (PipeWriter.Write_events { respond := respond, events := [] } openingHeader).1
      have hw1 := (PipeWriter.Write_events pw1 closingBoundary).1
      simp only [hloop, Option.some.injEq, Prod.mk.injEq] at h
      obtain ⟨_, hpw, _⟩ := h
      subst hpw
      refine ⟨(PipeWriter.Write { respond := respond, events := [] } openingHeader).2.2.events
        ++ ws ++ [PipeEvent.write closingBoundary (pw1.Write closingBoundary).1
          (pw1.Write closingBoundary).2.1], ?_, ?_⟩
      · simp only [PipeWriter.Close, hw1, hev]
      · intro e he
        simp only [hw0, List.nil_append, List.mem_append, List.mem_singleton] at he
        rcases he with (h1 | h1) | h1
        · subst h1; rfl
        · exact hws e h1
        · subst h1; rfl
  · intro hcs hfuel
    obtain ⟨r, hr⟩ := chunkLoop_terminates chunkSize hcs fuel file
      (PipeWriter.Write { respond := respond, events := [] } openingHeader).2.2
      (logError [] "failed to write the opening header to the multipart form: ".toList
        (PipeWriter.Write { respond := respond, events := [] } openingHeader).2.1) hfuel
    obtain ⟨file1, pw1, log1⟩ := r
    exact ⟨_, by simp only [uploadFileInChunks, hr]; rfl⟩

/-- Witness of C3: a file of seven bytes read in chunks of three, the first read short. -/
theorem uploadFileInChunks_streams_file_witness :
    ∃ (chunks : List GoString) (file2 : File) (pw2 : PipeWriter),
      uploadFileInChunks 8 { rest := "abcdefg".toList, plan := [ReadStep.short 1] }
          { respond := fun _ => none, events := [] } "H:".toList ":B".toList 3
        = some (file2, pw2, [])
      ∧ pw2.events = [PipeEvent.write "H:".toList "H:".toList.length none]
          ++ chunks.map (fun c => PipeEvent.write c c.length none)
          ++ [PipeEvent.write ":B".toList ":B".toList.length none, PipeEvent.close]
      ∧ chunks.flatten = "abcdefg".toList
      ∧ (∀ c ∈ chunks, 1 ≤ c.length ∧ c.length ≤ 3)
      ∧ pw2.received = "H:".toList ++ "abcdefg".toList ++ ":B".toList
      ∧ ("abcdefg".toList = [] → pw2.received = "H:".toList ++ ":B".toList) :=
  uploadFileInChunks_streams_file "abcdefg".toList [ReadStep.short 1] (fun _ => none)
    "H:".toList ":B".toList 3 8 (by decide)
    (by intro step hs e; rw [List.mem_singleton] at hs; subst hs; exact ReadStep.noConfusion)
    (fun _ => rfl) (by decide)

/-- Witness of C4: the second write fails and the third read fails; the events end with the
one `Close`. -/
theorem uploadFileInChunks_closes_once_witness :
    ∃ ws, [PipeEvent.write "H:".toList 2 none,
            PipeEvent.write "a".toList 0 (some ErrClosedPipe),
            PipeEvent.write "bcd".toList 3 none,
            PipeEvent.write ":B".toList 2 none, PipeEvent.close]
        = ws ++ [PipeEvent.close]
      ∧ ∀ e ∈ ws, e.isClose = false :=
  (uploadFileInChunks_closes_once
    { rest := "abcdefg".toList,
      plan := [ReadStep.short 1, ReadStep.full, ReadStep.fail (GoError.other "io".toList)] }
    (fun i => if i = 1 then some 0 else none) "H:".toList ":B".toList 3 8).1
    { rest := "efg".toList, plan := [] }
    { respond := fun i => if i = 1 then some 0 else none,
      events := [PipeEvent.write "H:".toList 2 none,
        PipeEvent.write "a".toList 0 (some ErrClosedPipe),
        PipeEvent.write "bcd".toList 3 none,
        PipeEvent.write ":B".toList 2 none, PipeEvent.close] }
    ["failed to write file bytes to the multipart form: io: read/write on closed pipe".toList,
      "failed to read from the file pipe reader: io".toList]
    rfl


/-! ## The job pipeline: lemmas -/

/-- A status update for a job that is not nil is one event, whatever its outcome. -/
theorem UpdateJobStatus_events (sv : Services) (ctx : Context) (j : JobV2)
    (status : JobStatusType) (message : GoString) :
    (UpdateJobStatus sv ctx (some j) status message).2
      = [Event.updateJobStatus j.Id status message] := by
  unfold UpdateJobStatus
  simp only []
  split
  · rfl
  · split <;> rfl

theorem mem_osEvents {calls : List Call} {e : Event} (h : e ∈ osEvents calls) :
    e.isCommand = true := by
  unfold osEvents at h
  rw [List.mem_map] at h
  obtain ⟨c, _, rfl⟩ := h
  rfl

/-- The events of `processReleaseClient` are the status update to processing, calls of the
process runner, and the listing, archive and upload steps. -/
theorem processReleaseClient_events (cfg : Config) (sv : Services) (ctx : Context)
    (j : JobV2) :
    ∀ e ∈ (processReleaseClient cfg sv ctx (some j)).2,
      e = Event.updateJobStatus j.Id JobStatusType.Processing [] ∨ e.isCommand = true
        ∨ e.isDelivery = true := by
  have hup := UpdateJobStatus_events sv ctx j JobStatusType.Processing []
  unfold processReleaseClient
  simp only []
  repeat' split
  all_goals
    simp only [hup, List.forall_mem_append, List.forall_mem_singleton, and_assoc]
  all_goals repeat' apply And.intro
  all_goals
    first
      | exact Or.inl trivial
      | exact Or.inr (Or.inr rfl)
      | exact fun e he => Or.inr (Or.inl (mem_osEvents he))

/-! ## The process runner: arguments and context -/

/-- A text that is one key of the map in braces, the key without a closing brace, expands
to the value of the key. -/
theorem expand_braced_key (m : GoMap) (a : GoString)
    (hmem : a ∈ m.map Prod.fst) (ha : '}' ∉ a) :
    expand m ('{' :: (a ++ ['}'])) = mapIndex m a := by
  obtain ⟨v, hv⟩ := lookup_isSome_of_mem_keys m a hmem
  have huniq : ∀ kv ∈ m, ('{' :: (kv.1 ++ ['}'])) <+: ('{' :: (a ++ '}' :: [])) → kv.1 = a := by
    intro kv _ hpre
    rw [List.cons_prefix_cons] at hpre
    exact brace_key_unique a ha kv.1 [] (Or.inr rfl) hpre.2
  rw [expand_eq, replaceLoop_expand_key m a v [] huniq hv, replaceLoop_expand_nil]
  simp [mapIndex, hv]

/-- C11, as the code has it: `prepareArguments` yields one argument per field of the command
line, and a field that is a placeholder of the map yields the mapped value as one argument,
whatever white space the value holds. -/
theorem prepareArguments_one_argument_per_field (commandLine : GoString) (m : GoMap)
    (key : GoString) (hmem : key ∈ m.map Prod.fst) (hkey : '}' ∉ key)
    (hfield : ('{' :: (key ++ ['}'])) ∈ Fields commandLine) :
    (prepareArguments commandLine m).length = (Fields commandLine).length
      ∧ mapIndex m key ∈ prepareArguments commandLine m := by
  constructor
  · simp [prepareArguments]
  · unfold prepareArguments
    rw [List.mem_map]
    exact ⟨_, hfield, expand_braced_key m key hmem hkey⟩

/-- Witness of C11 as amended: the branch name `my branch` is one argument. -/
theorem prepareArguments_one_argument_per_field_witness :
    (prepareArguments "checkout \x7bbranch\x7d".toList
        [("branch".toList, "my branch".toList)]).length
        = (Fields "checkout \x7bbranch\x7d".toList).length
      ∧ mapIndex [("branch".toList, "my branch".toList)] "branch".toList
        ∈ prepareArguments "checkout \x7bbranch\x7d".toList
            [("branch".toList, "my branch".toList)] :=
  prepareArguments_one_argument_per_field "checkout \x7bbranch\x7d".toList
    [("branch".toList, "my branch".toList)] "branch".toList (by decide) (by decide) (by decide)

/-- Counterexample to C11: the value `my branch` of the placeholder holds a space, and the
two fields of the command line give two arguments, the second one the whole value. -/
theorem prepareArguments_value_not_split :
    prepareArguments "checkout \x7bbranch\x7d".toList [("branch".toList, "my branch".toList)]
        = ["checkout".toList, "my branch".toList]
      ∧ (Fields "checkout \x7bbranch\x7d".toList).length = 2
      ∧ ¬ ((prepareArguments "checkout \x7bbranch\x7d".toList
            [("branch".toList, "my branch".toList)]).length
          > (Fields "checkout \x7bbranch\x7d".toList).length) := by
  decide

/-- The context does not enter the result of `Run`. -/
theorem Run_context_irrelevant (env : Env) (c : Cmd) (ctx1 ctx2 : Context) :
    c.Run env ctx1 = c.Run env ctx2 := rfl

/-- C12: called with a context that is already cancelled, `Run` spawns the process and
returns its output and no error, as it does with a live context. -/
theorem Run_ignores_cancelled_context :
    ((freshCmd "git".toList "fetch".toList ".".toList []).Run
        (fixedEnv StatResult.ok true ("done".toList, none)) { cancelled := true }).ret = none
      ∧ ((freshCmd "git".toList "fetch".toList ".".toList []).Run
        (fixedEnv StatResult.ok true ("done".toList, none)) { cancelled := true }).cmd.Output
          = "done".toList
      ∧ Call.output "git".toList ["fetch".toList] ".".toList
        ∈ ((freshCmd "git".toList "fetch".toList ".".toList []).Run
          (fixedEnv StatResult.ok true ("done".toList, none)) { cancelled := true }).calls
      ∧ (freshCmd "git".toList "fetch".toList ".".toList []).Run
          (fixedEnv StatResult.ok true ("done".toList, none)) { cancelled := true }
        = (freshCmd "git".toList "fetch".toList ".".toList []).Run
          (fixedEnv StatResult.ok true ("done".toList, none)) { cancelled := false } := by
  refine ⟨by decide, by decide, by decide, Run_context_irrelevant _ _ _ _⟩

/-- C13: for a nil id, `uploadEntityFile` returns its error without any step (the file is not
opened or examined, no pipe and no request are made), and `ReleaseArchive` returns its error
without the MIME detection and without the call of `uploadEntityFile`. -/
theorem nil_id_rejected_before_io (env : UploadEnv)
    (detectFile : GoString → Except GoError GoString) (ctx : Context) (id : UUID)
    (fileType fileMime target platform path originalPath : GoString) (params : GoMap)
    (hnil : id.IsNil = true) :
    uploadEntityFile env ctx id fileType fileMime target platform path originalPath params
        = { ret := some (GoError.errorString "invalid job entity id".toList), calls := [] }
      ∧ ReleaseArchive env detectFile ctx id target platform path originalPath params
        = { ret := some (GoError.errorString "invalid release id".toList), calls := [] } := by
  constructor
  · unfold uploadEntityFile
    rw [if_pos hnil]
  · unfold ReleaseArchive
    rw [if_pos hnil]

/-- Witness of C13: the id of sixteen zero bytes. -/
theorem nil_id_rejected_before_io_witness :
    UUID.IsNil { bytes := List.replicate 16 0 } = true
      ∧ (uploadEntityFile sampleUploadEnv { cancelled := false }
          { bytes := List.replicate 16 0 } "release-archive".toList "application/zip".toList
          "client".toList "Win64".toList "a.zip".toList "a.zip".toList []).calls = []
      ∧ (ReleaseArchive sampleUploadEnv (fun _ => .ok "application/zip".toList)
          { cancelled := false } { bytes := List.replicate 16 0 } "client".toList
          "Win64".toList "a.zip".toList "a.zip".toList []).calls = [] :=
  have h := nil_id_rejected_before_io sampleUploadEnv (fun _ => .ok "application/zip".toList)
    { cancelled := false } { bytes := List.replicate 16 0 } "release-archive".toList
    "application/zip".toList "client".toList "Win64".toList "a.zip".toList "a.zip".toList []
    (by decide)
  ⟨by decide, congrArg UploadResult.calls h.1, congrArg ArchiveResult.calls h.2⟩

/-- A request for an unclaimed job is one event, whatever its outcome. -/
theorem FetchUnclaimedJob_events (cfg : Config) (sv : Services) (ctx : Context) :
    (FetchUnclaimedJob cfg sv ctx).2.2 = [Event.fetchUnclaimedJob (unclaimedJobURL cfg)] := by
  unfold FetchUnclaimedJob
  simp only []
  repeat' split
  all_goals rfl

/-- The events of the build procedure for the release of a client are not terminal status
updates. -/
theorem processReleaseClient_not_terminal (cfg : Config) (sv : Services) (ctx : Context)
    (j : JobV2) :
    ∀ e ∈ (processReleaseClient cfg sv ctx (some j)).2, e.isTerminalUpdate = false := by
  intro e he
  rcases processReleaseClient_events cfg sv ctx j e he with h | h | h
  · subst h; rfl
  · cases e <;> simp_all [Event.isCommand, Event.isTerminalUpdate]
  · cases e <;> simp_all [Event.isDelivery, Event.isTerminalUpdate]

/-- What a call of a build procedure returns: the result of `processReleaseClient` or of one
of the absent procedures, and the procedure as the one procedure called. -/
theorem callProcedure_eq (cfg : Config) (sv : Services)
    (absent : Procedure → JobV2 → Option GoError × List Event) (ctx : Context)
    (p : Procedure) (job : JobV2) :
    ((callProcedure cfg sv absent ctx p job).1 = (processReleaseClient cfg sv ctx (some job)).1
        ∧ (callProcedure cfg sv absent ctx p job).2.1
          = (processReleaseClient cfg sv ctx (some job)).2
      ∨ (callProcedure cfg sv absent ctx p job).1 = (absent p job).1
        ∧ (callProcedure cfg sv absent ctx p job).2.1 = (absent p job).2)
      ∧ (callProcedure cfg sv absent ctx p job).2.2 = [p] := by
  cases p <;> exact ⟨by first | exact Or.inl ⟨rfl, rfl⟩ | exact Or.inr ⟨rfl, rfl⟩, rfl⟩

/-- The validation and dispatch either stops with no event and no procedure, or calls one
build procedure and returns its result. -/
theorem validateAndDispatch_cases (cfg : Config) (sv : Services)
    (absent : Procedure → JobV2 → Option GoError × List Event) (ctx : Context) (job : JobV2) :
    ((validateAndDispatch cfg sv absent ctx job).2 = ([], [])
        ∧ ∃ text, (validateAndDispatch cfg sv absent ctx job).1
          = some (GoError.errorString text))
      ∨ ∃ p, validateAndDispatch cfg sv absent ctx job = callProcedure cfg sv absent ctx p job := by
  unfold validateAndDispatch
  by_cases h1 : (!enabled cfg.EnabledJobs job.Type_) = true
  · rw [if_pos h1]; exact Or.inl ⟨rfl, _, rfl⟩
  rw [if_neg h1]
  by_cases h2 : (!enabled cfg.EnabledTargets job.Target) = true
  · rw [if_pos h2]; exact Or.inl ⟨rfl, _, rfl⟩
  rw [if_neg h2]
  by_cases h3 : (!enabled cfg.EnabledPlatforms job.Platform) = true
  · rw [if_pos h3]; exact Or.inl ⟨rfl, _, rfl⟩
  rw [if_neg h3]
  by_cases hr : job.Type_ = JobMapping JobType.Release
  · rw [if_pos hr]
    by_cases hn : job.Release.isNone = true
    · rw [if_pos hn]; exact Or.inl ⟨rfl, _, rfl⟩
    rw [if_neg hn]
    by_cases t1 : job.Target = TargetMapping TargetType.Client
    · rw [if_pos t1]; exact Or.inr ⟨_, rfl⟩
    rw [if_neg t1]
    by_cases t2 : job.Target = TargetMapping TargetType.Server
    · rw [if_pos t2]; exact Or.inr ⟨_, rfl⟩
    rw [if_neg t2]
    by_cases t3 : job.Target = TargetMapping TargetType.Editor
    · rw [if_pos t3]; exact Or.inr ⟨_, rfl⟩
    rw [if_neg t3]
    by_cases t4 : job.Target = TargetMapping TargetType.Launcher
    · rw [if_pos t4]; exact Or.inr ⟨_, rfl⟩
    rw [if_neg t4]
    by_cases t5 : job.Target = TargetMapping TargetType.ServerLauncher
    · rw [if_pos t5]; exact Or.inr ⟨_, rfl⟩
    rw [if_neg t5]
    by_cases t6 : job.Target = TargetMapping TargetType.PixelStreamingLauncher
    · rw [if_pos t6]; exact Or.inr ⟨_, rfl⟩
    rw [if_neg t6]; exact Or.inl ⟨rfl, _, rfl⟩
  rw [if_neg hr]
  by_cases hp : job.Type_ = JobMapping JobType.Package
  · rw [if_pos hp]
    by_cases hn : job.Package.isNone = true
    · rw [if_pos hn]; exact Or.inl ⟨rfl, _, rfl⟩
    rw [if_neg hn]
    by_cases t1 : job.Target = TargetMapping TargetType.Client
    · rw [if_pos t1]; exact Or.inr ⟨_, rfl⟩
    rw [if_neg t1]
    by_cases t2 : job.Target = TargetMapping TargetType.Server
    · rw [if_pos t2]; exact Or.inr ⟨_, rfl⟩
    rw [if_neg t2]; exact Or.inl ⟨rfl, _, rfl⟩
  rw [if_neg hp]; exact Or.inl ⟨rfl, _, rfl⟩

/-- The events of the validation and dispatch are not terminal status updates, when those of
the absent procedures are not. -/
theorem validateAndDispatch_not_terminal (cfg : Config) (sv : Services)
    (absent : Procedure → JobV2 → Option GoError × List Event) (ctx : Context) (job : JobV2)
    (habsent : ∀ p j, ∀ e ∈ (absent p j).2, e.isTerminalUpdate = false) :
    ∀ e ∈ (validateAndDispatch cfg sv absent ctx job).2.1, e.isTerminalUpdate = false := by
  intro e he
  rcases validateAndDispatch_cases cfg sv absent ctx job with ⟨h, _⟩ | ⟨p, h⟩
  · rw [h] at he
    cases he
  · rw [h] at he
    rcases (callProcedure_eq cfg sv absent ctx p job).1 with ⟨_, h2⟩ | ⟨_, h2⟩
    · rw [h2] at he
      exact processReleaseClient_not_terminal cfg sv ctx job e he
    · rw [h2] at he
      exact habsent p job e he

/-- The shape of `Process` when a job was fetched: the events of the fetch, those of the
validation and dispatch, the report of the outcome, and at most log entries after it. -/
theorem Process_fetched (cfg : Config) (sv : Services)
    (absent : Procedure → JobV2 → Option GoError × List Event) (ctx : Context)
    (job : JobV2) (ev : List Event)
    (hfetch : FetchUnclaimedJob cfg sv ctx = (some job, none, ev)) :
    ∃ logs, (∀ e ∈ logs, e.isLog = true)
      ∧ Process cfg sv absent ctx
        = { ret := (validateAndDispatch cfg sv absent ctx job).1,
            events := ev ++ (validateAndDispatch cfg sv absent ctx job).2.1
              ++ [reportEvent job (validateAndDispatch cfg sv absent ctx job).1] ++ logs,
            invoked := (validateAndDispatch cfg sv absent ctx job).2.2 } := by
  unfold Process
  rw [hfetch]
  simp only []
  cases hvd : (validateAndDispatch cfg sv absent ctx job).1 with
  | none =>
    have hup := UpdateJobStatus_events sv ctx job JobStatusType.Completed []
    cases herr : (UpdateJobStatus sv ctx (some job) JobStatusType.Completed []).1 with
    | none => exact ⟨[], by simp, by simp [hup, reportEvent]⟩
    | some err1 =>
      exact ⟨[Event.log ("failed to update job status: ".toList ++ err1.Error)],
        by simp [Event.isLog], by simp only [hup, reportEvent]⟩
  | some e =>
    have hup := UpdateJobStatus_events sv ctx job JobStatusType.Error e.Error
    cases herr : (UpdateJobStatus sv ctx (some job) JobStatusType.Error e.Error).1 with
    | none => exact ⟨[], by simp, by simp [hup, reportEvent]⟩
    | some err1 =>
      exact ⟨[Event.log ("failed to update job status: ".toList ++ err1.Error)],
        by simp [Event.isLog], by simp only [hup, reportEvent]⟩

/-- Services whose replies to status updates to the statuses completed and error are
replaced. -/
theorem processReleaseClient_report_irrelevant (cfg : Config) (sv : Services) (ctx : Context)
    (job : Option JobV2) (reply : UUID → JobStatusType → GoString → Except GoError Nat) :
    processReleaseClient cfg
        { sv with patchReply := fun id st msg =>
            if st = JobStatusType.Completed ∨ st = JobStatusType.Error then reply id st msg
            else sv.patchReply id st msg } ctx job
      = processReleaseClient cfg sv ctx job := by
  cases job with
  | none => rfl
  | some j =>
    unfold processReleaseClient UpdateJobStatus
    simp only [reduceCtorEq, or_self, if_false]

theorem validateAndDispatch_report_irrelevant (cfg : Config) (sv : Services)
    (absent : Procedure → JobV2 → Option GoError × List Event) (ctx : Context) (job : JobV2)
    (reply : UUID → JobStatusType → GoString → Except GoError Nat) :
    validateAndDispatch cfg
        { sv with patchReply := fun id st msg =>
            if st = JobStatusType.Completed ∨ st = JobStatusType.Error then reply id st msg
            else sv.patchReply id st msg } absent ctx job
      = validateAndDispatch cfg sv absent ctx job := by
  unfold validateAndDispatch callProcedure
  simp only [processReleaseClient_report_irrelevant]

theorem reportEvent_terminal (job : JobV2) (err : Option GoError) :
    (reportEvent job err).isTerminalUpdate = true ∧ (reportEvent job err).isStatusUpdate = true := by
  cases err <;> exact ⟨rfl, rfl⟩

theorem filter_logs (logs : List Event) (h : ∀ e ∈ logs, e.isLog = true) :
    logs.filter Event.isTerminalUpdate = [] ∧ logs.filter Event.isStatusUpdate = [] := by
  constructor
  · rw [List.filter_eq_nil_iff]
    intro e he
    have := h e he
    cases e <;> simp_all [Event.isLog, Event.isTerminalUpdate]
  · rw [List.filter_eq_nil_iff]
    intro e he
    have := h e he
    cases e <;> simp_all [Event.isLog, Event.isStatusUpdate]

/-- C14: when a job was fetched, and the procedures that are not part of the sources send no
terminal status update, the terminal status updates of the run are exactly one, the report of
the error `Process` returns (completed with an empty message when that is nil, else error with
its text); this report is the last status update; and the error `Process` returns is the same
whatever the replies to the report are. -/
theorem Process_reports_outcome_once (cfg : Config) (sv : Services)
    (absent : Procedure → JobV2 → Option GoError × List Event) (ctx : Context)
    (job : JobV2) (ev : List Event)
    (hfetch : FetchUnclaimedJob cfg sv ctx = (some job, none, ev))
    (habsent : ∀ p j, ∀ e ∈ (absent p j).2, e.isTerminalUpdate = false) :
    (Process cfg sv absent ctx).events.filter Event.isTerminalUpdate
        = [reportEvent job (Process cfg sv absent ctx).ret]
      ∧ ((Process cfg sv absent ctx).events.filter Event.isStatusUpdate).getLast?
        = some (reportEvent job (Process cfg sv absent ctx).ret)
      ∧ ∀ reply : UUID → JobStatusType → GoString → Except GoError Nat,
          (Process cfg
            { sv with patchReply := fun id st msg =>
                if st = JobStatusType.Completed ∨ st = JobStatusType.Error then reply id st msg
                else sv.patchReply id st msg } absent ctx).ret
            = (Process cfg sv absent ctx).ret := by
  obtain ⟨logs, hlogs, hP⟩ := Process_fetched cfg sv absent ctx job ev hfetch
  have hev : ev = [Event.fetchUnclaimedJob (unclaimedJobURL cfg)] := by
    have h := FetchUnclaimedJob_events cfg sv ctx
    rw [hfetch] at h
    exact h
  have hvd := validateAndDispatch_not_terminal cfg sv absent ctx job habsent
  have hvd2 : (validateAndDispatch cfg sv absent ctx job).2.1.filter Event.isTerminalUpdate
      = [] := by
    rw [List.filter_eq_nil_iff]
    intro e he
    simp [hvd e he]
  have hrep := reportEvent_terminal job (validateAndDispatch cfg sv absent ctx job).1
  have hl := filter_logs logs hlogs
  have hf : ev.filter Event.isTerminalUpdate = [] := by rw [hev]; rfl
  refine ⟨?_, ?_, ?_⟩
  · rw [hP]
    simp only [List.filter_append, hvd2, hl.1, hf, List.filter_cons, List.filter_nil,
      hrep.1, if_true, List.nil_append, List.append_nil]
  · rw [hP]
    simp only [List.filter_append, hl.2, List.append_nil, List.filter_cons, List.filter_nil,
      hrep.2, if_true]
    exact List.getLast?_concat _
  · intro reply
    obtain ⟨logs2, _, hP2⟩ := Process_fetched cfg
      { sv with patchReply := fun id st msg =>
          if st = JobStatusType.Completed ∨ st = JobStatusType.Error then reply id st msg
          else sv.patchReply id st msg } absent ctx job ev hfetch
    rw [hP, hP2, validateAndDispatch_report_irrelevant]

theorem filter_status_of_logs (ev before logs : List Event) (report : Event) (url : GoString)
    (hev : ev = [Event.fetchUnclaimedJob url]) (hlogs : ∀ e ∈ logs, e.isLog = true)
    (hbefore : before.filter Event.isStatusUpdate = [])
    (hrep : report.isStatusUpdate = true) :
    (ev ++ before ++ [report] ++ logs).filter Event.isStatusUpdate = [report] := by
  have hl := (filter_logs logs hlogs).2
  have hf : ev.filter Event.isStatusUpdate = [] := by rw [hev]; rfl
  simp only [List.filter_append, hf, hbefore, hl, List.filter_cons, List.filter_nil, hrep,
    if_true, List.nil_append, List.append_nil]

theorem no_command_of_logs (ev logs : List Event) (report : Event) (url : GoString)
    (hev : ev = [Event.fetchUnclaimedJob url]) (hlogs : ∀ e ∈ logs, e.isLog = true)
    (hrep : report.isStatusUpdate = true) :
    ∀ e ∈ ev ++ [] ++ [report] ++ logs, e.isCommand = false ∧ e.isDelivery = false := by
  intro e he
  simp only [List.append_nil, List.mem_append, List.mem_singleton, hev] at he
  rcases he with (he | he) | he
  · subst he; exact ⟨rfl, rfl⟩
  · subst he
    cases e <;> simp_all [Event.isStatusUpdate, Event.isCommand, Event.isDelivery]
  · have := hlogs e he
    cases e <;> simp_all [Event.isLog, Event.isCommand, Event.isDelivery]

/-! ## The job pipeline: properties -/

/-- A job that fails the validation in `Process`, with the error `err`: the run returns
`err`, calls no procedure, makes no call of the process runner and no delivery step, and its
one status update is the report of `err`. -/
theorem Process_rejected (cfg : Config) (sv : Services)
    (absent : Procedure → JobV2 → Option GoError × List Event) (ctx : Context)
    (job : JobV2) (ev : List Event) (err : GoError)
    (hfetch : FetchUnclaimedJob cfg sv ctx = (some job, none, ev))
    (hvd : validateAndDispatch cfg sv absent ctx job = (some err, [], [])) :
    (Process cfg sv absent ctx).ret = some err
      ∧ (Process cfg sv absent ctx).invoked = []
      ∧ (∀ e ∈ (Process cfg sv absent ctx).events, e.isCommand = false ∧ e.isDelivery = false)
      ∧ (Process cfg sv absent ctx).events.filter Event.isStatusUpdate
        = [Event.updateJobStatus job.Id JobStatusType.Error err.Error] := by
  obtain ⟨logs, hlogs, hP⟩ := Process_fetched cfg sv absent ctx job ev hfetch
  have hev : ev = [Event.fetchUnclaimedJob (unclaimedJobURL cfg)] := by
    have h := FetchUnclaimedJob_events cfg sv ctx
    rw [hfetch] at h
    exact h
  rw [hP, hvd]
  refine ⟨rfl, rfl, ?_, ?_⟩
  · exact no_command_of_logs ev logs _ _ hev hlogs rfl
  · exact filter_status_of_logs ev [] logs _ _ hev hlogs rfl rfl

/-- C15, as the code has it: a fetched job whose target is not enabled is rejected with no
build procedure, no call of the process runner and no delivery step, and its one status
update reports the error; the error is `invalid job deployment` with the target when the type
of the job is enabled, and `invalid job type` with the type when it is not. -/
theorem Process_rejects_disabled_target (cfg : Config) (sv : Services)
    (absent : Procedure → JobV2 → Option GoError × List Event) (ctx : Context)
    (job : JobV2) (ev : List Event)
    (hfetch : FetchUnclaimedJob cfg sv ctx = (some job, none, ev))
    (htarget : enabled cfg.EnabledTargets job.Target = false) :
    (Process cfg sv absent ctx).ret
        = some (GoError.errorString
            (if enabled cfg.EnabledJobs job.Type_ = true then
              "invalid job deployment: ".toList ++ job.Target
            else "invalid job type: ".toList ++ job.Type_))
      ∧ (Process cfg sv absent ctx).invoked = []
      ∧ (∀ e ∈ (Process cfg sv absent ctx).events, e.isCommand = false ∧ e.isDelivery = false)
      ∧ (Process cfg sv absent ctx).events.filter Event.isStatusUpdate
        = [Event.updateJobStatus job.Id JobStatusType.Error
            (if enabled cfg.EnabledJobs job.Type_ = true then
              "invalid job deployment: ".toList ++ job.Target
            else "invalid job type: ".toList ++ job.Type_)] := by
  have hvd : validateAndDispatch cfg sv absent ctx job
      = (some (GoError.errorString
          (if enabled cfg.EnabledJobs job.Type_ = true then
            "invalid job deployment: ".toList ++ job.Target
          else "invalid job type: ".toList ++ job.Type_)), [], []) := by
    unfold validateAndDispatch
    by_cases h1 : enabled cfg.EnabledJobs job.Type_ = true
    · rw [if_neg (by simp [h1]), if_pos (by simp [htarget]), if_pos h1]
    · rw [if_pos (by simpa using h1), if_neg h1]
  exact Process_rejected cfg sv absent ctx job ev _ hfetch hvd

/-- Witness of C15 as amended: the sample job when no target is enabled. -/
theorem Process_rejects_disabled_target_witness :
    (Process { sampleConfig with EnabledTargets := [] }
        (sampleServices (jobReply sampleJob) buildFailsEnv) idleProcedures
        { cancelled := false }).ret
      = some (GoError.errorString "invalid job deployment: client".toList) :=
  (Process_rejects_disabled_target { sampleConfig with EnabledTargets := [] }
    (sampleServices (jobReply sampleJob) buildFailsEnv) idleProcedures { cancelled := false }
    sampleJob [Event.fetchUnclaimedJob
      (unclaimedJobURL { sampleConfig with EnabledTargets := [] })] rfl rfl).1

/-- Counterexample to C15: with neither the type nor the target of the job enabled, the
error `Process` returns is the one for the type, not `invalid job deployment`. -/
theorem Process_disabled_target_other_error :
    enabled ({ sampleConfig with EnabledJobs := [], EnabledTargets := [] } : Config).EnabledTargets
        sampleJob.Target = false
      ∧ (Process { sampleConfig with EnabledJobs := [], EnabledTargets := [] }
          (sampleServices (jobReply sampleJob) buildFailsEnv) idleProcedures
          { cancelled := false }).ret
        = some (GoError.errorString "invalid job type: release".toList) := by
  decide

/-- C16: a fetched job of the release type, with type, target and platform enabled, that has
no release metadata: `Process` returns the error that says so, calls no build procedure and
makes no call of the process runner, and its one status update reports this error. -/
theorem Process_release_without_metadata (cfg : Config) (sv : Services)
    (absent : Procedure → JobV2 → Option GoError × List Event) (ctx : Context)
    (job : JobV2) (ev : List Event)
    (hfetch : FetchUnclaimedJob cfg sv ctx = (some job, none, ev))
    (hjob : enabled cfg.EnabledJobs job.Type_ = true)
    (htarget : enabled cfg.EnabledTargets job.Target = true)
    (hplatform : enabled cfg.EnabledPlatforms job.Platform = true)
    (htype : job.Type_ = JobMapping JobType.Release)
    (hrelease : job.Release = none) :
    (Process cfg sv absent ctx).ret
        = some (GoError.errorString
            ("no release metadata, required for job type: ".toList ++ job.Type_))
      ∧ (Process cfg sv absent ctx).invoked = []
      ∧ (∀ e ∈ (Process cfg sv absent ctx).events, e.isCommand = false ∧ e.isDelivery = false)
      ∧ (Process cfg sv absent ctx).events.filter Event.isStatusUpdate
        = [Event.updateJobStatus job.Id JobStatusType.Error
            ("no release metadata, required for job type: ".toList ++ job.Type_)] := by
  have hvd : validateAndDispatch cfg sv absent ctx job
      = (some (GoError.errorString
          ("no release metadata, required for job type: ".toList ++ job.Type_)), [], []) := by
    unfold validateAndDispatch
    rw [if_neg (by simp [hjob]), if_neg (by simp [htarget]), if_neg (by simp [hplatform]),
      if_pos htype, if_pos (by simp [hrelease])]
  exact Process_rejected cfg sv absent ctx job ev _ hfetch hvd

/-- Witness of C16: the sample job without its release metadata. -/
theorem Process_release_without_metadata_witness :
    (Process sampleConfig
        (sampleServices (jobReply { sampleJob with Release := none }) buildFailsEnv)
        idleProcedures { cancelled := false }).events.filter Event.isStatusUpdate
      = [Event.updateJobStatus sampleId JobStatusType.Error
          ("no release metadata, required for job type: ".toList ++ "release".toList)] :=
  (Process_release_without_metadata sampleConfig
    (sampleServices (jobReply { sampleJob with Release := none }) buildFailsEnv)
    idleProcedures { cancelled := false } { sampleJob with Release := none }
    [Event.fetchUnclaimedJob (unclaimedJobURL sampleConfig)] rfl rfl rfl rfl rfl rfl).2.2.2

/-- C18: when the fetch returns no job and no error, `Process` returns nil; after the fetch
it only sleeps ten seconds: no status update, no build procedure, no call of the process
runner. -/
theorem Process_without_job (cfg : Config) (sv : Services)
    (absent : Procedure → JobV2 → Option GoError × List Event) (ctx : Context)
    (ev : List Event)
    (hfetch : FetchUnclaimedJob cfg sv ctx = (none, none, ev)) :
    Process cfg sv absent ctx
        = { ret := none,
            events := [Event.fetchUnclaimedJob (unclaimedJobURL cfg), Event.sleep 10],
            invoked := [] }
      ∧ ∀ e ∈ (Process cfg sv absent ctx).events,
          e.isStatusUpdate = false ∧ e.isCommand = false ∧ e.isDelivery = false := by
  have hev : ev = [Event.fetchUnclaimedJob (unclaimedJobURL cfg)] := by
    have h := FetchUnclaimedJob_events cfg sv ctx
    rw [hfetch] at h
    exact h
  have hP : Process cfg sv absent ctx
      = { ret := none,
          events := [Event.fetchUnclaimedJob (unclaimedJobURL cfg), Event.sleep 10],
          invoked := [] } := by
    unfold Process
    rw [hfetch, hev]
    rfl
  refine ⟨hP, ?_⟩
  rw [hP]
  intro e he
  simp only [List.mem_cons, List.mem_singleton, List.not_mem_nil, or_false] at he
  rcases he with he | he <;> subst he <;> exact ⟨rfl, rfl, rfl⟩

/-- Witness of C18: the reply `no jobs`. -/
theorem Process_without_job_witness :
    FetchUnclaimedJob sampleConfig (sampleServices noJobsReply buildFailsEnv)
        { cancelled := false }
        = (none, none, [Event.fetchUnclaimedJob (unclaimedJobURL sampleConfig)])
      ∧ (Process sampleConfig (sampleServices noJobsReply buildFailsEnv) idleProcedures
          { cancelled := false }).ret = none :=
  ⟨rfl, congrArg ProcessResult.ret
    (Process_without_job sampleConfig (sampleServices noJobsReply buildFailsEnv)
      idleProcedures { cancelled := false }
      [Event.fetchUnclaimedJob (unclaimedJobURL sampleConfig)] rfl).1⟩

/-- The release procedure for a job whose release has a nil id: it returns an error, and its
only event is the status update to processing. -/
theorem processReleaseClient_nil_release (cfg : Config) (sv : Services) (ctx : Context)
    (job : JobV2) (release : ReleaseV2)
    (hrelease : job.Release = some release) (hnil : release.Id.IsNil = true) :
    (∃ err, (processReleaseClient cfg sv ctx (some job)).1 = some err)
      ∧ (processReleaseClient cfg sv ctx (some job)).2
        = [Event.updateJobStatus job.Id JobStatusType.Processing []] := by
  have hup := UpdateJobStatus_events sv ctx job JobStatusType.Processing []
  unfold processReleaseClient
  simp only [hrelease, hnil, if_true]
  cases herr : (UpdateJobStatus sv ctx (some job) JobStatusType.Processing []).1 with
  | some e => simp [hup]
  | none =>
    simp only [Option.isSome_none, Bool.false_eq_true, if_false, hup]
    split_ifs <;> exact ⟨⟨_, rfl⟩, rfl⟩

/-- C17: a fetched job for the release of a client whose release metadata carries a nil id:
`Process` returns an error, makes no call of the process runner and no delivery step, and the
one terminal status update, the last status update of the run, reports this error. -/
theorem Process_release_with_nil_id (cfg : Config) (sv : Services)
    (absent : Procedure → JobV2 → Option GoError × List Event) (ctx : Context)
    (job : JobV2) (ev : List Event) (release : ReleaseV2)
    (hfetch : FetchUnclaimedJob cfg sv ctx = (some job, none, ev))
    (htype : job.Type_ = JobMapping JobType.Release)
    (htarget : job.Target = TargetMapping TargetType.Client)
    (hrelease : job.Release = some release) (hnil : release.Id.IsNil = true) :
    ∃ err, (Process cfg sv absent ctx).ret = some err
      ∧ (∀ e ∈ (Process cfg sv absent ctx).events, e.isCommand = false ∧ e.isDelivery = false)
      ∧ (Process cfg sv absent ctx).events.filter Event.isTerminalUpdate
        = [Event.updateJobStatus job.Id JobStatusType.Error err.Error]
      ∧ ((Process cfg sv absent ctx).events.filter Event.isStatusUpdate).getLast?
        = some (Event.updateJobStatus job.Id JobStatusType.Error err.Error) := by
  obtain ⟨logs, hlogs, hP⟩ := Process_fetched cfg sv absent ctx job ev hfetch
  have hev : ev = [Event.fetchUnclaimedJob (unclaimedJobURL cfg)] := by
    have h := FetchUnclaimedJob_events cfg sv ctx
    rw [hfetch] at h
    exact h
  obtain ⟨⟨perr, hperr⟩, hpev⟩ := processReleaseClient_nil_release cfg sv ctx job release
    hrelease hnil
  have hvd : ∃ err, (validateAndDispatch cfg sv absent ctx job).1 = some err
      ∧ ((validateAndDispatch cfg sv absent ctx job).2.1 = []
        ∨ (validateAndDispatch cfg sv absent ctx job).2.1
          = [Event.updateJobStatus job.Id JobStatusType.Processing []]) := by
    unfold validateAndDispatch
    by_cases h1 : (!enabled cfg.EnabledJobs job.Type_) = true
    · rw [if_pos h1]; exact ⟨_, rfl, Or.inl rfl⟩
    rw [if_neg h1]
    by_cases h2 : (!enabled cfg.EnabledTargets job.Target) = true
    · rw [if_pos h2]; exact ⟨_, rfl, Or.inl rfl⟩
    rw [if_neg h2]
    by_cases h3 : (!enabled cfg.EnabledPlatforms job.Platform) = true
    · rw [if_pos h3]; exact ⟨_, rfl, Or.inl rfl⟩
    rw [if_neg h3, if_pos htype, if_neg (by simp [hrelease]), if_pos htarget]
    exact ⟨perr, hperr, Or.inr hpev⟩
  obtain ⟨err, herr, hevents⟩ := hvd
  have hl := filter_logs logs hlogs
  have hf1 : ev.filter Event.isTerminalUpdate = [] := by rw [hev]; rfl
  refine ⟨err, ?_, ?_, ?_, ?_⟩
  · rw [hP, herr]
  · rw [hP, herr]
    intro e he
    simp only [List.mem_append, List.mem_singleton, hev] at he
    rcases he with ((he | he) | he) | he
    · subst he; exact ⟨rfl, rfl⟩
    · rcases hevents with h | h
      · rw [h] at he; cases he
      · rw [h, List.mem_singleton] at he
        subst he; exact ⟨rfl, rfl⟩
    · subst he; exact ⟨rfl, rfl⟩
    · have := hlogs e he
      cases e <;> simp_all [Event.isLog, Event.isCommand, Event.isDelivery]
  · rw [hP, herr]
    have hb : (validateAndDispatch cfg sv absent ctx job).2.1.filter Event.isTerminalUpdate
        = [] := by
      rcases hevents with h | h <;> rw [h] <;> rfl
    simp only [List.filter_append, hf1, hb, hl.1, List.nil_append, List.append_nil]
    rfl
  · rw [hP, herr]
    simp only [List.filter_append, hl.2, List.append_nil]
    exact List.getLast?_concat _

/-- Witness of C17: the sample job with a release whose id is nil. -/
theorem Process_release_with_nil_id_witness :
    ∃ err,
      (Process sampleConfig
        (sampleServices
          (jobReply { sampleJob with
            Release := some { sampleRelease with Id := { bytes := List.replicate 16 0 } } })
          buildFailsEnv)
        idleProcedures { cancelled := false }).ret = some err :=
  (Process_release_with_nil_id sampleConfig
    (sampleServices
      (jobReply { sampleJob with
        Release := some { sampleRelease with Id := { bytes := List.replicate 16 0 } } })
      buildFailsEnv)
    idleProcedures { cancelled := false }
    { sampleJob with Release := some { sampleRelease with Id := { bytes := List.replicate 16 0 } } }
    [Event.fetchUnclaimedJob (unclaimedJobURL sampleConfig)]
    { sampleRelease with Id := { bytes := List.replicate 16 0 } } rfl rfl rfl rfl rfl).imp fun _ h => h.1

theorem lookup_pair_cons {β : Type} (a b k l : GoString) (v : β)
    (es : List ((GoString × GoString) × β)) :
    List.lookup (a, b) (((k, l), v) :: es)
      = if a = k ∧ b = l then some v else List.lookup (a, b) es := by
  have hbeq : ((a, b) == (k, l)) = (a == k && b == l) := rfl
  by_cases h : a = k ∧ b = l
  · obtain ⟨h1, h2⟩ := h
    subst h1 h2
    simp [List.lookup, hbeq]
  · have : ((a, b) == (k, l)) = false := by
      rw [hbeq, Bool.and_eq_false_iff]
      by_cases h1 : a = k
      · right; rw [beq_eq_false_iff_ne]; exact fun h2 => h ⟨h1, h2⟩
      · left; rw [beq_eq_false_iff_ne]; exact h1
    simp [List.lookup, this, h]

/-- The table of procedures, read as a chain of comparisons. -/
theorem procedureFor_eq (jobType target : GoString) :
    procedureFor jobType target =
      if jobType = JobMapping JobType.Release then
        if target = TargetMapping TargetType.Client then some Procedure.ReleaseClient
        else if target = TargetMapping TargetType.Server then some Procedure.ReleaseServer
        else if target = TargetMapping TargetType.Editor then some Procedure.ReleaseEditor
        else if target = TargetMapping TargetType.Launcher then some Procedure.ReleaseLauncher
        else if target = TargetMapping TargetType.ServerLauncher then
          some Procedure.ReleaseServerLauncher
        else if target = TargetMapping TargetType.PixelStreamingLauncher then
          some Procedure.ReleasePixelStreamingLauncher
        else none
      else if jobType = JobMapping JobType.Package then
        if target = TargetMapping TargetType.Client then some Procedure.PackageClient
        else if target = TargetMapping TargetType.Server then some Procedure.PackageServer
        else none
      else none := by
  have e1 : (JobMapping JobType.Release = "release".toList) = True := eq_true rfl
  have e2 : (JobMapping JobType.Release = "package".toList) = False := eq_false (by decide)
  have e3 : (JobMapping JobType.Package = "release".toList) = False := eq_false (by decide)
  have e4 : (JobMapping JobType.Package = "package".toList) = True := eq_true rfl
  unfold procedureFor
  simp only [lookup_pair_cons, List.lookup_nil]
  by_cases hr : jobType = JobMapping JobType.Release
  · subst hr
    simp only [e1, e2, true_and, false_and, if_false, if_true]
    rfl
  · have hr2 : (jobType = "release".toList) = False := eq_false hr
    by_cases hp : jobType = JobMapping JobType.Package
    · subst hp
      simp only [e3, e4, true_and, false_and, if_false, if_true]
      rfl
    · have hp2 : (jobType = "package".toList) = False := eq_false hp
      simp only [hr2, hp2, false_and, if_false]
      rw [if_neg hr, if_neg hp]

/-- C19: for a fetched job whose type, target and platform are enabled and whose metadata for
its type is present, `Process` calls exactly the build procedure that the table gives for the
type and target of the job; where the table gives none it calls no procedure and returns the
error `invalid job deployment ... for type ...` or `invalid job type`. -/
theorem Process_dispatch (cfg : Config) (sv : Services)
    (absent : Procedure → JobV2 → Option GoError × List Event) (ctx : Context)
    (job : JobV2) (ev : List Event)
    (hfetch : FetchUnclaimedJob cfg sv ctx = (some job, none, ev))
    (hjob : enabled cfg.EnabledJobs job.Type_ = true)
    (htarget : enabled cfg.EnabledTargets job.Target = true)
    (hplatform : enabled cfg.EnabledPlatforms job.Platform = true)
    (hrelease : job.Type_ = JobMapping JobType.Release → job.Release.isSome = true)
    (hpackage : job.Type_ = JobMapping JobType.Package → job.Package.isSome = true) :
    match procedureFor job.Type_ job.Target with
    | some p => (Process cfg sv absent ctx).invoked = [p]
    | none =>
        (Process cfg sv absent ctx).invoked = []
          ∧ ((Process cfg sv absent ctx).ret
              = some (GoError.errorString ("invalid job deployment ".toList ++ job.Target
                  ++ " for type ".toList ++ job.Type_))
            ∨ (Process cfg sv absent ctx).ret
              = some (GoError.errorString ("invalid job type: ".toList ++ job.Type_))) := by
  obtain ⟨logs, _, hP⟩ := Process_fetched cfg sv absent ctx job ev hfetch
  have h1 : ¬ (!enabled cfg.EnabledJobs job.Type_) = true := by simp [hjob]
  have h2 : ¬ (!enabled cfg.EnabledTargets job.Target) = true := by simp [htarget]
  have h3 : ¬ (!enabled cfg.EnabledPlatforms job.Platform) = true := by simp [hplatform]
  rw [hP, procedureFor_eq]
  unfold validateAndDispatch
  simp only [if_neg h1, if_neg h2, if_neg h3]
  by_cases hr : job.Type_ = JobMapping JobType.Release
  · have hn : ¬ job.Release.isNone = true := by
      have := hrelease hr
      cases hrel : job.Release <;> simp_all
    simp only [if_pos hr, if_neg hn]
    by_cases t1 : job.Target = TargetMapping TargetType.Client
    · simp only [if_pos t1]; exact (callProcedure_eq cfg sv absent ctx _ job).2
    simp only [if_neg t1]
    by_cases t2 : job.Target = TargetMapping TargetType.Server
    · simp only [if_pos t2]; exact (callProcedure_eq cfg sv absent ctx _ job).2
    simp only [if_neg t2]
    by_cases t3 : job.Target = TargetMapping TargetType.Editor
    · simp only [if_pos t3]; exact (callProcedure_eq cfg sv absent ctx _ job).2
    simp only [if_neg t3]
    by_cases t4 : job.Target = TargetMapping TargetType.Launcher
    · simp only [if_pos t4]; exact (callProcedure_eq cfg sv absent ctx _ job).2
    simp only [if_neg t4]
    by_cases t5 : job.Target = TargetMapping TargetType.ServerLauncher
    · simp only [if_pos t5]; exact (callProcedure_eq cfg sv absent ctx _ job).2
    simp only [if_neg t5]
    by_cases t6 : job.Target = TargetMapping TargetType.PixelStreamingLauncher
    · simp only [if_pos t6]; exact (callProcedure_eq cfg sv absent ctx _ job).2
    simp only [if_neg t6]
    exact ⟨trivial, Or.inl trivial⟩
  · simp only [if_neg hr]
    by_cases hp : job.Type_ = JobMapping JobType.Package
    · have hn : ¬ job.Package.isNone = true := by
        have := hpackage hp
        cases hpk : job.Package <;> simp_all
      simp only [if_pos hp, if_neg hn]
      by_cases t1 : job.Target = TargetMapping TargetType.Client
      · simp only [if_pos t1]; exact (callProcedure_eq cfg sv absent ctx _ job).2
      simp only [if_neg t1]
      by_cases t2 : job.Target = TargetMapping TargetType.Server
      · simp only [if_pos t2]; exact (callProcedure_eq cfg sv absent ctx _ job).2
      simp only [if_neg t2]
      exact ⟨trivial, Or.inl trivial⟩
    · simp only [if_neg hp]
      exact ⟨trivial, Or.inr trivial⟩

/-- Witness of C19: the sample job goes to the procedure for the release of a client. -/
theorem Process_dispatch_witness :
    procedureFor sampleJob.Type_ sampleJob.Target = some Procedure.ReleaseClient
      ∧ (Process sampleConfig (sampleServices (jobReply sampleJob) buildFailsEnv)
          idleProcedures { cancelled := false }).invoked = [Procedure.ReleaseClient] :=
  ⟨by decide,
    Process_dispatch sampleConfig (sampleServices (jobReply sampleJob) buildFailsEnv)
      idleProcedures { cancelled := false } sampleJob
      [Event.fetchUnclaimedJob (unclaimedJobURL sampleConfig)] rfl rfl rfl rfl
      (fun _ => rfl) (fun h => absurd h (by decide))⟩

/-- A command that passes the checks of `Run` and whose process exits with a status: `Run`
returns the error of the process wrapped by `executeCommand`. -/
theorem Run_exit_error (env : Env) (ctx : Context) (c : Cmd) (code : Nat)
    (hstat : env.stat c.WorkingDir ≠ StatResult.notExist)
    (hlook : env.lookPath c.Command = true)
    (hexit : (env.output c.Command (prepareArguments c.CommandLine c.Placeholders)
      c.WorkingDir).2 = some (GoError.exitError (ProcessState.exited code))) :
    (c.Run env ctx).ret
      = some (GoError.wrapError
          ("error executing command: ".toList ++ (ProcessState.exited code).String
            ++ "\n".toList)
          (GoError.exitError (ProcessState.exited code))) := by
  unfold Cmd.Run
  rw [if_neg hstat, if_neg (by simp [hlook])]
  simp only [executeCommand, hexit, GoError.Error]

/-- The automation tool exiting with a status: the error that `RunAutomationTool` returns
has the text of the exit status after the two prefixes. -/
theorem RunAutomationTool_exit_error (env : Env) (ctx : Context)
    (workdir command cmdline : GoString) (placeholders : GoMap) (code : Nat)
    (hstat : env.stat workdir ≠ StatResult.notExist)
    (hlook : env.lookPath command = true)
    (hexit : (env.output command (prepareArguments cmdline placeholders) workdir).2
      = some (GoError.exitError (ProcessState.exited code))) :
    ∃ err, (RunAutomationTool env ctx workdir command cmdline placeholders).1 = some err
      ∧ err.Error = "failed to run Unreal Automation Tool: error executing command: ".toList
          ++ (ProcessState.exited code).String ++ "\n".toList := by
  have h := Run_exit_error env ctx
    { Command := command, CommandLine := cmdline, WorkingDir := workdir,
      Placeholders := placeholders, Output := [], Error := none, ExitCode := 0,
      arguments := [] } code hstat hlook hexit
  unfold RunAutomationTool
  simp only [h]
  exact ⟨_, rfl, by simp [GoError.Error]⟩

/-- The release procedure when the steps before the build succeed and the automation tool
fails with `err`: it returns `err`, and its events are the status update and calls of the
process runner only. -/
theorem processReleaseClient_build_fails (cfg : Config) (sv : Services) (ctx : Context)
    (job : JobV2) (release : ReleaseV2) (err : GoError)
    (hjob : enabled cfg.EnabledJobs job.Type_ = true)
    (htarget : enabled cfg.EnabledTargets job.Target = true)
    (hplatform : enabled cfg.EnabledPlatforms job.Platform = true)
    (hrelease : job.Release = some release) (hid : release.Id.IsNil = false)
    (hprocessing : (UpdateJobStatus sv ctx (some job) JobStatusType.Processing []).1 = none)
    (hfetch : (Fetch sv.os ctx cfg.ProjectDirectory).1 = none)
    (hcheckout : (CheckoutTag sv.os ctx cfg.ProjectDirectory release.CodeVersion).1 = none)
    (hswitch : (SwitchProjectEngineVersion cfg sv.os ctx cfg.ProjectDirectory cfg.ProjectName
      release.CodeVersion).1 = none)
    (hbuild : (RunAutomationTool sv.os ctx cfg.ProjectDirectory cfg.Code.AutomationToolPath
      (generateReleaseClientCmdline cfg ctx (some job)).1
      (generateReleaseClientCmdline cfg ctx (some job)).2.1).1 = some err) :
    (processReleaseClient cfg sv ctx (some job)).1 = some err
      ∧ ∀ e ∈ (processReleaseClient cfg sv ctx (some job)).2,
          e = Event.updateJobStatus job.Id JobStatusType.Processing [] ∨ e.isCommand = true := by
  have hup := UpdateJobStatus_events sv ctx job JobStatusType.Processing []
  have h1 : ¬ (!enabled cfg.EnabledJobs job.Type_) = true := by simp [hjob]
  have h2 : ¬ (!enabled cfg.EnabledTargets job.Target) = true := by simp [htarget]
  have h3 : ¬ (!enabled cfg.EnabledPlatforms job.Platform) = true := by simp [hplatform]
  have h4 : ¬ release.Id.IsNil = true := by simp [hid]
  unfold processReleaseClient
  simp only [hprocessing, hup, Option.isSome_none, Bool.false_eq_true, if_false, if_neg h1,
    if_neg h2, if_neg h3, hrelease, if_neg h4, hfetch, hcheckout, hswitch, hbuild]
  refine ⟨trivial, ?_⟩
  intro e he
  simp only [List.mem_append, List.mem_singleton, or_assoc] at he
  rcases he with he | he | he | he | he
  · exact Or.inl he
  all_goals exact Or.inr (mem_osEvents he)

/-- For a job that passes its validation, `processReleaseClient` makes its steps in order and
stops at the first one that fails. -/
theorem processReleaseClient_firstFailure (cfg : Config) (sv : Services) (ctx : Context)
    (job : JobV2) (release : ReleaseV2)
    (hjob : enabled cfg.EnabledJobs job.Type_ = true)
    (htarget : enabled cfg.EnabledTargets job.Target = true)
    (hplatform : enabled cfg.EnabledPlatforms job.Platform = true)
    (hrelease : job.Release = some release) (hid : release.Id.IsNil = false) :
    processReleaseClient cfg sv ctx (some job)
      = firstFailure (releaseClientSteps cfg sv ctx job release) := by
  have h1 : ¬ (!enabled cfg.EnabledJobs job.Type_) = true := by simp [hjob]
  have h2 : ¬ (!enabled cfg.EnabledTargets job.Target) = true := by simp [htarget]
  have h3 : ¬ (!enabled cfg.EnabledPlatforms job.Platform) = true := by simp [hplatform]
  have h4 : ¬ release.Id.IsNil = true := by simp [hid]
  unfold processReleaseClient releaseClientSteps
  simp only [if_neg h1, if_neg h2, if_neg h3, hrelease, if_neg h4]
  rcases hu : UpdateJobStatus sv ctx (some job) JobStatusType.Processing [] with ⟨eu, ev0⟩
  cases eu with
  | some e => simp [firstFailure]
  | none =>
    rcases hf : Fetch sv.os ctx cfg.ProjectDirectory with ⟨ef, cf⟩
    cases ef with
    | some e => simp [firstFailure]
    | none =>
      rcases hc : CheckoutTag sv.os ctx cfg.ProjectDirectory release.CodeVersion with ⟨ec, cc⟩
      cases ec with
      | some e => simp [firstFailure]
      | none =>
        rcases hs : SwitchProjectEngineVersion cfg sv.os ctx cfg.ProjectDirectory
          cfg.ProjectName release.CodeVersion with ⟨es, cs⟩
        cases es with
        | some e => simp [firstFailure]
        | none =>
          rcases hb : RunAutomationTool sv.os ctx cfg.ProjectDirectory
            cfg.Code.AutomationToolPath (generateReleaseClientCmdline cfg ctx (some job)).1
            (generateReleaseClientCmdline cfg ctx (some job)).2.1 with ⟨eb, cb⟩
          cases eb with
          | some e => simp [firstFailure]
          | none =>
            cases hl : sv.listFiles (Join [GetStagingDir cfg.ProjectDirectory, release.Version])
              cfg.IgnoredFiles with
            | error e => simp [firstFailure]
            | ok files =>
              by_cases ha : release.Archive = true
              · simp only []
                generalize sv.createZip _ _ files = z
                cases z with
                | some e => simp [firstFailure, ha]
                | none => simp [firstFailure, ha]
              · simp [firstFailure, ha]

/-- The meaning of `firstFailure`: when a step fails and no step before it does, the outcome
is the error of this step with the events of the steps up to it, whatever the later steps
are. -/
theorem firstFailure_abort (before after : List (Option GoError × List Event))
    (err : GoError) (events : List Event) (h : ∀ s ∈ before, s.1 = none) :
    firstFailure (before ++ (some err, events) :: after)
      = (some err, (before.flatMap fun s => s.2) ++ events) := by
  induction before with
  | nil => rfl
  | cons s rest ih =>
    obtain ⟨e, evs⟩ := s
    have he : e = none := h (e, evs) (List.mem_cons_self _ _)
    subst he
    have := ih (fun s hs => h s (List.mem_cons_of_mem _ hs))
    rw [List.cons_append]
    show ((firstFailure (rest ++ (some err, events) :: after)).1,
      evs ++ (firstFailure (rest ++ (some err, events) :: after)).2) = _
    rw [this, List.flatMap_cons, List.append_assoc]

/-- C20: in the procedure for the release of a client, for a fetched job that passes the
validation, the first failing step aborts all later steps: `processReleaseClient` returns
the outcome of its steps (status update, fetch, checkout, switch of the engine version,
build, listing, creation of the archive) made in order up to the first one that fails, that
is the error of this step and the events of the steps up to it and of no later step;
`Process` returns this error and reports it with the status error after the events of the
procedure; and when the steps before the build succeed and the automation tool exits with
status 1, the error text ends with `exit status 1`, no file is listed, no archive created,
nothing uploaded, and the one terminal status update reports the error with this text. -/
theorem Process_first_failing_step_aborts (cfg : Config) (sv : Services)
    (absent : Procedure → JobV2 → Option GoError × List Event) (ctx : Context)
    (job : JobV2) (ev : List Event) (release : ReleaseV2)
    (hfetched : FetchUnclaimedJob cfg sv ctx = (some job, none, ev))
    (hjob : enabled cfg.EnabledJobs job.Type_ = true)
    (htarget : enabled cfg.EnabledTargets job.Target = true)
    (hplatform : enabled cfg.EnabledPlatforms job.Platform = true)
    (htype : job.Type_ = JobMapping JobType.Release)
    (hclient : job.Target = TargetMapping TargetType.Client)
    (hrelease : job.Release = some release) (hid : release.Id.IsNil = false) :
    processReleaseClient cfg sv ctx (some job)
        = firstFailure (releaseClientSteps cfg sv ctx job release)
    ∧ (∀ (before after : List (Option GoError × List Event)) (err : GoError)
        (events : List Event),
        releaseClientSteps cfg sv ctx job release = before ++ (some err, events) :: after →
        (∀ s ∈ before, s.1 = none) →
        processReleaseClient cfg sv ctx (some job)
            = (some err, (before.flatMap fun s => s.2) ++ events)
          ∧ (Process cfg sv absent ctx).ret = some err
          ∧ (Process cfg sv absent ctx).events.filter Event.isTerminalUpdate
            = [Event.updateJobStatus job.Id JobStatusType.Error err.Error])
    ∧ (∃ logs, (∀ e ∈ logs, e.isLog = true)
        ∧ Process cfg sv absent ctx
          = { ret := (processReleaseClient cfg sv ctx (some job)).1,
              events := ev ++ (processReleaseClient cfg sv ctx (some job)).2
                ++ [reportEvent job (processReleaseClient cfg sv ctx (some job)).1] ++ logs,
              invoked := [Procedure.ReleaseClient] })
    ∧ ((UpdateJobStatus sv ctx (some job) JobStatusType.Processing []).1 = none →
        (Fetch sv.os ctx cfg.ProjectDirectory).1 = none →
        (CheckoutTag sv.os ctx cfg.ProjectDirectory release.CodeVersion).1 = none →
        (SwitchProjectEngineVersion cfg sv.os ctx cfg.ProjectDirectory cfg.ProjectName
          release.CodeVersion).1 = none →
        sv.os.stat cfg.ProjectDirectory ≠ StatResult.notExist →
        sv.os.lookPath cfg.Code.AutomationToolPath = true →
        (sv.os.output cfg.Code.AutomationToolPath
          (prepareArguments (generateReleaseClientCmdline cfg ctx (some job)).1
            (generateReleaseClientCmdline cfg ctx (some job)).2.1) cfg.ProjectDirectory).2
          = some (GoError.exitError (ProcessState.exited 1)) →
        ∃ err, (processReleaseClient cfg sv ctx (some job)).1 = some err
          ∧ (Process cfg sv absent ctx).ret = some err
          ∧ err.Error = ("failed to run Unreal Automation Tool: error executing command: "
              ++ "exit status 1\n").toList
          ∧ (∀ e ∈ (Process cfg sv absent ctx).events, e.isDelivery = false)
          ∧ (Process cfg sv absent ctx).events.filter Event.isTerminalUpdate
            = [Event.updateJobStatus job.Id JobStatusType.Error err.Error]) := by
  have hsteps := processReleaseClient_firstFailure cfg sv ctx job release hjob htarget
    hplatform hrelease hid
  obtain ⟨logs, hlogs, hP⟩ := Process_fetched cfg sv absent ctx job ev hfetched
  have hev : ev = [Event.fetchUnclaimedJob (unclaimedJobURL cfg)] := by
    have h := FetchUnclaimedJob_events cfg sv ctx
    rw [hfetched] at h
    exact h
  have h1 : ¬ (!enabled cfg.EnabledJobs job.Type_) = true := by simp [hjob]
  have h2 : ¬ (!enabled cfg.EnabledTargets job.Target) = true := by simp [htarget]
  have h3 : ¬ (!enabled cfg.EnabledPlatforms job.Platform) = true := by simp [hplatform]
  have h4 : ¬ job.Release.isNone = true := by simp [hrelease]
  have hvd : validateAndDispatch cfg sv absent ctx job
      = callProcedure cfg sv absent ctx Procedure.ReleaseClient job := by
    unfold validateAndDispatch
    rw [if_neg h1, if_neg h2, if_neg h3, if_pos htype, if_neg h4, if_pos hclient]
  have hvd1 : (validateAndDispatch cfg sv absent ctx job).1
      = (processReleaseClient cfg sv ctx (some job)).1 := by
    rw [hvd]; rfl
  have hvd2 : (validateAndDispatch cfg sv absent ctx job).2.1
      = (processReleaseClient cfg sv ctx (some job)).2 := by
    rw [hvd]; rfl
  have hvd3 : (validateAndDispatch cfg sv absent ctx job).2.2 = [Procedure.ReleaseClient] := by
    rw [hvd]; rfl
  rw [hvd1, hvd2, hvd3] at hP
  have hl := filter_logs logs hlogs
  have hf : ev.filter Event.isTerminalUpdate = [] := by rw [hev]; rfl
  have hb : (processReleaseClient cfg sv ctx (some job)).2.filter Event.isTerminalUpdate
      = [] := by
    rw [List.filter_eq_nil_iff]
    intro e he
    simp [processReleaseClient_not_terminal cfg sv ctx job e he]
  have hreport : ∀ err, (processReleaseClient cfg sv ctx (some job)).1 = some err →
      (Process cfg sv absent ctx).ret = some err
      ∧ (Process cfg sv absent ctx).events.filter Event.isTerminalUpdate
        = [Event.updateJobStatus job.Id JobStatusType.Error err.Error] := by
    intro err herr
    rw [hP, herr]
    refine ⟨rfl, ?_⟩
    simp only [List.filter_append, hf, hb, hl.1, List.nil_append, List.append_nil]
    rfl
  refine ⟨hsteps, ?_, ⟨logs, hlogs, hP⟩, ?_⟩
  · intro before after err events hsplit hbefore
    have hrun : processReleaseClient cfg sv ctx (some job)
        = (some err, (before.flatMap fun s => s.2) ++ events) := by
      rw [hsteps, hsplit]
      exact firstFailure_abort before after err events hbefore
    have h := hreport err (by rw [hrun])
    exact ⟨hrun, h.1, h.2⟩
  · intro hprocessing hfetch hcheckout hswitch hstat hlook hexit
    obtain ⟨err, hbuild, htext⟩ := RunAutomationTool_exit_error sv.os ctx cfg.ProjectDirectory
      cfg.Code.AutomationToolPath (generateReleaseClientCmdline cfg ctx (some job)).1
      (generateReleaseClientCmdline cfg ctx (some job)).2.1 1 hstat hlook hexit
    obtain ⟨hret, hevents⟩ := processReleaseClient_build_fails cfg sv ctx job release err hjob
      htarget hplatform hrelease hid hprocessing hfetch hcheckout hswitch hbuild
    have h := hreport err hret
    refine ⟨err, hret, h.1, ?_, ?_, h.2⟩
    · rw [htext]; rfl
    · rw [hP]
      intro e he
      simp only [List.mem_append, List.mem_singleton, hev] at he
      rcases he with ((he | he) | he) | he
      · subst he; rfl
      · rcases hevents e he with h | h
        · subst h; rfl
        · cases e <;> simp_all [Event.isCommand, Event.isDelivery]
      · subst he; rw [hret]; rfl
      · have := hlogs e he
        cases e <;> simp_all [Event.isLog, Event.isDelivery]

set_option maxRecDepth 100000 in
/-- Witness of C20: the sample job on a machine where the automation tool exits with
status 1; and the sample job on a machine where the fetch fails: the procedure ends with the
error of the fetch, after the status update and the one `git` command, and the job is
reported with the status error. -/
theorem Process_first_failing_step_aborts_witness :
    (∃ err,
      (processReleaseClient sampleConfig (sampleServices (jobReply sampleJob) buildFailsEnv)
          { cancelled := false } (some sampleJob)).1 = some err
        ∧ (Process sampleConfig (sampleServices (jobReply sampleJob) buildFailsEnv)
            idleProcedures { cancelled := false }).ret = some err
        ∧ err.Error = ("failed to run Unreal Automation Tool: error executing command: "
            ++ "exit status 1\n").toList
        ∧ (∀ e ∈ (Process sampleConfig (sampleServices (jobReply sampleJob) buildFailsEnv)
            idleProcedures { cancelled := false }).events, e.isDelivery = false)
        ∧ (Process sampleConfig (sampleServices (jobReply sampleJob) buildFailsEnv)
            idleProcedures { cancelled := false }).events.filter Event.isTerminalUpdate
          = [Event.updateJobStatus sampleJob.Id JobStatusType.Error err.Error])
    ∧ (processReleaseClient sampleConfig (sampleServices (jobReply sampleJob) fetchFailsEnv)
          { cancelled := false } (some sampleJob)).2
        = [Event.updateJobStatus sampleId JobStatusType.Processing [],
           Event.os (Call.stat "/proj".toList), Event.os (Call.lookPath "git".toList),
           Event.os (Call.output "git".toList ["fetch".toList] "/proj".toList),
           Event.os (Call.println "error executing command: exit status 128\n".toList)]
    ∧ (Process sampleConfig (sampleServices (jobReply sampleJob) fetchFailsEnv)
          idleProcedures { cancelled := false }).events.filter Event.isTerminalUpdate
        = [Event.updateJobStatus sampleId JobStatusType.Error
            ("failed to update the repo: failed to update the repo: "
              ++ "error executing command: exit status 128\n").toList] :=
  ⟨(Process_first_failing_step_aborts sampleConfig
      (sampleServices (jobReply sampleJob) buildFailsEnv)
      idleProcedures { cancelled := false } sampleJob
      [Event.fetchUnclaimedJob (unclaimedJobURL sampleConfig)] sampleRelease
      rfl rfl rfl rfl rfl rfl rfl (by decide)).2.2.2
      rfl (by decide) (by decide) (by decide) (by decide) rfl rfl,
    by decide,
    ((Process_first_failing_step_aborts sampleConfig
      (sampleServices (jobReply sampleJob) fetchFailsEnv)
      idleProcedures { cancelled := false } sampleJob
      [Event.fetchUnclaimedJob (unclaimedJobURL sampleConfig)] sampleRelease
      rfl rfl rfl rfl rfl rfl rfl (by decide)).2.1
      [(none, [Event.updateJobStatus sampleId JobStatusType.Processing []])]
      (List.drop 2 (releaseClientSteps sampleConfig
        (sampleServices (jobReply sampleJob) fetchFailsEnv) { cancelled := false } sampleJob
        sampleRelease))
      (GoError.wrapError ("failed to update the repo: failed to update the repo: "
          ++ "error executing command: exit status 128\n").toList
        (GoError.wrapError ("failed to update the repo: "
          ++ "error executing command: exit status 128\n").toList
          (GoError.wrapError "error executing command: exit status 128\n".toList
            (GoError.exitError (ProcessState.exited 128)))))
      [Event.os (Call.stat "/proj".toList), Event.os (Call.lookPath "git".toList),
        Event.os (Call.output "git".toList ["fetch".toList] "/proj".toList),
        Event.os (Call.println "error executing command: exit status 128\n".toList)]
      (by decide) (by decide)).2.2⟩

/-- Witness of C14: the sample job on a machine where every command succeeds; the one
terminal status update reports the outcome of the run. -/
theorem Process_reports_outcome_once_witness :
    (Process sampleConfig
        (sampleServices (jobReply sampleJob) (fixedEnv StatResult.ok true ([], none)))
        idleProcedures { cancelled := false }).events.filter Event.isTerminalUpdate
      = [reportEvent sampleJob
          (Process sampleConfig
            (sampleServices (jobReply sampleJob) (fixedEnv StatResult.ok true ([], none)))
            idleProcedures { cancelled := false }).ret] :=
  (Process_reports_outcome_once sampleConfig
    (sampleServices (jobReply sampleJob) (fixedEnv StatResult.ok true ([], none)))
    idleProcedures { cancelled := false } sampleJob
    [Event.fetchUnclaimedJob (unclaimedJobURL sampleConfig)] rfl
    (fun _ _ _ he => nomatch he)).1

/-! ## The multipart form: one boundary -/

theorem partsText_true (boundary : GoString) (parts : List GoString) :
    partsText boundary true parts
      = parts.flatMap fun p => "\r\n--".toList ++ boundary ++ "\r\n".toList ++ p := by
  induction parts with
  | nil => rfl
  | cons p rest ih => simp only [partsText, if_true, ih, List.flatMap_cons]

theorem partsText_false (boundary : GoString) (parts : List GoString) :
    partsText boundary false parts = delimitedParts boundary parts := by
  cases parts with
  | nil => rfl
  | cons p rest =>
    simp only [partsText, delimitedParts, partsText_true]
    simp

theorem partsText_append (boundary : GoString) (parts : List GoString) (p : GoString) :
    ∀ lastpart : Bool, partsText boundary lastpart (parts ++ [p])
      = partsText boundary lastpart parts
        ++ partsText boundary (lastpart || !parts.isEmpty) [p] := by
  induction parts with
  | nil => intro lastpart; simp [partsText]
  | cons q rest ih =>
    intro lastpart
    simp [partsText, ih true]

/-- The loop over the form fields writes one part per field, each after its delimiter. -/
theorem writeFields_parts (params : GoMap) :
    ∀ w : Writer, ∃ w2 parts, writeFields w params = .ok w2 ∧ w2.boundary = w.boundary
      ∧ parts.length = params.length
      ∧ w2.buf = w.buf ++ partsText w.boundary w.lastpart parts
      ∧ w2.lastpart = (w.lastpart || !parts.isEmpty) := by
  induction params with
  | nil => intro w; exact ⟨w, [], rfl, rfl, rfl, by simp [partsText], by simp⟩
  | cons kv params ih =>
    intro w
    obtain ⟨key, value⟩ := kv
    obtain ⟨w2, parts, h2, hb, hlen, hbuf, hlast⟩ := ih
      { buf := w.buf ++ ((if w.lastpart then "\r\n--".toList ++ w.boundary ++ "\r\n".toList
            else "--".toList ++ w.boundary ++ "\r\n".toList)
          ++ [("Content-Disposition".toList,
            "form-data; name=\"".toList ++ escapeQuotes key ++ "\"".toList)].flatMap
              (fun (k, v) => k ++ ": ".toList ++ v ++ "\r\n".toList)
          ++ "\r\n".toList) ++ value,
        boundary := w.boundary, lastpart := true }
    refine ⟨w2, ([("Content-Disposition".toList,
            "form-data; name=\"".toList ++ escapeQuotes key ++ "\"".toList)].flatMap
              (fun (k, v) => k ++ ": ".toList ++ v ++ "\r\n".toList)
          ++ "\r\n".toList ++ value) :: parts, ?_, hb, by simp [hlen], ?_, ?_⟩
    · simp only [writeFields, Writer.WriteField, Writer.CreateFormField, Writer.CreatePart]
      exact h2
    · rw [hbuf]
      simp only [partsText, List.append_assoc]
    · rw [hlast]; simp

theorem hexDigit_plain : ∀ n, n < 16 →
    "()<>@,;:\\\"/[]?= ".toList.contains (hexDigit n) = false := by
  decide

/-- A boundary drawn by the writer holds hexadecimal digits only, none of the characters for
which `FormDataContentType` quotes the boundary. -/
theorem randomBoundary_plain (rnd : List Nat) :
    ((randomBoundary rnd).any fun c => "()<>@,;:\\\"/[]?= ".toList.contains c) = false := by
  induction rnd with
  | nil => rfl
  | cons b rnd ih =>
    have h1 := hexDigit_plain (b % 256 / 16) (by omega)
    have h2 := hexDigit_plain (b % 16) (by omega)
    unfold randomBoundary at ih ⊢
    simp only [List.flatMap_cons, List.any_append, List.any_cons, List.any_nil, h1, h2, ih,
      Bool.or_false]

theorem FormDataContentType_eq (rnd : List Nat) (buf : GoString) (lastpart : Bool) :
    Writer.FormDataContentType { buf := buf, boundary := randomBoundary rnd, lastpart := lastpart }
      = "multipart/form-data; boundary=".toList ++ randomBoundary rnd := by
  have hp := randomBoundary_plain rnd
  unfold Writer.FormDataContentType
  simp only [hp]
  rfl

/-- The results of `prepareMultipartForm` by parts: one part per form field and the part of
the file, all delimited with the boundary of the content type. -/
theorem prepareMultipartForm_parts (rnd : List Nat) (params : GoMap) (fileInfo : FileInfo) :
    ∃ parts : List GoString, parts.length = params.length + 1 ∧
      prepareMultipartForm rnd params fileInfo
        = .ok ("multipart/form-data; boundary=".toList ++ randomBoundary rnd,
            delimitedParts (randomBoundary rnd) parts,
            delimitedParts (randomBoundary rnd) parts
              ++ ("\r\n--".toList ++ randomBoundary rnd ++ "--\r\n".toList)) := by
  obtain ⟨w2, parts, h2, hb, hlen, hbuf, hlast⟩ := writeFields_parts params (NewWriter rnd)
  have hb2 : w2.boundary = randomBoundary rnd := hb
  refine ⟨parts ++ [[("Content-Disposition".toList,
      "form-data; name=\"".toList ++ escapeQuotes "file".toList ++ "\"; filename=\"".toList
        ++ escapeQuotes fileInfo.Name ++ "\"".toList),
     ("Content-Type".toList, "application/octet-stream".toList)].flatMap
       (fun (k, v) => k ++ ": ".toList ++ v ++ "\r\n".toList) ++ "\r\n".toList], by simp [hlen], ?_⟩
  rw [← partsText_false, partsText_append]
  have hbuf2 : w2.buf = partsText (randomBoundary rnd) false parts := by
    rw [hbuf]; rfl
  have hlast2 : w2.lastpart = (false || !parts.isEmpty) := hlast
  unfold prepareMultipartForm
  simp only [h2, Writer.CreateFormFile, Writer.CreatePart, Writer.Close]
  rw [hb2, FormDataContentType_eq, hbuf2, hlast2]
  simp only [partsText, closingLine, List.append_assoc, List.append_nil]

/-- C24: `prepareMultipartForm` uses the one boundary `B` the writer drew: the content type
is `multipart/form-data; boundary=B`, the opening header is made of one part per form field
and the part of the file, the first after the line `--B` and every later one after a line
break and the line `--B`, and the closing boundary ends with the line `--B--`; and every
request `uploadEntityFile` sends carries exactly this content type in its `Content-Type`
header. -/
theorem prepareMultipartForm_one_boundary :
    (∀ (rnd : List Nat) (params : GoMap) (fileInfo : FileInfo),
      ∃ parts : List GoString, parts.length = params.length + 1 ∧
        prepareMultipartForm rnd params fileInfo
          = .ok ("multipart/form-data; boundary=".toList ++ randomBoundary rnd,
              delimitedParts (randomBoundary rnd) parts,
              delimitedParts (randomBoundary rnd) parts
                ++ ("\r\n--".toList ++ randomBoundary rnd ++ "--\r\n".toList)))
    ∧ (∀ (env : UploadEnv) (ctx : Context) (entityId : UUID)
        (fileType fileMime target platform path originalPath : GoString) (params : GoMap)
        (req : Request),
        UploadCall.doRequest req ∈ (uploadEntityFile env ctx entityId fileType fileMime
          target platform path originalPath params).calls →
        ∃ (file : File) (fileInfo : FileInfo) (openingHeader closingBoundary : GoString),
          env.openFile path = .ok (file, .ok fileInfo)
          ∧ prepareMultipartForm env.rnd params fileInfo
              = .ok ("multipart/form-data; boundary=".toList ++ randomBoundary env.rnd,
                  openingHeader, closingBoundary)
          ∧ req.Header.lookup "Content-Type".toList
              = some ("multipart/form-data; boundary=".toList ++ randomBoundary env.rnd)) := by
  refine ⟨prepareMultipartForm_parts, ?_⟩
  intro env ctx entityId fileType fileMime target platform path originalPath params req hreq
  unfold uploadEntityFile at hreq
  by_cases hnil : entityId.IsNil = true
  · simp only [hnil, if_true] at hreq
    simp at hreq
  · rw [if_neg hnil] at hreq
    cases hopen : env.openFile path with
    | error err =>
      simp only [hopen] at hreq
      simp at hreq
    | ok opened =>
      obtain ⟨file, statResult⟩ := opened
      cases statResult with
      | error err =>
        simp only [hopen] at hreq
        simp at hreq
      | ok fileInfo =>
        obtain ⟨parts, _, hform⟩ := prepareMultipartForm_parts env.rnd params fileInfo
        refine ⟨file, fileInfo, _, _, rfl, hform, ?_⟩
        simp only [hopen, hform] at hreq
        revert hreq
        cases hnew : env.newRequest _ with
        | some err => intro hreq; simp at hreq
        | none =>
          simp only []
          cases hdo : env.doRequest _ with
          | error err =>
            intro hreq
            simp only [List.mem_append, List.mem_cons, List.mem_singleton, reduceCtorEq,
              UploadCall.doRequest.injEq, List.not_mem_nil, or_false, false_or] at hreq
            subst hreq
            rfl
          | ok resp =>
            simp only []
            by_cases hst : resp.StatusCode ≥ 400
            · rw [if_pos hst]
              cases hbody : resp.Body with
              | error err =>
                intro hreq
                simp only [List.mem_append, List.mem_cons, List.mem_singleton, reduceCtorEq,
                  UploadCall.doRequest.injEq, List.not_mem_nil, or_false, false_or] at hreq
                subst hreq
                rfl
              | ok body =>
                intro hreq
                simp only [List.mem_append, List.mem_cons, List.mem_singleton, reduceCtorEq,
                  UploadCall.doRequest.injEq, List.not_mem_nil, or_false, false_or] at hreq
                subst hreq
                rfl
            · rw [if_neg hst]
              intro hreq
              simp only [List.mem_append, List.mem_cons, List.mem_singleton, reduceCtorEq,
                UploadCall.doRequest.injEq, List.not_mem_nil, or_false, false_or] at hreq
              subst hreq
              rfl

set_option maxRecDepth 100000 in
/-- Witness of C24: the sample upload sends a request, and its `Content-Type` header names
the boundary drawn from the sample random bytes. -/
theorem prepareMultipartForm_one_boundary_witness :
    UploadCall.doRequest sampleRequest ∈ sampleUpload.calls
      ∧ ∃ (file : File) (fileInfo : FileInfo) (openingHeader closingBoundary : GoString),
          sampleUploadEnv.openFile "a.zip".toList = .ok (file, .ok fileInfo)
          ∧ prepareMultipartForm sampleUploadEnv.rnd [] fileInfo
              = .ok ("multipart/form-data; boundary=".toList
                  ++ randomBoundary sampleUploadEnv.rnd, openingHeader, closingBoundary)
          ∧ sampleRequest.Header.lookup "Content-Type".toList
              = some ("multipart/form-data; boundary=".toList
                  ++ randomBoundary sampleUploadEnv.rnd) :=
  ⟨by decide, prepareMultipartForm_one_boundary.2 sampleUploadEnv { cancelled := false }
    sampleId "release".toList "application/zip".toList "Client".toList "Win64".toList
    "a.zip".toList "a.zip".toList [] sampleRequest (by decide)⟩

/-- C25: the closing boundary `prepareMultipartForm` returns is the opening header followed by
the trailing boundary line: the opening header is a prefix of it, differs from it, and is
shorter. -/
theorem prepareMultipartForm_closing_holds_header (rnd : List Nat) (params : GoMap)
    (fileInfo : FileInfo) :
    ∃ contentType openingHeader closingBoundary,
      prepareMultipartForm rnd params fileInfo
        = .ok (contentType, openingHeader, closingBoundary)
      ∧ closingBoundary = openingHeader ++ closingLine (randomBoundary rnd)
      ∧ openingHeader <+: closingBoundary
      ∧ openingHeader ≠ closingBoundary
      ∧ closingBoundary.length > openingHeader.length := by
  obtain ⟨header, _, hform⟩ := prepareMultipartForm_ok rnd params fileInfo
  have hlen : (header ++ closingLine (randomBoundary rnd)).length > header.length := by
    simp only [closingLine, List.length_append]
    have h3 : ("\r\n--".toList : GoString).length = 4 := rfl
    omega
  refine ⟨_, header, _, hform, rfl, List.prefix_append _ _, ?_, hlen⟩
  intro h
  rw [← h] at hlen
  omega

/-! ## The chunk loop when writes fail -/

/-- With a buffer that is not empty, and whatever writes fail, the chunk loop ends within as
many iterations as the file has bytes left, plus one; it appended one write per chunk read,
each of one to `chunkSize` bytes, and the chunks are the front of the file in order: all of it
unless a read failed. -/
theorem chunkLoop_any (chunkSize : Nat) (hcs : 0 < chunkSize) :
    ∀ (fuel : Nat) (file : File) (pw : PipeWriter) (log : List GoString),
      file.rest.length < fuel →
      ∃ (ws : List (GoString × Nat × Option GoError)) (file2 : File) (pw2 : PipeWriter)
          (log2 : List GoString),
        chunkLoop chunkSize fuel file pw log = some (file2, pw2, log2)
        ∧ pw2.events = pw.events ++ ws.map writeEvent
        ∧ (ws.map fun w => w.1).flatten ++ file2.rest = file.rest
        ∧ (∀ w ∈ ws, 1 ≤ w.1.length ∧ w.1.length ≤ chunkSize)
        ∧ ((∀ step ∈ file.plan, ∀ e, step ≠ ReadStep.fail e) → file2.rest = []) := by
  intro fuel
  induction fuel with
  | zero => intro file pw log h; omega
  | succ fuel ih =>
    intro file pw log h
    rcases hread : file.Read chunkSize with ⟨buffer, err, file1⟩
    cases err with
    | some e =>
      have hrest := File.Read_error_rest file chunkSize e (by rw [hread])
      rw [hread] at hrest
      simp only at hrest
      refine ⟨[], file1, pw, _, by simp only [chunkLoop, hread]; rfl, by simp,
        by simp [hrest], by simp, ?_⟩
      intro hplan
      have heof := File.Read_error_eof file chunkSize e hplan (by rw [hread])
      rw [hrest, heof.2]
    | none =>
      have hok := File.Read_ok file chunkSize hcs (by rw [hread])
      rw [hread] at hok
      simp only at hok
      obtain ⟨hpos, hle, hsplit, hplan1⟩ := hok
      have hlt : file1.rest.length < fuel := by
        have := congrArg List.length hsplit
        rw [List.length_append] at this
        omega
      have hw := PipeWriter.Write_events pw buffer
      obtain ⟨ws, file2, pw2, log2, hloop, hev, hflat, hchunks, hall⟩ :=
        ih file1 (pw.Write buffer).2.2
          (logError log "failed to write file bytes to the multipart form: ".toList
            (pw.Write buffer).2.1) hlt
      refine ⟨(buffer, (pw.Write buffer).1, (pw.Write buffer).2.1) :: ws, file2, pw2, log2,
        ?_, ?_, ?_, ?_, ?_⟩
      · simp only [chunkLoop, hread]
        exact hloop
      · rw [hev, hw.1]
        simp [writeEvent]
      · rw [List.map_cons, List.flatten_cons, List.append_assoc, hflat, hsplit]
      · intro w hw2
        rcases List.mem_cons.mp hw2 with h1 | h1
        · subst h1; exact ⟨hpos, hle⟩
        · exact hchunks w h1
      · intro hplan
        apply hall
        intro step hs
        rw [hplan1] at hs
        exact hplan step (List.mem_of_mem_tail hs)

/-- C27: for a buffer of at least one byte and whatever writes to the pipe fail (the opening
header, any chunk, the closing boundary), `uploadFileInChunks` returns, and the events on the
pipe are the write of the opening header, one write per chunk read, the write of the closing
boundary and then the `Close`; the chunks are the front of the file in order, and they are
the whole file unless a read of the file failed: only a read error or the end of the file
ends the chunk loop. -/
theorem uploadFileInChunks_survives_write_failures (file : File) (respond : Nat → Option Nat)
    (openingHeader closingBoundary : GoString) (chunkSize fuel : Nat)
    (hcs : 1 ≤ chunkSize) (hfuel : file.rest.length < fuel) :
    ∃ (ws : List (GoString × Nat × Option GoError)) (n0 n1 : Nat) (e0 e1 : Option GoError)
        (file2 : File) (pw2 : PipeWriter) (log : List GoString),
      uploadFileInChunks fuel file { respond := respond, events := [] } openingHeader
          closingBoundary chunkSize = some (file2, pw2, log)
      ∧ pw2.events = [PipeEvent.write openingHeader n0 e0] ++ ws.map writeEvent
          ++ [PipeEvent.write closingBoundary n1 e1, PipeEvent.close]
      ∧ (ws.map fun w => w.1).flatten ++ file2.rest = file.rest
      ∧ ((∀ step ∈ file.plan, ∀ e, step ≠ ReadStep.fail e) →
          file2.rest = [] ∧ (ws.map fun w => w.1).flatten = file.rest) := by
  have hw0 := (PipeWriter.Write_events { respond := respond, events := [] } openingHeader).1
  obtain ⟨ws, file2, pw1, log1, hloop, hev, hflat, _, hall⟩ :=
    chunkLoop_any chunkSize hcs fuel file
      (PipeWriter.Write { respond := respond, events := [] } openingHeader).2.2
      (logError [] "failed to write the opening header to the multipart form: ".toList
        (PipeWriter.Write { respond := respond, events := [] } openingHeader).2.1) hfuel
  have hw1 := (PipeWriter.Write_events pw1 closingBoundary).1
  refine ⟨ws, (PipeWriter.Write { respond := respond, events := [] } openingHeader).1,
    (pw1.Write closingBoundary).1,
    (PipeWriter.Write { respond := respond, events := [] } openingHeader).2.1,
    (pw1.Write closingBoundary).2.1, file2, (pw1.Write closingBoundary).2.2.Close.2,
    logError (logError log1 "failed to write the closing boundary to the multipart form: ".toList
      (pw1.Write closingBoundary).2.1) "failed to close the pipe writer: ".toList
      (pw1.Write closingBoundary).2.2.Close.1, ?_, ?_, hflat, ?_⟩
  · simp only [uploadFileInChunks, hloop]
  · simp only [PipeWriter.Close, hw1, hev, hw0]
    simp
  · intro hplan
    have h2 := hall hplan
    refine ⟨h2, ?_⟩
    rw [h2, List.append_nil] at hflat
    exact hflat

/-- Witness of C27: the write of the opening header and the write of the second chunk fail;
the three chunks of the file and the closing boundary are written all the same, then the
writer is closed. -/
theorem uploadFileInChunks_survives_write_failures_witness :
    ∃ (ws : List (GoString × Nat × Option GoError)) (n0 n1 : Nat) (e0 e1 : Option GoError)
        (file2 : File) (pw2 : PipeWriter) (log : List GoString),
      uploadFileInChunks 8 { rest := "abcdefg".toList, plan := [] }
          { respond := fun i => if i = 0 ∨ i = 2 then some 0 else none, events := [] }
          "H:".toList ":B".toList 3 = some (file2, pw2, log)
      ∧ pw2.events = [PipeEvent.write "H:".toList n0 e0] ++ ws.map writeEvent
          ++ [PipeEvent.write ":B".toList n1 e1, PipeEvent.close]
      ∧ (ws.map fun w => w.1).flatten ++ file2.rest = "abcdefg".toList
      ∧ ((∀ step ∈ ([] : List ReadStep), ∀ e, step ≠ ReadStep.fail e) →
          file2.rest = [] ∧ (ws.map fun w => w.1).flatten = "abcdefg".toList) :=
  uploadFileInChunks_survives_write_failures { rest := "abcdefg".toList, plan := [] }
    (fun i => if i = 0 ∨ i = 2 then some 0 else none) "H:".toList ":B".toList 3 8
    (by decide) (by decide)

/-- C28: for a buffer of at least one byte the chunk loop ends within as many iterations as
the file has bytes left, plus one, whatever reads and writes fail; and every write it issues
carries between one and `chunkSize` bytes. -/
theorem chunkLoop_terminates_with_bounded_writes (chunkSize fuel : Nat) (file : File)
    (pw : PipeWriter) (log : List GoString)
    (hcs : 1 ≤ chunkSize) (hfuel : file.rest.length < fuel) :
    ∃ (ws : List (GoString × Nat × Option GoError)) (file2 : File) (pw2 : PipeWriter)
        (log2 : List GoString),
      chunkLoop chunkSize fuel file pw log = some (file2, pw2, log2)
      ∧ pw2.events = pw.events ++ ws.map writeEvent
      ∧ ∀ w ∈ ws, 1 ≤ w.1.length ∧ w.1.length ≤ chunkSize := by
  obtain ⟨ws, file2, pw2, log2, hloop, hev, _, hchunks, _⟩ :=
    chunkLoop_any chunkSize hcs fuel file pw log hfuel
  exact ⟨ws, file2, pw2, log2, hloop, hev, hchunks⟩

/-- Witness of C28: a file of seven bytes, a buffer of three bytes, a short read and a failing
write. -/
theorem chunkLoop_terminates_with_bounded_writes_witness :
    ∃ (ws : List (GoString × Nat × Option GoError)) (file2 : File) (pw2 : PipeWriter)
        (log2 : List GoString),
      chunkLoop 3 8 { rest := "abcdefg".toList, plan := [ReadStep.short 1] }
          { respond := fun i => if i = 1 then some 0 else none, events := [] } []
        = some (file2, pw2, log2)
      ∧ pw2.events = [] ++ ws.map writeEvent
      ∧ ∀ w ∈ ws, 1 ≤ w.1.length ∧ w.1.length ≤ 3 :=
  chunkLoop_terminates_with_bounded_writes 3 8
    { rest := "abcdefg".toList, plan := [ReadStep.short 1] }
    { respond := fun i => if i = 1 then some 0 else none, events := [] } []
    (by decide) (by decide)

/-! ## Template expansion: order of the entries -/

/-- What the lookup finds is one of the pairs, and its old string is a prefix of the input. -/
theorem lookup_some_mem (pairs : List (GoString × GoString)) (s : GoString) (b : Bool)
    (x : GoString × GoString) (h : lookup pairs s b = some x) : x ∈ pairs ∧ x.1 <+: s := by
  induction pairs with
  | nil => simp [lookup] at h
  | cons p rest ih =>
    obtain ⟨old, new⟩ := p
    by_cases hc : (old.isPrefixOf s && !(b && old.isEmpty)) = true
    · simp only [lookup, hc, if_true, Option.some.injEq] at h
      subst h
      simp only [Bool.and_eq_true] at hc
      exact ⟨List.mem_cons_self _ _, List.isPrefixOf_iff_prefix.mp hc.1⟩
    · simp only [lookup, hc] at h
      obtain ⟨h1, h2⟩ := ih h
      exact ⟨List.mem_cons_of_mem _ h1, h2⟩

/-- Where the lookup finds nothing, no old string that is not empty is a prefix of the
input. -/
theorem lookup_none_no_match (pairs : List (GoString × GoString)) (s : GoString) (b : Bool)
    (h : lookup pairs s b = none) : ∀ y ∈ pairs, y.1 ≠ [] → ¬ y.1 <+: s := by
  induction pairs with
  | nil => intro y hy; simp at hy
  | cons p rest ih =>
    obtain ⟨old, new⟩ := p
    by_cases hc : (old.isPrefixOf s && !(b && old.isEmpty)) = true
    · rw [lookup, if_pos hc] at h
      cases h
    · simp only [lookup, hc] at h
      intro y hy hne hpre
      rcases List.mem_cons.mp hy with h1 | h1
      · subst h1
        apply hc
        have h2 : old.isPrefixOf s = true := List.isPrefixOf_iff_prefix.mpr hpre
        have h3 : old.isEmpty = false := by
          cases old with
          | nil => exact absurd rfl hne
          | cons c t => rfl
        simp [h2, h3]
      · exact ih h y h1 hne hpre

/-- When at most one of the pairs matches at the front of the input, the lookup does not
depend on the order of the pairs. -/
theorem lookup_perm (p q : List (GoString × GoString)) (s : GoString) (b : Bool)
    (hperm : p.Perm q) (hne : ∀ x ∈ p, x.1 ≠ [])
    (huniq : ∀ x ∈ p, ∀ y ∈ p, x.1 <+: s → y.1 <+: s → x = y) :
    lookup p s b = lookup q s b := by
  cases hp : lookup p s b with
  | none =>
    have hnone := lookup_none_no_match p s b hp
    cases hq : lookup q s b with
    | none => rfl
    | some y =>
      obtain ⟨hy, hpre⟩ := lookup_some_mem q s b y hq
      have hy2 : y ∈ p := hperm.symm.subset hy
      exact absurd hpre (hnone y hy2 (hne y hy2))
  | some x =>
    obtain ⟨hx, hxpre⟩ := lookup_some_mem p s b x hp
    cases hq : lookup q s b with
    | none =>
      have hnone := lookup_none_no_match q s b hq
      exact absurd hxpre (hnone x (hperm.subset hx) (hne x hx))
    | some y =>
      obtain ⟨hy, hypre⟩ := lookup_some_mem q s b y hq
      rw [huniq x hx y (hperm.symm.subset hy) hxpre hypre]

/-- The replacer reads its pairs through the lookup only. -/
theorem replaceLoop_congr (p q : List (GoString × GoString))
    (h : ∀ t b, lookup p t b = lookup q t b) :
    ∀ (s : GoString) (n : Nat), replaceLoop p s n = replaceLoop q s n := by
  intro s
  induction s with
  | nil => intro n; simp only [replaceLoop, h]
  | cons c t ih =>
    intro n
    cases n with
    | succ k => simp only [replaceLoop, ih]
    | zero => simp only [replaceLoop, h, ih]

/-- Of the patterns of `expand` for a map with distinct keys that hold no closing brace, at
most one matches at the front of an input. -/
theorem expandPairs_unique (m : GoMap) (s : GoString) (hdistinct : KeysDistinct m)
    (hkeys : ∀ kv ∈ m, '}' ∉ kv.1) :
    ∀ x ∈ expandPairs m, ∀ y ∈ expandPairs m, x.1 <+: s → y.1 <+: s → x = y := by
  intro x hx y hy hxs hys
  obtain ⟨kv, hkv, rfl⟩ := mem_expandPairs hx
  obtain ⟨kw, hkw, rfl⟩ := mem_expandPairs hy
  have hkey : kv.1 = kw.1 := by
    rcases List.prefix_or_prefix_of_prefix hxs hys with h | h
    · simp only [List.cons_prefix_cons, true_and] at h
      have h2 : (kv.1 ++ ['}']) <+: (kw.1 ++ '}' :: []) := h
      exact brace_key_unique kw.1 (hkeys kw hkw) kv.1 [] (Or.inr rfl) h2
    · simp only [List.cons_prefix_cons, true_and] at h
      have h2 : (kw.1 ++ ['}']) <+: (kv.1 ++ '}' :: []) := h
      exact (brace_key_unique kv.1 (hkeys kv hkv) kw.1 [] (Or.inr rfl) h2).symm
  have : kv = kw := List.inj_on_of_nodup_map hdistinct hkv hkw hkey
  rw [this]

/-- C26: for a map whose keys are distinct and hold no closing brace, `expand` gives the same
result for every order in which the entries of the map are visited, that is for every order
of the old/new pairs handed to the replacer. -/
theorem expand_order_independent (m m2 : GoMap) (s : GoString)
    (hperm : m.Perm m2) (hdistinct : KeysDistinct m) (hkeys : ∀ kv ∈ m, '}' ∉ kv.1) :
    expand m2 s = expand m s := by
  rw [expand_eq, expand_eq]
  have hp : (expandPairs m).Perm (expandPairs m2) := hperm.map _
  have hne : ∀ x ∈ expandPairs m, x.1 ≠ [] := by
    intro x hx
    obtain ⟨kv, _, rfl⟩ := mem_expandPairs hx
    exact List.cons_ne_nil _ _
  exact (replaceLoop_congr (expandPairs m) (expandPairs m2)
    (fun t b => lookup_perm _ _ t b hp hne (expandPairs_unique m t hdistinct hkeys)) s 0).symm

/-- Witness of C26: the entries `a` and `ab` in both orders. -/
theorem expand_order_independent_witness :
    expand [("ab".toList, "2".toList), ("a".toList, "1".toList)] "\x7bab\x7d-\x7ba\x7d".toList
      = expand [("a".toList, "1".toList), ("ab".toList, "2".toList)] "\x7bab\x7d-\x7ba\x7d".toList :=
  expand_order_independent [("a".toList, "1".toList), ("ab".toList, "2".toList)]
    [("ab".toList, "2".toList), ("a".toList, "1".toList)] "\x7bab\x7d-\x7ba\x7d".toList
    (List.Perm.swap _ _ _) (by unfold KeysDistinct; decide) (by decide)

/-! ## The job pipeline: the upload -/

set_option maxRecDepth 100000 in
/-- C21: the result of `processReleaseClient` does not depend on the outcome of the upload;
for the sample job, when the build, the listing and the archive succeed and the upload fails,
the upload is attempted, `Process` returns nil and the only terminal status update reports the
job as completed. -/
theorem Process_upload_failure_reported_completed :
    (∀ (cfg : Config) (sv : Services) (ctx : Context) (job : Option JobV2)
        (upload : JobV2 → GoString → Option GoError),
        processReleaseClient cfg { sv with releaseArchive := upload } ctx job
          = processReleaseClient cfg sv ctx job)
    ∧ uploadFailsServices.releaseArchive sampleJob sampleZipName
        = some (.errorString "failed to send request: connection refused".toList)
    ∧ Event.releaseArchive sampleId sampleZipName
        ∈ (Process sampleConfig uploadFailsServices idleProcedures { cancelled := false }).events
    ∧ (Process sampleConfig uploadFailsServices idleProcedures { cancelled := false }).ret = none
    ∧ (Process sampleConfig uploadFailsServices idleProcedures
          { cancelled := false }).events.filter Event.isTerminalUpdate
        = [Event.updateJobStatus sampleId JobStatusType.Completed []] :=
  ⟨fun _ _ _ _ _ => rfl, rfl, by decide, by decide, by decide⟩

set_option maxRecDepth 100000 in
/-- C22: when the release asks for an archive, the one upload is that of the archive; when it
does not, `processReleaseClient` uploads nothing: for the sample job without the archive
option the staging directory is listed and holds a file, no upload is made, and the job is
reported as completed. -/
theorem processReleaseClient_uploads_no_staged_file :
    (∀ (cfg : Config) (sv : Services) (ctx : Context) (j : JobV2) (release : ReleaseV2),
        j.Release = some release → release.Archive = false →
        ∀ e ∈ (processReleaseClient cfg sv ctx (some j)).2, e.isUpload = false)
    ∧ (Process sampleConfig
          (sampleServices (jobReply sampleJob) (fixedEnv StatResult.ok true ([], none)))
          idleProcedures { cancelled := false }).events.filter Event.isUpload
        = [Event.releaseArchive sampleId sampleZipName]
    ∧ Event.listFiles "/proj/Saved/StagedBuilds/1.0".toList [".git".toList]
        ∈ (Process sampleConfig
          (sampleServices (jobReply sampleJobFiles) (fixedEnv StatResult.ok true ([], none)))
          idleProcedures { cancelled := false }).events
    ∧ (sampleServices (jobReply sampleJobFiles)
          (fixedEnv StatResult.ok true ([], none))).listFiles
          "/proj/Saved/StagedBuilds/1.0".toList [".git".toList] = .ok ["a.pak".toList]
    ∧ (Process sampleConfig
          (sampleServices (jobReply sampleJobFiles) (fixedEnv StatResult.ok true ([], none)))
          idleProcedures { cancelled := false }).events.filter Event.isUpload = []
    ∧ (Process sampleConfig
          (sampleServices (jobReply sampleJobFiles) (fixedEnv StatResult.ok true ([], none)))
          idleProcedures { cancelled := false }).events.filter Event.isTerminalUpdate
        = [Event.updateJobStatus sampleId JobStatusType.Completed []] := by
  refine ⟨?_, by decide, by decide, rfl, by decide, by decide⟩
  intro cfg sv ctx j release hrel harch
  have hup := UpdateJobStatus_events sv ctx j JobStatusType.Processing []
  unfold processReleaseClient
  simp only [hrel, harch]
  repeat' split
  all_goals
    simp only [hup, List.forall_mem_append, List.forall_mem_singleton, and_assoc]
  all_goals repeat' apply And.intro
  all_goals
    first
      | rfl
      | exact fun e he => by
          unfold osEvents at he
          rw [List.mem_map] at he
          obtain ⟨c, _, rfl⟩ := he
          rfl
      | contradiction

/-! ## The command line of the release -/

theorem mem_of_lookup_eq_some (m : GoMap) (k v : GoString) (h : m.lookup k = some v) :
    (k, v) ∈ m := by
  induction m with
  | nil => simp at h
  | cons kv m ih =>
    obtain ⟨a, w⟩ := kv
    by_cases hk : k = a
    · subst hk
      have hw : w = v := by simpa [List.lookup] using h
      rw [hw]; exact List.mem_cons_self _ _
    · have hne : (k == a) = false := by rw [beq_eq_false_iff_ne]; exact hk
      have h2 : m.lookup k = some v := by simpa [List.lookup, hne] using h
      exact List.mem_cons_of_mem _ (ih h2)

/-- A text without an opening brace is its own expansion. -/
theorem expand_literal (m : GoMap) (t : GoString) (ht : '{' ∉ t) : expand m t = t := by
  have h := replaceLoop_expand_literal m t [] ht
  rw [List.append_nil, replaceLoop_expand_nil, List.append_nil] at h
  rw [expand_eq, h]

/-- A text without an opening brace followed by one placeholder whose key is in the map
expands to the text followed by the value of the key. -/
theorem expand_literal_key (m : GoMap) (t k v : GoString) (ht : '{' ∉ t) (hk : '}' ∉ k)
    (hv : m.lookup k = some v) : expand m (t ++ '{' :: (k ++ ['}'])) = t ++ v := by
  have h1 := replaceLoop_expand_literal m t ('{' :: (k ++ ['}'])) ht
  have huniq : ∀ kv ∈ m, ('{' :: (kv.1 ++ ['}'])) <+: ('{' :: (k ++ '}' :: [])) → kv.1 = k := by
    intro kv _ hpre
    simp only [List.cons_prefix_cons, true_and] at hpre
    exact brace_key_unique k hk kv.1 [] (Or.inr rfl) hpre
  have h2 := replaceLoop_expand_key m k v [] huniq hv
  rw [replaceLoop_expand_nil, List.append_nil] at h2
  rw [expand_eq, h1, h2]

/-- The expansion of an expandable field holds no brace, when the keys and the values of the
map hold none. -/
theorem expand_fieldExpandable (m : GoMap) (field : GoString)
    (hkeys : ∀ kv ∈ m, '}' ∉ kv.1)
    (hvalues : ∀ kv ∈ m, '{' ∉ kv.2 ∧ '}' ∉ kv.2)
    (hfield : fieldExpandable (m.map Prod.fst) field = true) :
    '{' ∉ expand m field ∧ '}' ∉ expand m field := by
  unfold fieldExpandable at hfield
  simp only [Bool.and_eq_true, Bool.not_eq_true', Bool.or_eq_true, List.any_eq_true,
    beq_iff_eq] at hfield
  obtain ⟨hclose, hrest⟩ := hfield
  have hsplit : field = field.takeWhile (fun c => c != '{') ++ field.dropWhile (fun c => c != '{') :=
    (List.takeWhile_append_dropWhile _ _).symm
  have hopen : '{' ∉ field.takeWhile (fun c => c != '{') := by
    intro hmem
    have := List.mem_takeWhile_imp hmem
    simp at this
  have hclose2 : '}' ∉ field.takeWhile (fun c => c != '{') := by
    intro hmem
    have : (field.takeWhile (fun c => c != '{')).contains '}' = true := by
      simpa using hmem
    rw [hclose] at this
    cases this
  rcases hrest with hnil | ⟨k, hk, hkrest⟩
  · have hnil2 : field.dropWhile (fun c => c != '{') = [] := by
      simpa using hnil
    rw [hnil2, List.append_nil] at hsplit
    rw [hsplit, expand_literal m _ hopen]
    exact ⟨hopen, hclose2⟩
  · obtain ⟨v, hv⟩ := lookup_isSome_of_mem_keys m k hk
    have hmem := mem_of_lookup_eq_some m k v hv
    have hk2 : '}' ∉ k := hkeys (k, v) hmem
    have hv2 := hvalues (k, v) hmem
    rw [hkrest] at hsplit
    rw [hsplit, expand_literal_key m _ k v hopen hk2 hv]
    constructor
    · intro hm
      rcases List.mem_append.mp hm with h | h
      · exact hopen h
      · exact hv2.1 h
    · intro hm
      rcases List.mem_append.mp hm with h | h
      · exact hclose2 h
      · exact hv2.2 h

set_option maxRecDepth 1000000 in
/-- C30: for a job with a release whose id is not nil, in the shipping configuration or not,
`generateReleaseClientCmdline` returns no error, every placeholder of the command line it
returns is a key of the map it returns, and when the values of the map hold no brace, no
argument that `prepareArguments` makes of the two holds a brace. -/
theorem generateReleaseClientCmdline_placeholders_expanded (cfg : Config) (ctx : Context)
    (job : JobV2) (release : ReleaseV2)
    (hrel : job.Release = some release) (hid : release.Id.IsNil = false) :
    (generateReleaseClientCmdline cfg ctx (some job)).2.2 = none
    ∧ (∀ name ∈ placeholderNames (generateReleaseClientCmdline cfg ctx (some job)).1,
        name ∈ (generateReleaseClientCmdline cfg ctx (some job)).2.1.map Prod.fst)
    ∧ ((∀ kv ∈ (generateReleaseClientCmdline cfg ctx (some job)).2.1,
          '{' ∉ kv.2 ∧ '}' ∉ kv.2) →
        ∀ arg ∈ prepareArguments (generateReleaseClientCmdline cfg ctx (some job)).1
            (generateReleaseClientCmdline cfg ctx (some job)).2.1,
          '{' ∉ arg ∧ '}' ∉ arg) := by
  have hkeysEq : (generateReleaseClientCmdline cfg ctx (some job)).2.1.map Prod.fst
      = ["project".toList, "unrealexe".toList, "configuration".toList, "platform".toList,
          "maps".toList, "releaseVersion".toList, "stagingDirectory".toList] := by
    simp only [generateReleaseClientCmdline, hrel, hid]
    rfl
  have hkeys : ∀ kv ∈ (generateReleaseClientCmdline cfg ctx (some job)).2.1, '}' ∉ kv.1 := by
    intro kv hkv
    have hmem : kv.1 ∈ (generateReleaseClientCmdline cfg ctx (some job)).2.1.map Prod.fst :=
      List.mem_map_of_mem _ hkv
    rw [hkeysEq] at hmem
    revert hmem
    generalize kv.1 = k
    revert k
    decide
  have hcases : (∀ name ∈ placeholderNames (generateReleaseClientCmdline cfg ctx (some job)).1,
        name ∈ ["project".toList, "unrealexe".toList, "configuration".toList,
          "platform".toList, "maps".toList, "releaseVersion".toList,
          "stagingDirectory".toList])
      ∧ ∀ field ∈ Fields (generateReleaseClientCmdline cfg ctx (some job)).1,
          fieldExpandable ["project".toList, "unrealexe".toList, "configuration".toList,
            "platform".toList, "maps".toList, "releaseVersion".toList,
            "stagingDirectory".toList] field = true := by
    by_cases hship : job.Configuration = "Shipping".toList
    · simp only [generateReleaseClientCmdline, hrel, hid, hship, Bool.false_eq_true,
        ↓reduceIte]
      decide
    · simp only [generateReleaseClientCmdline, hrel, hid, hship, Bool.false_eq_true,
        ↓reduceIte]
      decide
  refine ⟨?_, ?_, ?_⟩
  · simp only [generateReleaseClientCmdline, hrel, hid]
    rfl
  · rw [hkeysEq]
    exact hcases.1
  · intro hvalues arg harg
    unfold prepareArguments at harg
    rw [List.mem_map] at harg
    obtain ⟨field, hfield, rfl⟩ := harg
    apply expand_fieldExpandable _ _ hkeys hvalues
    rw [hkeysEq]
    exact hcases.2 field hfield

set_option maxRecDepth 1000000 in
/-- Witness of C30: the sample job in the shipping configuration; its placeholders are keys
of the map, the values of the map hold no brace, and no argument holds one. -/
theorem generateReleaseClientCmdline_placeholders_expanded_witness :
    sampleJob.Release = some sampleRelease ∧ sampleRelease.Id.IsNil = false
    ∧ (generateReleaseClientCmdline sampleConfig { cancelled := false }
        (some sampleJob)).2.2 = none
    ∧ (∀ name ∈ placeholderNames (generateReleaseClientCmdline sampleConfig
          { cancelled := false } (some sampleJob)).1,
        name ∈ (generateReleaseClientCmdline sampleConfig { cancelled := false }
          (some sampleJob)).2.1.map Prod.fst)
    ∧ ∀ arg ∈ prepareArguments
          (generateReleaseClientCmdline sampleConfig { cancelled := false } (some sampleJob)).1
          (generateReleaseClientCmdline sampleConfig { cancelled := false }
            (some sampleJob)).2.1,
        '{' ∉ arg ∧ '}' ∉ arg :=
  have h := generateReleaseClientCmdline_placeholders_expanded sampleConfig
    { cancelled := false } sampleJob sampleRelease rfl (by decide)
  ⟨rfl, by decide, h.1, h.2.1, h.2.2 (by decide)⟩

/-! ## Paths: lemmas -/

end CloudBuilder
